import Mathlib

/-!
langgraphgo: schema, reducers and the super-step scheduler.

A shallow embedding of `graph/schema.go`, `graph/add_messages.go`,
`graph/command.go`, `graph/graph.go` and `graph/state_graph.go`.

Modelling conventions.

* Go's `interface{}` is the inductive type `Value`, restricted to the shapes the
  engine inspects: nil, int, string, slices (with their element type),
  `map[string]interface{}`, structs, pointers, `*Command`, and values whose
  type implements `MessageWithID`. `typeOf` is the dynamic type;
  assignability is identity of types or assignment to the empty interface.
* A Go map is an association list read with `mapGet` (first binding wins) and
  written with `mapSet`. A well-formed map has pairwise distinct keys. Ranging
  over a map is taken in list order; for the set of next nodes this is the
  insertion order (Go leaves the order unspecified).
* A function returning `(interface{}, error)` returns a `Res`: a value, an
  error, or `panic` when the Go call panics (failed `reflect` calls and type
  assertions).
* Node functions, conditions, reducers and mergers are functions of their
  arguments. The goroutines of a super-step all read the same state and write
  their own slot, so the step is the list of their results in frontier order.
* Callbacks and the tracer only observe and are left out.
* The scheduler loop takes a bound `fuel` on the number of passes and reports
  `outOfFuel` beyond it. A `Trace` also records, for every pass, the nodes whose
  function was called and the state handed to them.
-/

set_option autoImplicit false

namespace Graph

/-! ## Values and dynamic types -/

/-- Dynamic Go types of the modelled values. -/
inductive GoType where
  | int
  | string
  | iface
  | mapStrAny
  | slice (elem : GoType)
  | named (name : String)
  | ptr (elem : GoType)
  deriving DecidableEq, Repr

/-- Values of static type `interface{}`. -/
inductive Value where
  | nil
  | int (n : Int)
  | str (s : String)
  | slice (elem : GoType) (xs : List Value)
  | map (m : List (String × Value))
  | struct (name : String) (fields : List (String × Value))
  | ptr (v : Value)
  | command (update : Value) (goto : Value)
  | withID (name : String) (id : String) (content : Value)
  deriving Repr

mutual
/-- Decision procedure for equality of values. -/
def Value.decEq : (a b : Value) → Decidable (a = b)
  | .nil, .nil => isTrue rfl
  | .int a, .int b =>
    if h : a = b then isTrue (by rw [h]) else isFalse (by intro e; cases e; exact h rfl)
  | .str a, .str b =>
    if h : a = b then isTrue (by rw [h]) else isFalse (by intro e; cases e; exact h rfl)
  | .slice t xs, .slice u ys =>
    if h : t = u then
      match Value.decEqList xs ys with
      | isTrue h2 => isTrue (by rw [h, h2])
      | isFalse h2 => isFalse (by intro e; cases e; exact h2 rfl)
    else isFalse (by intro e; cases e; exact h rfl)
  | .map m, .map n =>
    match Value.decEqMap m n with
    | isTrue h2 => isTrue (by rw [h2])
    | isFalse h2 => isFalse (by intro e; cases e; exact h2 rfl)
  | .struct a m, .struct b n =>
    if h : a = b then
      match Value.decEqMap m n with
      | isTrue h2 => isTrue (by rw [h, h2])
      | isFalse h2 => isFalse (by intro e; cases e; exact h2 rfl)
    else isFalse (by intro e; cases e; exact h rfl)
  | .ptr a, .ptr b =>
    match Value.decEq a b with
    | isTrue h => isTrue (by rw [h])
    | isFalse h => isFalse (by intro e; cases e; exact h rfl)
  | .command u g, .command v k =>
    match Value.decEq u v, Value.decEq g k with
    | isTrue h1, isTrue h2 => isTrue (by rw [h1, h2])
    | isFalse h1, _ => isFalse (by intro e; cases e; exact h1 rfl)
    | _, isFalse h2 => isFalse (by intro e; cases e; exact h2 rfl)
  | .withID a i c, .withID b j d =>
    if h : a = b ∧ i = j then
      match Value.decEq c d with
      | isTrue h2 => isTrue (by rw [h.1, h.2, h2])
      | isFalse h2 => isFalse (by intro e; cases e; exact h2 rfl)
    else isFalse (by intro e; cases e; exact h ⟨rfl, rfl⟩)
  | .nil, .int _ | .nil, .str _ | .nil, .slice _ _ | .nil, .map _ | .nil, .struct _ _
  | .nil, .ptr _ | .nil, .command _ _ | .nil, .withID _ _ _ => isFalse (by intro e; cases e)
  | .int _, .nil | .int _, .str _ | .int _, .slice _ _ | .int _, .map _ | .int _, .struct _ _
  | .int _, .ptr _ | .int _, .command _ _ | .int _, .withID _ _ _ => isFalse (by intro e; cases e)
  | .str _, .nil | .str _, .int _ | .str _, .slice _ _ | .str _, .map _ | .str _, .struct _ _
  | .str _, .ptr _ | .str _, .command _ _ | .str _, .withID _ _ _ => isFalse (by intro e; cases e)
  | .slice _ _, .nil | .slice _ _, .int _ | .slice _ _, .str _ | .slice _ _, .map _
  | .slice _ _, .struct _ _ | .slice _ _, .ptr _ | .slice _ _, .command _ _
  | .slice _ _, .withID _ _ _ => isFalse (by intro e; cases e)
  | .map _, .nil | .map _, .int _ | .map _, .str _ | .map _, .slice _ _ | .map _, .struct _ _
  | .map _, .ptr _ | .map _, .command _ _ | .map _, .withID _ _ _ => isFalse (by intro e; cases e)
  | .struct _ _, .nil | .struct _ _, .int _ | .struct _ _, .str _ | .struct _ _, .slice _ _
  | .struct _ _, .map _ | .struct _ _, .ptr _ | .struct _ _, .command _ _
  | .struct _ _, .withID _ _ _ => isFalse (by intro e; cases e)
  | .ptr _, .nil | .ptr _, .int _ | .ptr _, .str _ | .ptr _, .slice _ _ | .ptr _, .map _
  | .ptr _, .struct _ _ | .ptr _, .command _ _ | .ptr _, .withID _ _ _ =>
    isFalse (by intro e; cases e)
  | .command _ _, .nil | .command _ _, .int _ | .command _ _, .str _ | .command _ _, .slice _ _
  | .command _ _, .map _ | .command _ _, .struct _ _ | .command _ _, .ptr _
  | .command _ _, .withID _ _ _ => isFalse (by intro e; cases e)
  | .withID _ _ _, .nil | .withID _ _ _, .int _ | .withID _ _ _, .str _
  | .withID _ _ _, .slice _ _ | .withID _ _ _, .map _ | .withID _ _ _, .struct _ _
  | .withID _ _ _, .ptr _ | .withID _ _ _, .command _ _ => isFalse (by intro e; cases e)
/-- Decision procedure for equality of lists of values. -/
def Value.decEqList : (a b : List Value) → Decidable (a = b)
  | [], [] => isTrue rfl
  | x :: xs, y :: ys =>
    match Value.decEq x y, Value.decEqList xs ys with
    | isTrue h1, isTrue h2 => isTrue (by rw [h1, h2])
    | isFalse h1, _ => isFalse (by intro e; cases e; exact h1 rfl)
    | _, isFalse h2 => isFalse (by intro e; cases e; exact h2 rfl)
  | [], _ :: _ => isFalse (by intro e; cases e)
  | _ :: _, [] => isFalse (by intro e; cases e)
/-- Decision procedure for equality of keyed lists of values. -/
def Value.decEqMap : (a b : List (String × Value)) → Decidable (a = b)
  | [], [] => isTrue rfl
  | (k, x) :: xs, (l, y) :: ys =>
    if hk : k = l then
      match Value.decEq x y, Value.decEqMap xs ys with
      | isTrue h1, isTrue h2 => isTrue (by rw [hk, h1, h2])
      | isFalse h1, _ => isFalse (by intro e; cases e; exact h1 rfl)
      | _, isFalse h2 => isFalse (by intro e; cases e; exact h2 rfl)
    else isFalse (by intro e; cases e; exact hk rfl)
  | [], _ :: _ => isFalse (by intro e; cases e)
  | _ :: _, [] => isFalse (by intro e; cases e)
end

instance : DecidableEq Value := Value.decEq

/-- The dynamic type `reflect.TypeOf` reports; `none` for the nil interface. -/
def typeOf : Value → Option GoType
  | .nil => none
  | .int _ => some .int
  | .str _ => some .string
  | .slice t _ => some (.slice t)
  | .map _ => some .mapStrAny
  | .struct name _ => some (.named name)
  | .ptr v => (typeOf v).map GoType.ptr
  | .command _ _ => some (.ptr (.named "Command"))
  | .withID name _ _ => some (.named name)

/-- Assignability `src.AssignableTo(dst)` on the modelled types: identical
types, or any type to the empty interface. -/
def assignableTo (src dst : GoType) : Bool :=
  decide (src = dst) || decide (dst = GoType.iface)

/-! ## Go maps as association lists -/

/-- Lookup `m[k]` with the presence flag: the first binding of `k`. -/
def mapGet {α : Type} : List (String × α) → String → Option α
  | [], _ => none
  | (k', v) :: rest, k => if k' = k then some v else mapGet rest k

/-- Assignment `m[k] = v`: replaces the binding of `k`, or adds one. -/
def mapSet {α : Type} : List (String × α) → String → α → List (String × α)
  | [], k, v => [(k, v)]
  | (k', v') :: rest, k, v =>
    if k' = k then (k, v) :: rest else (k', v') :: mapSet rest k v

/-- Keys of a map. -/
def mapKeys {α : Type} (m : List (String × α)) : List String := m.map Prod.fst

/-- Whether the map has a binding for the key. -/
def mapHas {α : Type} (m : List (String × α)) (k : String) : Bool := (mapGet m k).isSome

/-! ## Errors and results -/

/-- Modelled from the spec: the struct `NodeInterrupt`, whose declaration is not
among the sources. It is the interrupt a node produces to pause the execution,
carrying a value presented to the caller; `graph.go` writes its field `Node`
and reads its fields `Node` and `Value`. -/
structure NodeInterrupt where
  Node : String
  Value : Value
  deriving DecidableEq, Repr

/-- Go `error` values the engine creates or inspects. `wrapError pre e post` is
`fmt.Errorf` with one `%w` verb: the text is `pre ++ e.Error() ++ post` and
`errors.As`/`errors.Is` see through it. -/
inductive GoError where
  | errorString (s : String)
  | wrapError (pre : String) (err : GoError) (post : String)
  | nodeInterrupt (ni : NodeInterrupt)
  | graphInterrupt (node : String) (state : Value) (nextNodes : List String)
      (interruptValue : Value)
  deriving DecidableEq, Repr

/-- Result of a Go function returning `(interface{}, error)` whose value is
ignored when the error is set; `panic` when the call panics. -/
inductive Res (α : Type) where
  | ok (v : α)
  | err (e : GoError)
  | panic
  deriving DecidableEq, Repr

/-! ## schema.go -/

/-- Reducers: `func(current, new interface{}) (interface{}, error)`. -/
abbrev Reducer := Value → Value → Res Value

/-- The struct `MapSchema`. -/
structure MapSchema where
  Reducers : List (String × Reducer)
  EphemeralKeys : List (String × Bool)

/-- `NewMapSchema`. -/
def NewMapSchema : MapSchema := { Reducers := [], EphemeralKeys := [] }

/-- `RegisterReducer`. -/
def MapSchema.RegisterReducer (s : MapSchema) (key : String) (reducer : Reducer) : MapSchema :=
  { s with Reducers := mapSet s.Reducers key reducer }

/-- `RegisterChannel`. -/
def MapSchema.RegisterChannel (s : MapSchema) (key : String) (reducer : Reducer)
    (isEphemeral : Bool) : MapSchema :=
  let s1 := { s with Reducers := mapSet s.Reducers key reducer }
  if isEphemeral then { s1 with EphemeralKeys := mapSet s1.EphemeralKeys key true } else s1

/-- `Init`. -/
def MapSchema.Init (_s : MapSchema) : Value := .map []

/-- The loop `for k, v := range newMap` of `Update`, on the copy `result`. -/
def MapSchema.updateLoop (s : MapSchema) :
    List (String × Value) → List (String × Value) → Res Value
  | [], result => .ok (.map result)
  | (k, v) :: rest, result =>
    match mapGet s.Reducers k with
    | some reducer =>
      match reducer ((mapGet result k).getD .nil) v with
      | .ok mergedVal => MapSchema.updateLoop s rest (mapSet result k mergedVal)
      | .err e => .err (.wrapError ("failed to reduce key " ++ k ++ ": ") e "")
      | .panic => .panic
    | none => MapSchema.updateLoop s rest (mapSet result k v)

/-- `Update`. -/
def MapSchema.Update (s : MapSchema) (current new : Value) : Res Value :=
  let current := match current with
    | .nil => Value.map []
    | c => c
  match current with
  | .map currMap =>
    match new with
    | .map newMap => MapSchema.updateLoop s newMap currMap
    | _ => .err (.errorString "new state is not a map[string]interface{}")
  | _ => .err (.errorString "current state is not a map[string]interface{}")

/-- The flag `s.EphemeralKeys[k]` (false when absent). -/
def MapSchema.isEphemeral (s : MapSchema) (k : String) : Bool :=
  (mapGet s.EphemeralKeys k).getD false

/-- `Cleanup`. -/
def MapSchema.Cleanup (s : MapSchema) (state : Value) : Value :=
  if s.EphemeralKeys.length = 0 then state
  else
    match state with
    | .map mState =>
      let hasEphemeral := (mapKeys s.EphemeralKeys).any (fun k => mapHas mState k)
      if !hasEphemeral then state
      else .map (mState.filter (fun kv => !s.isEphemeral kv.1))
    | _ => state

/-- `OverwriteReducer`. -/
def OverwriteReducer : Reducer := fun _ new => .ok new

/-- `AppendReducer`. `reflect.SliceOf(reflect.TypeOf(nil))`, `reflect.AppendSlice`
on different slice types and `reflect.Append` of a value that is not assignable
to the element type panic. -/
def AppendReducer : Reducer := fun current new =>
  match current with
  | .nil =>
    match new with
    | .slice _ _ => .ok new
    | _ =>
      match typeOf new with
      | none => .panic
      | some t => .ok (.slice t [new])
  | .slice t xs =>
    match new with
    | .slice u ys => if t = u then .ok (.slice t (xs ++ ys)) else .panic
    | _ =>
      match typeOf new with
      | none => .panic
      | some u => if assignableTo u t then .ok (.slice t (xs ++ [new])) else .panic
  | _ => .err (.errorString "current value is not a slice")

/-- The sequence a value stands for in the wording of the append reducer: nil is
the empty sequence, a sequence is itself, a scalar is a one-element sequence. -/
def seqOf : Value → List Value
  | .nil => []
  | .slice _ xs => xs
  | v => [v]

/-- Whether the kind of the value is `reflect.Slice`. -/
def isSlice : Value → Bool
  | .slice _ _ => true
  | _ => false

/-- A 64-bit signed integer result: the value wrapped into `[-2^63, 2^63)`. -/
def wrapInt64 (x : Int) : Int := (x + 2 ^ 63) % 2 ^ 64 - 2 ^ 63

/-- The integer sum reducer registered by the tests (`command_test.go`,
`channel_test.go`): `curr.(int) + new.(int)` on 64-bit integers, a failed
assertion panics. -/
def sumReducer : Reducer := fun curr new =>
  match curr with
  | .nil => .ok new
  | .int a =>
    match new with
    | .int b => .ok (.int (wrapInt64 (a + b)))
    | _ => .panic
  | _ => .panic

/-- `SumReducer` of `examples/state_schema/main.go`: the sum of two 64-bit
integers, an error when one of the values is not an `int`. -/
def SumReducer : Reducer := fun current new =>
  match current with
  | .nil => .ok new
  | .int c =>
    match new with
    | .int n => .ok (.int (wrapInt64 (c + n)))
    | _ => .err (.errorString "expected int")
  | _ => .err (.errorString "expected int")

/-! ## add_messages.go -/

/-- `getMessageID`: the identity of a value implementing `MessageWithID`, the
string under `"id"` of a map, or the string field `ID` of a struct or of a
pointer to a struct; the empty string otherwise. -/
def getMessageID : Value → String
  | .withID _ id _ => id
  | .map m =>
    match mapGet m "id" with
    | some (.str id) => id
    | _ => ""
  | .struct _ fields =>
    match mapGet fields "ID" with
    | some (.str id) => id
    | _ => ""
  | .ptr (.struct _ fields) =>
    match mapGet fields "ID" with
    | some (.str id) => id
    | _ => ""
  | _ => ""

/-- The loop building `idToIndex` over `result`, from index `i` on. -/
def indexMessages : Nat → List Value → List (String × Nat) → List (String × Nat)
  | _, [], idToIndex => idToIndex
  | i, msg :: rest, idToIndex =>
    indexMessages (i + 1) rest
      (if getMessageID msg ≠ "" then mapSet idToIndex (getMessageID msg) i else idToIndex)

/-- One iteration of the loop over `newMessages`: replace at the indexed
position, or append (and index the appended position when the identity is not
empty). -/
def addMessage (acc : List Value × List (String × Nat)) (msg : Value) :
    List Value × List (String × Nat) :=
  if getMessageID msg ≠ "" then
    match mapGet acc.2 (getMessageID msg) with
    | some idx => (acc.1.set idx msg, acc.2)
    | none => (acc.1 ++ [msg], mapSet acc.2 (getMessageID msg) (acc.1 ++ [msg]).length.pred)
  else (acc.1 ++ [msg], acc.2)

/-- The final loop converting `result` back to a slice of the target element
type: `val.Type()` panics on the nil interface, an item that is not assignable
is an error (whose text, formatting the two types, is abbreviated). -/
def rebuildSlice (targetElem : GoType) : List Value → List Value → Res Value
  | [], finalSlice => .ok (.slice targetElem finalSlice)
  | item :: rest, finalSlice =>
    match typeOf item with
    | none => .panic
    | some t =>
      if assignableTo t targetElem then rebuildSlice targetElem rest (finalSlice ++ [item])
      else .err (.errorString "cannot append item to slice")

/-- The list `newMessages`: the elements of a slice, or the single value. -/
def newMessagesOf : Value → List Value
  | .slice _ ys => ys
  | v => [v]

/-- `AddMessages`. -/
def AddMessages : Reducer := fun current new =>
  match current with
  | .nil => .ok new
  | .slice targetElem cur =>
    let result := ((newMessagesOf new).foldl addMessage (cur, indexMessages 0 cur [])).1
    rebuildSlice targetElem result []
  | _ => .err (.errorString "current value is not a slice")

/-- The last message of the list with the given identity. -/
def lastWithID (id : String) (ms : List Value) : Option Value :=
  (ms.filter (fun m => decide (getMessageID m = id))).getLast?

/-- The message held in the end at the position of `m`: the last incoming
message with the non-empty identity of `m`, else `m` itself. -/
def upserted (incoming : List Value) (m : Value) : Value :=
  if getMessageID m = "" then m else (lastWithID (getMessageID m) incoming).getD m

/-- The incoming messages whose identity is empty or matches no message already
in the result when they arrive (`seen`: the identities in the result so far). -/
def freshMessages : List String → List Value → List Value
  | _, [] => []
  | seen, m :: rest =>
    if getMessageID m = "" then m :: freshMessages seen rest
    else if getMessageID m ∈ seen then freshMessages seen rest
    else m :: freshMessages (getMessageID m :: seen) rest

/-- The result of add-messages in the wording of the specification: the
positions of `current` with matched identities replaced by the last matching
incoming message, followed by the unmatched incoming messages. -/
def addMessagesStated (cur incoming : List Value) : List Value :=
  cur.map (upserted incoming) ++ freshMessages (cur.map getMessageID) incoming

/-- The struct `TestMessage{ID, Content}` of `add_messages_test.go`. -/
def TestMessage (id content : String) : Value :=
  .struct "TestMessage" [("ID", .str id), ("Content", .str content)]

/-- Invariant of `AddMessages`: `idToIndex` maps exactly the non-empty
identities of the result (listed in `ids`) to a position holding them. -/
def Indexed (ids : List String) (idToIndex : List (String × Nat)) : Prop :=
  (∀ id i, mapGet idToIndex id = some i → id ≠ "" ∧ ids[i]? = some id) ∧
  (∀ id, id ∈ ids → id ≠ "" → mapGet idToIndex id ≠ none)

/-- Non-empty identities are pairwise distinct. -/
def DistinctIDs (ids : List String) : Prop :=
  ids.Pairwise (fun a b => a ≠ "" → a ≠ b)

/-- Replacement of `x` by `msg` when both carry the same non-empty identity. -/
def replaceBy (msg x : Value) : Value :=
  if getMessageID x ≠ "" ∧ getMessageID x = getMessageID msg then msg else x

/-! ## callbacks.go, command.go, graph.go: types -/

/-- The constant `END`. -/
def END : String := "END"

/-- The sentinel `ErrEntryPointNotSet`. -/
def ErrEntryPointNotSet : GoError := .errorString "entry point not set"

/-- The sentinel `ErrNodeNotFound`. -/
def ErrNodeNotFound : GoError := .errorString "node not found"

/-- The sentinel `ErrNoOutgoingEdge`. -/
def ErrNoOutgoingEdge : GoError := .errorString "no outgoing edge found for node"

/-- The fields of `Config` the scheduler and the checkpointing read. Callbacks,
metadata and tags only feed observers and are left out. -/
structure Config where
  Configurable : List (String × Value)
  InterruptBefore : List String
  InterruptAfter : List String
  ResumeFrom : List String
  ResumeValue : Value

/-- Modelled from the spec: the context helpers `WithConfig`, `WithResumeValue`
and `GetResumeValue`, which are not among the sources. A context carries the
config of the invocation and the resume value (the value delivered to the node
that last raised a dynamic interrupt); `doneDuringBackoff` tells whether
`ctx.Done()` fires during the back-off wait that follows a given attempt. -/
structure Context where
  config : Option Config
  resumeValue : Value
  doneDuringBackoff : Nat → Bool

/-- The struct `Node`; the function returns a result or an error. -/
structure Node where
  Name : String
  Function : Context → Value → Res Value

/-- The struct `Edge`. -/
structure Edge where
  From : String
  To : String
  deriving DecidableEq, Repr

/-- The interface `StateSchema`; `Cleanup` is present when the schema also
implements `CleaningStateSchema`. -/
structure StateSchema where
  Init : Value
  Update : Value → Value → Res Value
  Cleanup : Option (Value → Value)

/-- A `MapSchema` seen through the interfaces it implements. -/
def MapSchema.toSchema (s : MapSchema) : StateSchema :=
  { Init := s.Init, Update := s.Update, Cleanup := some s.Cleanup }

/-- The type `StateMerger`. -/
abbrev StateMerger := Context → Value → List Value → Res Value

/-- The struct `MessageGraph`. -/
structure MessageGraph where
  nodes : List (String × Node)
  edges : List Edge
  conditionalEdges : List (String × (Context → Value → String))
  entryPoint : String
  stateMerger : Option StateMerger
  Schema : Option StateSchema

/-- `NewMessageGraph`. -/
def NewMessageGraph : MessageGraph :=
  { nodes := [], edges := [], conditionalEdges := [], entryPoint := "",
    stateMerger := none, Schema := none }

/-- `AddNode`. -/
def MessageGraph.AddNode (g : MessageGraph) (name : String)
    (fn : Context → Value → Res Value) : MessageGraph :=
  { g with nodes := mapSet g.nodes name { Name := name, Function := fn } }

/-- `AddEdge`. -/
def MessageGraph.AddEdge (g : MessageGraph) (src dst : String) : MessageGraph :=
  { g with edges := g.edges ++ [{ From := src, To := dst }] }

/-- `AddConditionalEdge`. -/
def MessageGraph.AddConditionalEdge (g : MessageGraph) (src : String)
    (condition : Context → Value → String) : MessageGraph :=
  { g with conditionalEdges := mapSet g.conditionalEdges src condition }

/-- `SetEntryPoint`. -/
def MessageGraph.SetEntryPoint (g : MessageGraph) (name : String) : MessageGraph :=
  { g with entryPoint := name }

/-- `SetStateMerger`. -/
def MessageGraph.SetStateMerger (g : MessageGraph) (merger : StateMerger) : MessageGraph :=
  { g with stateMerger := some merger }

/-- `SetSchema`. -/
def MessageGraph.SetSchema (g : MessageGraph) (schema : StateSchema) : MessageGraph :=
  { g with Schema := some schema }

/-- `errors.As(err, &nodeInterrupt)`: the first `*NodeInterrupt` in the chain
of wrapped errors. -/
def GoError.asNodeInterrupt : GoError → Option NodeInterrupt
  | .nodeInterrupt ni => some ni
  | .wrapError _ err _ => err.asNodeInterrupt
  | _ => none

/-- The assignment `nodeInterrupt.Node = name` on the `*NodeInterrupt` found by
`errors.As`. -/
def GoError.setInterruptNode (name : String) : GoError → GoError
  | .nodeInterrupt ni => .nodeInterrupt { ni with Node := name }
  | .wrapError pre err post => .wrapError pre (err.setInterruptNode name) post
  | e => e

/-- `Interrupt`: the resume value when the context carries one, else a
`*NodeInterrupt` with the given value. -/
def Interrupt (ctx : Context) (value : Value) : Res Value :=
  match ctx.resumeValue with
  | .nil => .err (.nodeInterrupt { Node := "", Value := value })
  | resumeVal => .ok resumeVal

/-! ## The phases of a super-step shared by graph.go and state_graph.go -/

/-- The strings of a `[]string`. -/
def stringsOf : List Value → List String
  | [] => []
  | .str s :: rest => s :: stringsOf rest
  | _ :: rest => stringsOf rest

/-- The goto targets one result contributes: those of a `*Command` whose `Goto`
is a `string` or a `[]string`. -/
def gotoTargets : Value → List String
  | .command _ (.str g) => [g]
  | .command _ (.slice .string gs) => stringsOf gs
  | _ => []

/-- The entry of `processedResults` for one result: the `Update` of a
`*Command`, else the result. -/
def processedResult : Value → Value
  | .command update _ => update
  | res => res

/-- "Process results and check for Commands": `processedResults` and
`nextNodesFromCommands`. -/
def processResults (results : List Value) : List Value × List String :=
  (results.map processedResult, (results.map gotoTargets).flatten)

/-- The loop `for _, res := range processedResults` over `Schema.Update`. -/
def mergeWithSchema (schema : StateSchema) : Value → List Value → Res Value
  | state, [] => .ok state
  | state, res :: rest =>
    match schema.Update state res with
    | .ok state' => mergeWithSchema schema state' rest
    | .err e => .err (.wrapError "schema update failed: " e "")
    | .panic => .panic

/-- "Merge results": schema, else state merger, else the last result. -/
def mergeResults (g : MessageGraph) (ctx : Context) (state : Value)
    (processedResults : List Value) : Res Value :=
  match g.Schema with
  | some schema => mergeWithSchema schema state processedResults
  | none =>
    match g.stateMerger with
    | some merger =>
      match merger ctx state processedResults with
      | .ok state' => .ok state'
      | .err e => .err (.wrapError "state merge failed: " e "")
      | .panic => .panic
    | none =>
      match processedResults.getLast? with
      | some last => .ok last
      | none => .ok state

/-- The deduplicating loop over `nextNodesFromCommands`: a target is kept at
its first occurrence unless it is `END`. -/
def dedupGoto : List String → List String → List String
  | [], _ => []
  | n :: rest, seen =>
    if !seen.contains n && n != END then n :: dedupGoto rest (n :: seen)
    else dedupGoto rest seen

/-- Insertion into `nextNodesSet`. The set is kept in insertion order, which is
the order taken for ranging over it (Go leaves that order unspecified). -/
def setInsert (set : List String) (n : String) : List String :=
  if set.contains n then set else set ++ [n]

/-- "Use static edges": the loop over the nodes that ran, filling
`nextNodesSet`. -/
def staticNext (g : MessageGraph) (ctx : Context) (state : Value) :
    List String → List String → Res (List String)
  | [], set => .ok set
  | nodeName :: rest, set =>
    match mapGet g.conditionalEdges nodeName with
    | some nextNodeFn =>
      if nextNodeFn ctx state = "" then
        .err (.errorString ("conditional edge returned empty next node from " ++ nodeName))
      else staticNext g ctx state rest (setInsert set (nextNodeFn ctx state))
    | none =>
      if (g.edges.filter (fun e => decide (e.From = nodeName))).isEmpty then
        .err (.wrapError "" ErrNoOutgoingEdge (": " ++ nodeName))
      else staticNext g ctx state rest
        (((g.edges.filter (fun e => decide (e.From = nodeName))).map Edge.To).foldl setInsert set)

/-- "Determine next nodes": the goto targets when there are any, else the
static and conditional edges. -/
def determineNext (g : MessageGraph) (ctx : Context) (state : Value)
    (currentNodes nextNodesFromCommands : List String) : Res (List String) :=
  if nextNodesFromCommands.length > 0 then .ok (dedupGoto nextNodesFromCommands [])
  else staticNext g ctx state currentNodes []

/-- "Cleanup ephemeral state if supported". -/
def cleanupState (g : MessageGraph) (state : Value) : Value :=
  match g.Schema with
  | some schema =>
    match schema.Cleanup with
    | some cleanup => cleanup state
    | none => state
  | none => state

/-- The launch loop: the lookup `nodes[nodeName]` of every frontier node; the
first name that is not registered ends the invocation with `ErrNodeNotFound`. -/
def lookupNodes (nodes : List (String × Node)) : List String → Except GoError (List (String × Node))
  | [] => .ok []
  | nodeName :: rest =>
    match mapGet nodes nodeName with
    | none => .error (.wrapError "" ErrNodeNotFound (": " ++ nodeName))
    | some node =>
      match lookupNodes nodes rest with
      | .ok ns => .ok ((nodeName, node) :: ns)
      | .error e => .error e

/-- Outcome of one pass through the body of the super-step loop. `ran` lists
the nodes whose function was called in the pass. -/
inductive StepOut where
  | ret (state : Value) (err : Option GoError) (ran : List String)
  | next (state : Value) (currentNodes : List String) (ran : List String)
  | panic (ran : List String)
  deriving DecidableEq, Repr

/-- Outcome of an invocation: the returned pair, a panic, or no return within
the given number of super-steps. -/
inductive Outcome where
  | returned (state : Value) (err : Option GoError)
  | panicked
  | outOfFuel
  deriving DecidableEq, Repr

/-- An invocation: its outcome and, for every super-step reached, the nodes
whose function was called and the state handed to them. -/
structure Trace where
  outcome : Outcome
  steps : List (List String × Value)
  deriving DecidableEq, Repr

/-- The values `results[i]` when no node failed. -/
def resultsOf : List (String × Res Value) → List Value
  | [] => []
  | (_, .ok v) :: rest => v :: resultsOf rest
  | _ :: rest => .nil :: resultsOf rest

/-- Whether some node function of the step panicked. -/
def anyPanic (outs : List (String × Res Value)) : Bool :=
  outs.any (fun o => match o.2 with
    | .panic => true
    | _ => false)

/-- The phases after the error check, common to both runnables up to the
interrupt-after gate: process, merge, next frontier. -/
def mergeAndRoute (g : MessageGraph) (ctx : Context) (state : Value)
    (currentNodes : List String) (results : List Value) : Res (Value × List String) :=
  match mergeResults g ctx state (processResults results).1 with
  | .ok state' =>
    match determineNext g ctx state' currentNodes (processResults results).2 with
    | .ok nextNodesList => .ok (state', nextNodesList)
    | .err e => .err e
    | .panic => .panic
  | .err e => .err e
  | .panic => .panic

/-! ## graph.go: Runnable.InvokeWithConfig -/

/-- The nested loop of an interrupt gate: the first frontier node listed in
`interrupts`, when the config is set and the list is not empty. -/
def interruptGate (interrupts : List String) (currentNodes : List String) : Option String :=
  if interrupts.length > 0 then currentNodes.find? (fun node => interrupts.contains node)
  else none

/-- The entry of `errorsList` a failing node leaves: the node name is recorded
in a `*NodeInterrupt`, and the error is wrapped. -/
def nodeError (name : String) (err : GoError) : GoError :=
  .wrapError ("error in node " ++ name ++ ": ") (err.setInterruptNode name) ""

/-- The entries of `errorsList` that are not nil, in frontier order; `mk`
builds the entry of a failing node. -/
def errorsOf (mk : String → GoError → GoError) : List (String × Res Value) → List GoError
  | [] => []
  | (name, .err e) :: rest => mk name e :: errorsOf mk rest
  | _ :: rest => errorsOf mk rest

/-- The struct `Runnable` (the tracer only observes and is left out). -/
structure Runnable where
  graph : MessageGraph

/-- `MessageGraph.Compile`. -/
def MessageGraph.Compile (g : MessageGraph) : Except GoError Runnable :=
  if g.entryPoint = "" then .error ErrEntryPointNotSet
  else .ok { graph := g }

/-- One pass through the loop body of `Runnable.InvokeWithConfig`, on a
frontier already filtered of `END` and not empty. -/
def Runnable.superStep (r : Runnable) (config : Option Config) (ctx : Context)
    (state : Value) (currentNodes : List String) : StepOut :=
  match (config.bind (fun c => interruptGate c.InterruptBefore currentNodes)) with
  | some node => .ret state (some (.graphInterrupt node state [] .nil)) []
  | none =>
    match lookupNodes r.graph.nodes currentNodes with
    | .error e => .ret .nil (some e) (currentNodes.takeWhile (mapHas r.graph.nodes))
    | .ok nodes =>
      let outs := nodes.map (fun n => (n.1, n.2.Function ctx state))
      if anyPanic outs then .panic currentNodes
      else
        match errorsOf nodeError outs with
        | err :: _ =>
          match err.asNodeInterrupt with
          | some nodeInterrupt =>
            .ret state (some (.graphInterrupt nodeInterrupt.Node state [nodeInterrupt.Node]
              nodeInterrupt.Value)) currentNodes
          | none => .ret .nil (some err) currentNodes
        | [] =>
          match mergeAndRoute r.graph ctx state currentNodes (resultsOf outs) with
          | .err e => .ret .nil (some e) currentNodes
          | .panic => .panic currentNodes
          | .ok (state', nextNodesList) =>
            match (config.bind (fun c => interruptGate c.InterruptAfter currentNodes)) with
            | some node =>
              .ret state' (some (.graphInterrupt node state' nextNodesList .nil)) currentNodes
            | none => .next (cleanupState r.graph state') nextNodesList currentNodes

/-- The loop `for len(currentNodes) > 0` of both `InvokeWithConfig`, for at most
`fuel` passes: `END` is filtered out of the frontier, an empty frontier ends
the loop, otherwise the body `step` runs. -/
def runLoop (step : Value → List String → StepOut) : Nat → Value → List String → Trace
  | 0, _, _ => { outcome := .outOfFuel, steps := [] }
  | fuel + 1, state, currentNodes =>
    if (currentNodes.filter (fun node => node != END)).length = 0 then
      { outcome := .returned state none, steps := [] }
    else
      match step state (currentNodes.filter (fun node => node != END)) with
      | .ret st err ran => { outcome := .returned st err, steps := [(ran, state)] }
      | .panic ran => { outcome := .panicked, steps := [(ran, state)] }
      | .next st nodes ran =>
        { outcome := (runLoop step fuel st nodes).outcome,
          steps := (ran, state) :: (runLoop step fuel st nodes).steps }

/-- The loop of `Runnable.InvokeWithConfig`. -/
def Runnable.loop (r : Runnable) (config : Option Config) (ctx : Context) :
    Nat → Value → List String → Trace :=
  runLoop (r.superStep config ctx)

/-- The context the invocation hands to the nodes: `WithConfig`, and
`WithResumeValue` when the config carries a resume value. -/
def invokeContext (ctx : Context) (config : Option Config) : Context :=
  match config with
  | none => ctx
  | some c =>
    { ctx with
      config := some c
      resumeValue := match c.ResumeValue with
        | .nil => ctx.resumeValue
        | v => v }

/-- The initial frontier: the entry point, or `config.ResumeFrom` when set. -/
def initialNodes (entryPoint : String) (config : Option Config) : List String :=
  match config with
  | some c => if c.ResumeFrom.length > 0 then c.ResumeFrom else [entryPoint]
  | none => [entryPoint]

/-- `Runnable.InvokeWithConfig`, with its trace. -/
def Runnable.run (r : Runnable) (fuel : Nat) (ctx : Context) (initialState : Value)
    (config : Option Config) : Trace :=
  r.loop config (invokeContext ctx config) fuel initialState
    (initialNodes r.graph.entryPoint config)

/-- `Runnable.InvokeWithConfig`. -/
def Runnable.InvokeWithConfig (r : Runnable) (fuel : Nat) (ctx : Context)
    (initialState : Value) (config : Option Config) : Outcome :=
  (r.run fuel ctx initialState config).outcome

/-! ## state_graph.go: StateRunnable.InvokeWithConfig -/

/-- The type `BackoffStrategy`; `other` stands for a value outside the three
declared constants. -/
inductive BackoffStrategy where
  | FixedBackoff
  | ExponentialBackoff
  | LinearBackoff
  | other (n : Int)
  deriving DecidableEq, Repr

/-- The struct `RetryPolicy`. -/
structure RetryPolicy where
  MaxRetries : Int
  BackoffStrategy : BackoffStrategy
  RetryableErrors : List String

/-- The struct `StateGraph`: the fields of `MessageGraph` and the retry
policy. -/
structure StateGraph extends MessageGraph where
  retryPolicy : Option RetryPolicy

/-- The struct `StateRunnable`. -/
structure StateRunnable where
  graph : StateGraph

/-- `StateGraph.Compile`. -/
def StateGraph.Compile (g : StateGraph) : Except GoError StateRunnable :=
  if g.entryPoint = "" then .error ErrEntryPointNotSet
  else .ok { graph := g }

/-- Text that is rendered outside the listed sources: the verb `%v` of `fmt`
and the method `Error` of `*NodeInterrupt`. -/
structure Rendering where
  verbV : Value → String
  nodeInterruptError : String → Value → String

/-- The method `Error()` of an error value. -/
def GoError.Error (rd : Rendering) : GoError → String
  | .errorString s => s
  | .wrapError pre err post => pre ++ err.Error rd ++ post
  | .nodeInterrupt ni => rd.nodeInterruptError ni.Node ni.Value
  | .graphInterrupt node _ _ interruptValue =>
    match interruptValue with
    | .nil => "graph interrupted at node " ++ node
    | v => "graph interrupted at node " ++ node ++ " with value: " ++ rd.verbV v

/-- `findSubstring`: the loop `for i := 0; i <= len(s)-len(substr); i++`. -/
def findSubstring (s substr : String) : Bool :=
  (List.range (((s.length : Int) - (substr.length : Int) + 1).toNat)).any
    (fun i => decide ((s.data.drop i).take substr.length = substr.data))

/-- `contains`. -/
def contains (s substr : String) : Bool :=
  decide (s.length ≥ substr.length) && (decide (s = substr) ||
    (decide (substr.length > 0) && decide (s.length > substr.length) &&
      (decide (s.data.take substr.length = substr.data) ||
        decide (s.data.drop (s.length - substr.length) = substr.data) ||
        findSubstring s substr)))

/-- `isRetryableError`. -/
def StateRunnable.isRetryableError (r : StateRunnable) (rd : Rendering) (err : GoError) : Bool :=
  match r.graph.retryPolicy with
  | none => false
  | some policy => policy.RetryableErrors.any (fun pat => contains (err.Error rd) pat)

/-- The shift `1 << attempt` on a 64-bit `int`. -/
def shiftLeftOne (attempt : Nat) : Int := wrapInt64 (2 ^ attempt)

/-- `calculateBackoffDelay`, in nanoseconds. -/
def StateRunnable.calculateBackoffDelay (r : StateRunnable) (attempt : Nat) : Int :=
  match r.graph.retryPolicy with
  | none => 0
  | some policy =>
    match policy.BackoffStrategy with
    | .FixedBackoff => 1000000000
    | .ExponentialBackoff => wrapInt64 (1000000000 * shiftLeftOne attempt)
    | .LinearBackoff => wrapInt64 (1000000000 * wrapInt64 ((attempt : Int) + 1))
    | .other _ => 1000000000

/-- The loop of `executeNodeWithRetry` with `remaining = maxRetries - attempt`
iterations left; `call i` is the outcome of the call made at attempt `i`. -/
def StateRunnable.retryLoop (r : StateRunnable) (rd : Rendering) (ctx : Context)
    (call : Nat → Res Value) : Nat → Nat → Res Value
  | 0, _ => .ok .nil
  | remaining + 1, attempt =>
    match call attempt with
    | .ok result => .ok result
    | .panic => .panic
    | .err err =>
      if r.graph.retryPolicy.isSome && decide (remaining > 0) && r.isRetryableError rd err then
        if decide (r.calculateBackoffDelay attempt > 0) && ctx.doneDuringBackoff attempt then
          .err (.errorString "context canceled")
        else StateRunnable.retryLoop r rd ctx call remaining (attempt + 1)
      else .err err

/-- The bound `maxRetries` of `executeNodeWithRetry`: 1 without a policy and
`MaxRetries + 1`, on 64-bit integers, with one. -/
def StateRunnable.maxRetries (r : StateRunnable) : Int :=
  match r.graph.retryPolicy with
  | none => 1
  | some policy => wrapInt64 (policy.MaxRetries + 1)

/-- `executeNodeWithRetry`. -/
def StateRunnable.executeNodeWithRetry (r : StateRunnable) (rd : Rendering) (ctx : Context)
    (node : Node) (state : Value) : Res Value :=
  r.retryLoop rd ctx (fun _ => node.Function ctx state) r.maxRetries.toNat 0

/-- The number of calls of the node function the loop of `executeNodeWithRetry`
makes, with `remaining` iterations left from `attempt` on. -/
def StateRunnable.retryCalls (r : StateRunnable) (rd : Rendering) (ctx : Context)
    (call : Nat → Res Value) : Nat → Nat → Nat
  | 0, _ => 0
  | remaining + 1, attempt =>
    match call attempt with
    | .ok _ => 1
    | .panic => 1
    | .err err =>
      if r.graph.retryPolicy.isSome && decide (remaining > 0) && r.isRetryableError rd err then
        if decide (r.calculateBackoffDelay attempt > 0) && ctx.doneDuringBackoff attempt then 1
        else 1 + StateRunnable.retryCalls r rd ctx call remaining (attempt + 1)
      else 1

/-- The entry of `errorsList` a failing node leaves in `StateRunnable`. -/
def stateNodeError (name : String) (err : GoError) : GoError :=
  .wrapError ("error in node " ++ name ++ ": ") err ""

/-- One pass through the loop body of `StateRunnable.InvokeWithConfig`, on a
frontier already filtered of `END` and not empty. -/
def StateRunnable.superStep (r : StateRunnable) (rd : Rendering) (ctx : Context)
    (state : Value) (currentNodes : List String) : StepOut :=
  match lookupNodes r.graph.nodes currentNodes with
  | .error e => .ret .nil (some e) (currentNodes.takeWhile (mapHas r.graph.nodes))
  | .ok nodes =>
    let outs := nodes.map (fun n => (n.1, r.executeNodeWithRetry rd ctx n.2 state))
    if anyPanic outs then .panic currentNodes
    else
      match errorsOf stateNodeError outs with
      | err :: _ => .ret .nil (some err) currentNodes
      | [] =>
        match mergeAndRoute r.graph.toMessageGraph ctx state currentNodes (resultsOf outs) with
        | .err e => .ret .nil (some e) currentNodes
        | .panic => .panic currentNodes
        | .ok (state', nextNodesList) =>
          .next (cleanupState r.graph.toMessageGraph state') nextNodesList currentNodes

/-- The loop of `StateRunnable.InvokeWithConfig`. -/
def StateRunnable.loop (r : StateRunnable) (rd : Rendering) (ctx : Context) :
    Nat → Value → List String → Trace :=
  runLoop (r.superStep rd ctx)

/-- `StateRunnable.InvokeWithConfig`, with its trace. -/
def StateRunnable.run (r : StateRunnable) (rd : Rendering) (fuel : Nat) (ctx : Context)
    (initialState : Value) (config : Option Config) : Trace :=
  r.loop rd
    (match config with
      | some c => { ctx with config := some c }
      | none => ctx)
    fuel initialState [r.graph.entryPoint]

/-- `StateRunnable.InvokeWithConfig`. -/
def StateRunnable.InvokeWithConfig (r : StateRunnable) (rd : Rendering) (fuel : Nat)
    (ctx : Context) (initialState : Value) (config : Option Config) : Outcome :=
  (r.run rd fuel ctx initialState config).outcome

/-- A context with no config, no resume value and no cancellation. -/
def background : Context :=
  { config := none, resumeValue := .nil, doneDuringBackoff := fun _ => false }

/-- A rendering for evaluation; the claims proved do not depend on it. -/
def plainRendering : Rendering :=
  { verbV := fun _ => "", nodeInterruptError := fun node _ => "interrupt at node " ++ node }

/-- The distinct elements of a list in order of first occurrence. -/
def firstOccurrences : List String → List String
  | [] => []
  | n :: rest => n :: (firstOccurrences rest).filter (fun x => decide (x ≠ n))

/-- The goto targets of all results of a step, in frontier order. -/
def allGotoTargets (results : List Value) : List String :=
  (results.map gotoTargets).flatten

/-- Whether a result is a `*Command` whose `Goto` is a node name or a list of
node names. -/
def isGotoCommand : Value → Bool
  | .command _ (.str _) => true
  | .command _ (.slice .string _) => true
  | _ => false

/-- The declarations of `TestCommandGoto` (`command_test.go`). -/
def commandGotoDecl : MessageGraph :=
  NewMessageGraph
    |>.SetSchema (NewMapSchema.RegisterReducer "count" sumReducer).toSchema
    |>.AddNode "A" (fun _ _ => .ok (.command (.map [("count", .int 1)]) (.str "C")))
    |>.AddNode "B" (fun _ _ => .ok (.map [("count", .int 10)]))
    |>.AddNode "C" (fun _ _ => .ok (.map [("count", .int 100)]))
    |>.SetEntryPoint "A"
    |>.AddEdge "A" "B"
    |>.AddEdge "B" "C"
    |>.AddEdge "C" END

/-- The state graph of `TestCommandGoto`. -/
def commandGotoGraph : StateGraph :=
  { toMessageGraph := commandGotoDecl, retryPolicy := none }

/-- A graph whose node A returns a `*Command` with the empty list of node names
as `Goto`, with static edges A → B → END. -/
def emptyGotoGraph : StateGraph :=
  { toMessageGraph := NewMessageGraph
      |>.AddNode "A" (fun _ _ => .ok (.command (.map []) (.slice .string [])))
      |>.AddNode "B" (fun _ _ => .ok (.map []))
      |>.SetEntryPoint "A"
      |>.AddEdge "A" "B"
      |>.AddEdge "B" END,
    retryPolicy := none }

/-- Whether the state is a mapping holding the key. -/
def hasKey (state : Value) (k : String) : Bool :=
  match state with
  | .map m => mapHas m k
  | _ => false

/-- The state contains no key registered as ephemeral in the schema. -/
def NoEphemeral (s : MapSchema) (state : Value) : Prop :=
  ∀ k, s.isEphemeral k = true → hasKey state k = false

/-- The graph of `TestEphemeralChannel` (`channel_test.go`). -/
def ephemeralGraph : StateGraph :=
  { toMessageGraph := NewMessageGraph
      |>.SetSchema ((NewMapSchema.RegisterChannel "temp" OverwriteReducer true).RegisterReducer
          "count" sumReducer).toSchema
      |>.AddNode "A" (fun _ _ => .ok (.map [("temp", .int 1), ("count", .int 1)]))
      |>.AddNode "B" (fun _ state =>
          if hasKey state "temp" then .ok (.map [("count", .int 100)])
          else .ok (.map [("count", .int 10)]))
      |>.SetEntryPoint "A"
      |>.AddEdge "A" "B"
      |>.AddEdge "B" END,
    retryPolicy := none }

/-- One step of the fold of `Update`: a failure is kept. -/
def foldStep (schema : StateSchema) (acc : Res Value) (u : Value) : Res Value :=
  match acc with
  | .ok st => schema.Update st u
  | other => other

/-- The post-merge state in the wording of the specification, for a schema:
`Update` folded over the updates from left to right, stopping at the first
failure. -/
def foldUpdate (schema : StateSchema) (state : Value) (updates : List Value) : Res Value :=
  updates.foldl (foldStep schema) (.ok state)

/-- A graph for the interrupt gates: A fails with an ordinary error and B asks
for a dynamic interrupt with the value `"ask"`. -/
def errorAndInterruptGraph : MessageGraph :=
  NewMessageGraph
    |>.AddNode "A" (fun _ _ => .err (.errorString "boom"))
    |>.AddNode "B" (fun ctx _ => Interrupt ctx (.str "ask"))
    |>.AddNode "C" (fun _ state => .ok state)
    |>.SetEntryPoint "A"
    |>.AddEdge "A" END
    |>.AddEdge "B" END
    |>.AddEdge "C" "B"

/-- A config that only sets `ResumeFrom`. -/
def resumeFrom (nodes : List String) : Config :=
  { Configurable := [], InterruptBefore := [], InterruptAfter := [], ResumeFrom := nodes,
    ResumeValue := .nil }

/-- A config that only sets `InterruptBefore`. -/
def interruptBefore (nodes : List String) : Config :=
  { Configurable := [], InterruptBefore := nodes, InterruptAfter := [], ResumeFrom := [],
    ResumeValue := .nil }

/-! ## listeners.go: the listenable graph -/

/-- The struct `ListenableMessageGraph`: the embedded `MessageGraph` and the map
of listenable nodes. A `ListenableNode` is modelled by its `Node`; its
listeners only observe and are left out. -/
structure ListenableMessageGraph extends MessageGraph where
  listenableNodes : List (String × Node)

/-- `NewListenableMessageGraph`. -/
def NewListenableMessageGraph : ListenableMessageGraph :=
  { toMessageGraph := NewMessageGraph, listenableNodes := [] }

/-- `ListenableMessageGraph.AddNode`: the node is added to the base graph and to
the map of listenable nodes. -/
def ListenableMessageGraph.AddNode (g : ListenableMessageGraph) (name : String)
    (fn : Context → Value → Res Value) : ListenableMessageGraph :=
  { toMessageGraph := g.toMessageGraph.AddNode name fn,
    listenableNodes := mapSet g.listenableNodes name { Name := name, Function := fn } }

/-- `AddEdge`, promoted from the embedded `MessageGraph`. -/
def ListenableMessageGraph.AddEdge (g : ListenableMessageGraph) (src dst : String) :
    ListenableMessageGraph :=
  { g with toMessageGraph := g.toMessageGraph.AddEdge src dst }

/-- `SetEntryPoint`, promoted from the embedded `MessageGraph`. -/
def ListenableMessageGraph.SetEntryPoint (g : ListenableMessageGraph) (name : String) :
    ListenableMessageGraph :=
  { g with toMessageGraph := g.toMessageGraph.SetEntryPoint name }

/-- `SetSchema`, promoted from the embedded `MessageGraph`. -/
def ListenableMessageGraph.SetSchema (g : ListenableMessageGraph) (schema : StateSchema) :
    ListenableMessageGraph :=
  { g with toMessageGraph := g.toMessageGraph.SetSchema schema }

/-- The struct `ListenableRunnable`. -/
structure ListenableRunnable where
  graph : ListenableMessageGraph
  listenableNodes : List (String × Node)

/-- `CompileListenable`. -/
def ListenableMessageGraph.CompileListenable (g : ListenableMessageGraph) :
    Except GoError ListenableRunnable :=
  if g.entryPoint = "" then .error ErrEntryPointNotSet
  else .ok { graph := g, listenableNodes := g.listenableNodes }

/-- The nodes a pass of the super-step loop called. -/
def StepOut.ran : StepOut → List String
  | .ret _ _ ran => ran
  | .next _ _ ran => ran
  | .panic ran => ran

/-- A config that only sets `InterruptAfter`. -/
def interruptAfter (nodes : List String) : Config :=
  { Configurable := [], InterruptBefore := [], InterruptAfter := nodes, ResumeFrom := [],
    ResumeValue := .nil }

/-- Two maps with the same entries: `m1[k]` and `m2[k]` agree for every key
(Go maps have no order of keys). -/
def SameEntries (m1 m2 : List (String × Value)) : Prop :=
  ∀ k, mapGet m1 k = mapGet m2 k

/-- A reducer that never fails on the values `D` of its key (the current value
may also be absent, nil) and whose results do not depend on the order of two
updates: `r(r(c, a), b) = r(r(c, b), a)`. -/
def OrderIndependent (D : Value → Prop) (r : Reducer) : Prop :=
  ∃ f : Value → Value → Value,
    (∀ c a, (c = .nil ∨ D c) → D a → r c a = .ok (f c a) ∧ D (f c a)) ∧
    ∀ c a b, (c = .nil ∨ D c) → D a → D b → f (f c a) b = f (f c b) a

/-- An update of a super-step all of whose keys have an order-independent
reducer: a map (with distinct keys) whose every key `k` has a registered
reducer and holds a value of `D k`. -/
def ReducedUpdate (s : MapSchema) (D : String → Value → Prop) (u : Value) : Prop :=
  ∃ m, u = .map m ∧ (mapKeys m).Nodup ∧
    ∀ k v, (k, v) ∈ m → D k v ∧ ∃ r, mapGet s.Reducers k = some r ∧ OrderIndependent (D k) r

/-- The values held by a state map: every value is nil or a value of its key. -/
def StateValues (D : String → Value → Prop) (m : List (String × Value)) : Prop :=
  ∀ k v, mapGet m k = some v → v = .nil ∨ D k v

/-- The values of the `count` key: integers. -/
def isInt : Value → Prop
  | .int _ => True
  | _ => False

/-! ## examples/state_schema: a linear chain of counting nodes -/

/-- The schema of `examples/state_schema/main.go` restricted to its `count`
key: `schema.RegisterReducer("count", SumReducer)`. -/
def countSchema : MapSchema := NewMapSchema.RegisterReducer "count" SumReducer

/-- A node returning the partial update `{count: c}`. -/
def countNode (name : String) (c : Int) : Node :=
  { Name := name, Function := fun _ _ => .ok (.map [("count", .int c)]) }

/-- The edges `n1 → n2 → … → nk → END` in the order of the `AddEdge` calls. -/
def chainEdges : List String → List Edge
  | [] => []
  | n :: rest => { From := n, To := (rest.head?).getD END } :: chainEdges rest

/-- The state graph the builder calls of `examples/state_schema/main.go` leave
for a chain of nodes `ni` returning `{count: ci}`: the nodes in the order of
`AddNode`, the edges of the chain, the first node as entry point, the count
schema and no retry policy. -/
def chainGraph (chain : List (String × Int)) : StateGraph :=
  { nodes := chain.map (fun nc => (nc.1, countNode nc.1 nc.2)),
    edges := chainEdges (chain.map Prod.fst),
    conditionalEdges := [],
    entryPoint := (chain.head?.map Prod.fst).getD "",
    stateMerger := none,
    Schema := some countSchema.toSchema,
    retryPolicy := none }

/-- The state `{count: x}`. -/
def countState (x : Int) : Value := .map [("count", .int x)]

/-- The count after the nodes of a chain, each sum taken on 64-bit integers. -/
def chainFinal (x : Int) (chain : List (String × Int)) : Int :=
  chain.foldl (fun a nc => wrapInt64 (a + nc.2)) x

/-- The super-steps of a chain started on `{count: x}`: one node per step, in
chain order, with the state handed to it. -/
def chainSteps : Int → List (String × Int) → List (List String × Value)
  | _, [] => []
  | x, (n, c) :: rest => ([n], countState x) :: chainSteps (wrapInt64 (x + c)) rest

/-- A graph with a cycle: node A returns nil and has the static edge A → A. -/
def selfLoopGraph : StateGraph :=
  { toMessageGraph := NewMessageGraph
      |>.AddNode "A" (fun _ _ => .ok .nil)
      |>.SetEntryPoint "A"
      |>.AddEdge "A" "A",
    retryPolicy := none }

/-- An acyclic graph, by a rank on node names: every static edge and every
target returned by a conditional edge leads to a node of strictly smaller
rank. -/
def Ranked (g : MessageGraph) (rank : String → Nat) : Prop :=
  (∀ e ∈ g.edges, rank e.To < rank e.From) ∧
  ∀ n fn, mapGet g.conditionalEdges n = some fn → ∀ ctx state, rank (fn ctx state) < rank n

/-- No node of the graph returns goto targets. -/
def NoGoto (g : MessageGraph) : Prop :=
  ∀ name node, mapGet g.nodes name = some node →
    ∀ ctx state v, node.Function ctx state = .ok v → gotoTargets v = []

/-- No node function, schema update or state merger of the graph panics. -/
def NoPanic (g : MessageGraph) : Prop :=
  (∀ name node, mapGet g.nodes name = some node →
    ∀ ctx state, node.Function ctx state ≠ .panic) ∧
  (∀ schema, g.Schema = some schema → ∀ state res, schema.Update state res ≠ .panic) ∧
  ∀ merger, g.stateMerger = some merger → ∀ ctx state results, merger ctx state results ≠ .panic

/-! ## listeners.go: ListenableRunnable.InvokeWithConfig -/

/-- An invocation of the listenable runnable: its outcome and the calls
`OnGraphStep(stepNode, state)` it makes, in order, on every graph callback
handler of the config. -/
structure ListenTrace where
  outcome : Outcome
  events : List (String × Value)
  deriving DecidableEq, Repr

/-- "Update state using Schema if available", else the result replaces the
state. -/
def ListenableRunnable.updateState (lr : ListenableRunnable) (state result : Value) :
    Res Value :=
  match lr.graph.Schema with
  | some schema =>
    match schema.Update state result with
    | .ok state' => .ok state'
    | .err e => .err (.wrapError "schema update failed: " e "")
    | .panic => .panic
  | none => .ok result

/-- The loop `for { … }` of `ListenableRunnable.InvokeWithConfig`, for at most
`fuel` passes: one node per pass, the first edge leaving it gives the next
node. The listeners of a node only observe its execution. -/
def ListenableRunnable.loop (lr : ListenableRunnable) (ctx : Context) :
    Nat → Value → String → ListenTrace
  | 0, _, _ => { outcome := .outOfFuel, events := [] }
  | fuel + 1, state, currentNode =>
    if currentNode = END then { outcome := .returned state none, events := [] }
    else
      match mapGet lr.listenableNodes currentNode with
      | none => { outcome := .returned .nil (some ErrNodeNotFound), events := [] }
      | some listenableNode =>
        match listenableNode.Function ctx state with
        | .panic => { outcome := .panicked, events := [] }
        | .err err => { outcome := .returned .nil (some err), events := [] }
        | .ok result =>
          match lr.updateState state result with
          | .panic => { outcome := .panicked, events := [] }
          | .err err => { outcome := .returned .nil (some err), events := [] }
          | .ok state' =>
            match lr.graph.edges.find? (fun edge => decide (edge.From = currentNode)) with
            | none => { outcome := .returned .nil (some ErrNoOutgoingEdge), events := [] }
            | some edge =>
              { outcome :=
                  (ListenableRunnable.loop lr ctx fuel
                    (cleanupState lr.graph.toMessageGraph state') edge.To).outcome,
                events :=
                  ("step:[" ++ currentNode ++ "]", cleanupState lr.graph.toMessageGraph state') ::
                  (ListenableRunnable.loop lr ctx fuel
                    (cleanupState lr.graph.toMessageGraph state') edge.To).events }

/-- `ListenableRunnable.InvokeWithConfig`, with the step events. -/
def ListenableRunnable.InvokeWithConfig (lr : ListenableRunnable) (fuel : Nat) (ctx : Context)
    (initialState : Value) (config : Option Config) : ListenTrace :=
  lr.loop
    (match config with
      | some c => { ctx with config := some c }
      | none => ctx)
    fuel initialState lr.graph.entryPoint

/-! ## checkpointing.go -/

/-- The struct `Checkpoint`; the timestamp, which nothing reads back but the
snapshot's `CreatedAt`, is left out. -/
structure Checkpoint where
  ID : String
  NodeName : String
  State : Value
  Metadata : List (String × Value)
  Version : Int
  deriving DecidableEq, Repr

/-- The struct `MemoryCheckpointStore`: the map from checkpoint id to
checkpoint. -/
structure MemoryCheckpointStore where
  checkpoints : List (String × Checkpoint)
  deriving DecidableEq, Repr

/-- `NewMemoryCheckpointStore`. -/
def NewMemoryCheckpointStore : MemoryCheckpointStore := { checkpoints := [] }

/-- `MemoryCheckpointStore.Save` (it never fails). -/
def MemoryCheckpointStore.Save (m : MemoryCheckpointStore) (checkpoint : Checkpoint) :
    MemoryCheckpointStore :=
  { checkpoints := mapSet m.checkpoints checkpoint.ID checkpoint }

/-- `MemoryCheckpointStore.Load`. -/
def MemoryCheckpointStore.Load (m : MemoryCheckpointStore) (checkpointID : String) :
    Except GoError Checkpoint :=
  match mapGet m.checkpoints checkpointID with
  | some checkpoint => .ok checkpoint
  | none => .error (.errorString ("checkpoint not found: " ++ checkpointID))

/-- The order in which a `range` loop visits the entries of the checkpoint map;
Go leaves it unspecified, so it is a parameter. -/
abbrev RangeOrder := List (String × Checkpoint) → List (String × Checkpoint)

/-- Whether `checkpoint.Metadata["execution_id"]` is the string `executionID`. -/
def Checkpoint.filedUnder (checkpoint : Checkpoint) (executionID : String) : Bool :=
  decide (mapGet checkpoint.Metadata "execution_id" = some (.str executionID))

/-- `MemoryCheckpointStore.List`: the checkpoints of the execution, in the order
the map is ranged over. -/
def MemoryCheckpointStore.List (range : RangeOrder) (m : MemoryCheckpointStore)
    (executionID : String) : List Checkpoint :=
  ((range m.checkpoints).map Prod.snd).filter (fun checkpoint => checkpoint.filedUnder executionID)

/-- `MemoryCheckpointStore.Delete`. -/
def MemoryCheckpointStore.Delete (m : MemoryCheckpointStore) (checkpointID : String) :
    MemoryCheckpointStore :=
  { checkpoints := m.checkpoints.filter (fun kv => decide (kv.1 ≠ checkpointID)) }

/-- `MemoryCheckpointStore.Clear`. -/
def MemoryCheckpointStore.Clear (m : MemoryCheckpointStore) (executionID : String) :
    MemoryCheckpointStore :=
  { checkpoints := m.checkpoints.filter (fun kv => !kv.2.filedUnder executionID) }

/-- `generateCheckpointID`, for the reading `now` of `time.Now().UnixNano()`. -/
def generateCheckpointID (now : Int) : String := "checkpoint_" ++ toString now

/-- `generateExecutionID`, for the reading `now` of `time.Now().UnixNano()`. -/
def generateExecutionID (now : Int) : String := "exec_" ++ toString now

/-- The struct `CheckpointableRunnable`. Of its `CheckpointConfig` the flag
`AutoSave` is kept; the store of the config is an in-memory store, handed to
every method and returned by those that write to it. -/
structure CheckpointableRunnable where
  runnable : ListenableRunnable
  autoSave : Bool
  executionID : String

/-- The struct `CheckpointableMessageGraph`: the embedded listenable graph and
the `AutoSave` flag of its config. -/
structure CheckpointableMessageGraph extends ListenableMessageGraph where
  autoSave : Bool

/-- `NewCheckpointableMessageGraph`, with `DefaultCheckpointConfig`. -/
def NewCheckpointableMessageGraph : CheckpointableMessageGraph :=
  { toListenableMessageGraph := NewListenableMessageGraph, autoSave := true }

/-- `CompileCheckpointable`; `now` is the time read by `generateExecutionID`. -/
def CheckpointableMessageGraph.CompileCheckpointable (g : CheckpointableMessageGraph)
    (now : Int) : Except GoError CheckpointableRunnable :=
  match g.toListenableMessageGraph.CompileListenable with
  | .error e => .error e
  | .ok listenableRunnable =>
    .ok { runnable := listenableRunnable, autoSave := g.autoSave,
          executionID := generateExecutionID now }

/-- The checkpoint `CheckpointListener.OnGraphStep` hands to `Save`, if any. -/
def CheckpointListener.OnGraphStep (autoSave : Bool) (executionID : String) (now : Int) (stepNode : String)
    (state : Value) : Option Checkpoint :=
  if !autoSave then none
  else some
    { ID := generateCheckpointID now, NodeName := stepNode, State := state, Version := 1,
      Metadata := [("execution_id", .str executionID), ("event", .str "step")] }

/-- The store once the asynchronous saves of the step events have completed,
taken in the order of the events; `clock i` is the time read for the
checkpoint id of event `i`. -/
def saveEvents (autoSave : Bool) (executionID : String) (clock : Nat → Int) :
    Nat → List (String × Value) → MemoryCheckpointStore → MemoryCheckpointStore
  | _, [], store => store
  | i, (stepNode, state) :: rest, store =>
    saveEvents autoSave executionID clock (i + 1) rest
      (match CheckpointListener.OnGraphStep autoSave executionID (clock i) stepNode state with
        | some checkpoint => store.Save checkpoint
        | none => store)

/-- The config `&Config{}`. -/
def emptyConfig : Config :=
  { Configurable := [], InterruptBefore := [], InterruptAfter := [], ResumeFrom := [],
    ResumeValue := .nil }

/-- `CheckpointableRunnable.InvokeWithConfig`: the checkpoint listener is added
to the callbacks of the config and the listenable runnable is invoked. The
result is the returned pair with the store after the saves. -/
def CheckpointableRunnable.InvokeWithConfig (cr : CheckpointableRunnable) (clock : Nat → Int)
    (fuel : Nat) (ctx : Context) (store : MemoryCheckpointStore) (initialState : Value)
    (config : Option Config) : Outcome × MemoryCheckpointStore :=
  ((cr.runnable.InvokeWithConfig fuel ctx initialState (some (config.getD emptyConfig))).outcome,
    saveEvents cr.autoSave cr.executionID clock 0
      (cr.runnable.InvokeWithConfig fuel ctx initialState
        (some (config.getD emptyConfig))).events store)

/-- The string `config.Configurable[key]`, or `""` when the config is nil, the
key absent or its value not a string. -/
def configString (config : Option Config) (key : String) : String :=
  match config with
  | none => ""
  | some c =>
    match mapGet c.Configurable key with
    | some (.str s) => s
    | _ => ""

/-- The thread of a config: `thread_id`, defaulting to the execution id. -/
def CheckpointableRunnable.threadOf (cr : CheckpointableRunnable) (config : Option Config) :
    String :=
  if configString config "thread_id" = "" then cr.executionID
  else configString config "thread_id"

/-- The struct `StateSnapshot` (without `CreatedAt`). -/
structure StateSnapshot where
  Values : Value
  Next : List String
  Config : Config
  Metadata : List (String × Value)
  ParentID : String

/-- The config naming a thread and a checkpoint. -/
def checkpointConfig (threadID checkpointID : String) : Config :=
  { emptyConfig with
    Configurable := [("thread_id", .str threadID), ("checkpoint_id", .str checkpointID)] }

/-- `CheckpointableRunnable.GetState`. With no checkpoint the snapshot copies
`*config`, which panics on a nil config. -/
def CheckpointableRunnable.GetState (cr : CheckpointableRunnable) (range : RangeOrder)
    (store : MemoryCheckpointStore) (config : Option Config) : Res StateSnapshot :=
  let found : Except GoError (Option Checkpoint) :=
    if configString config "checkpoint_id" ≠ "" then
      match store.Load (configString config "checkpoint_id") with
      | .ok checkpoint => .ok (some checkpoint)
      | .error e => .error e
    else .ok (store.List range (cr.threadOf config)).getLast?
  match found with
  | .error e => .err e
  | .ok none =>
    match config with
    | none => .panic
    | some c => .ok { Values := .nil, Next := [], Config := c, Metadata := [], ParentID := "" }
  | .ok (some checkpoint) =>
    .ok { Values := checkpoint.State, Next := [],
          Config := checkpointConfig (cr.threadOf config) checkpoint.ID,
          Metadata := checkpoint.Metadata, ParentID := "" }

/-- "1. Get current state" of `UpdateState`: the state and version of the last
listed checkpoint of the thread, else `Init()` (nil without a schema) and 0. -/
def CheckpointableRunnable.currentOf (cr : CheckpointableRunnable) (range : RangeOrder)
    (store : MemoryCheckpointStore) (threadID : String) : Value × Int :=
  match (store.List range threadID).getLast? with
  | some latest => (latest.State, latest.Version)
  | none =>
    match cr.runnable.graph.Schema with
    | some schema => (schema.Init, 0)
    | none => (.nil, 0)

/-- "2. Merge values" of `UpdateState`. -/
def CheckpointableRunnable.mergeValues (cr : CheckpointableRunnable) (currentState values : Value) :
    Res Value :=
  match cr.runnable.graph.Schema with
  | some schema =>
    if currentState ≠ .nil then
      match schema.Update currentState values with
      | .ok newState => .ok newState
      | .err e => .err (.wrapError "failed to merge state: " e "")
      | .panic => .panic
    else
      match schema.Update schema.Init values with
      | .ok newState => .ok newState
      | .err e => .err (.wrapError "failed to initialize and merge state: " e "")
      | .panic => .panic
  | none =>
    match currentState, values with
    | .map curMap, .map valMap => .ok (.map (valMap.foldl (fun m kv => mapSet m kv.1 kv.2) curMap))
    | _, _ => .ok values

/-- The checkpoint `UpdateState` creates. -/
def updateCheckpoint (now : Int) (threadID asNode : String) (newState : Value)
    (currentVersion : Int) : Checkpoint :=
  { ID := generateCheckpointID now, NodeName := asNode, State := newState,
    Version := wrapInt64 (currentVersion + 1),
    Metadata := [("execution_id", .str threadID), ("source", .str "update_state"),
      ("updated_by", .str asNode)] }

/-- `CheckpointableRunnable.UpdateState`; `now` is the time read for the id of
the new checkpoint. The result is the returned config with the store after the
save. -/
def CheckpointableRunnable.UpdateState (cr : CheckpointableRunnable) (range : RangeOrder)
    (now : Int) (store : MemoryCheckpointStore) (config : Option Config) (values : Value)
    (asNode : String) : Res (Config × MemoryCheckpointStore) :=
  match cr.mergeValues (cr.currentOf range store (cr.threadOf config)).1 values with
  | .err e => .err e
  | .panic => .panic
  | .ok newState =>
    .ok (checkpointConfig (cr.threadOf config)
          (updateCheckpoint now (cr.threadOf config) asNode newState
            (cr.currentOf range store (cr.threadOf config)).2).ID,
        store.Save (updateCheckpoint now (cr.threadOf config) asNode newState
          (cr.currentOf range store (cr.threadOf config)).2))

/-! ## examples/time_travel -/

/-- The graph of `examples/time_travel/main.go`: the schema sums `count`, node A
returns `{count: 1}`, node B returns `{count: 10}`, entry A, edges A → B → END. -/
def timeTravelGraph : CheckpointableMessageGraph :=
  { toListenableMessageGraph := NewListenableMessageGraph
      |>.SetSchema (NewMapSchema.RegisterReducer "count" sumReducer).toSchema
      |>.AddNode "A" (fun _ _ => .ok (.map [("count", .int 1)]))
      |>.AddNode "B" (fun _ _ => .ok (.map [("count", .int 10)]))
      |>.SetEntryPoint "A"
      |>.AddEdge "A" "B"
      |>.AddEdge "B" END,
    autoSave := true }

/-- The runnable `CompileCheckpointable` returns for the graph, with the
execution id generated at time `now`. -/
def timeTravelRunnable (now : Int) : CheckpointableRunnable :=
  { runnable :=
      { graph := timeTravelGraph.toListenableMessageGraph,
        listenableNodes := timeTravelGraph.listenableNodes },
    autoSave := true,
    executionID := generateExecutionID now }

/-- The config of the first run of the example: interrupt before B, on the
thread `thread_1`. -/
def timeTravelConfig : Config :=
  { emptyConfig with
    Configurable := [("thread_id", .str "thread_1")]
    InterruptBefore := ["B"] }

/-- The config of the second run: resume from B, with the `Configurable` that
`UpdateState` returned. -/
def timeTravelResume (configurable : List (String × Value)) : Config :=
  { emptyConfig with
    Configurable := configurable
    ResumeFrom := ["B"] }

/-- A schema that rejects a nil current state: `Init()` is the empty map and
`Update` on a nil state is an error, else the update of the count schema. -/
def nilRejectingSchema : StateSchema :=
  { Init := .map [],
    Update := fun current new =>
      match current with
      | .nil => .err (.errorString "current state is nil")
      | _ => countSchema.Update current new,
    Cleanup := none }

/-- A checkpointable runnable over a graph with the given schema, a single node
A returning `{count: 1}` and the edge A → END, as in `update_state_test.go`. -/
def updateStateRunnable (schema : StateSchema) : CheckpointableRunnable :=
  { runnable :=
      { graph := NewListenableMessageGraph
          |>.SetSchema schema
          |>.AddNode "A" (fun _ _ => .ok (.map [("count", .int 1)]))
          |>.SetEntryPoint "A"
          |>.AddEdge "A" END,
        listenableNodes := [("A", { Name := "A", Function := fun _ _ => .ok (.map [("count", .int 1)]) })] },
    autoSave := true,
    executionID := "exec_0" }

/-- A store holding one step checkpoint of the execution `exec_0`, with the
given state. -/
def oneCheckpointStore (state : Value) : MemoryCheckpointStore :=
  { checkpoints :=
      [("checkpoint_1",
        { ID := "checkpoint_1", NodeName := "step:[A]", State := state, Version := 1,
          Metadata := [("execution_id", .str "exec_0"), ("event", .str "step")] })] }

/-- The config of `update_state_test.go`: the thread is the execution. -/
def threadConfig (threadID : String) : Config :=
  { emptyConfig with Configurable := [("thread_id", .str threadID)] }

/-- `StateGraph.SetRetryPolicy`. -/
def StateGraph.SetRetryPolicy (g : StateGraph) (policy : RetryPolicy) : StateGraph :=
  { g with retryPolicy := some policy }

/-- `NewStateGraph`. -/
def NewStateGraph : StateGraph :=
  { toMessageGraph := NewMessageGraph, retryPolicy := none }

/-- A state runnable whose policy retries errors containing `timeout`, with the
given `MaxRetries`. -/
def retryRunnable (maxRetries : Int) : StateRunnable :=
  { graph := NewStateGraph.SetRetryPolicy
      { MaxRetries := maxRetries, BackoffStrategy := .FixedBackoff,
        RetryableErrors := ["timeout"] } }

/-! ## streaming.go -/

/-- The struct `StreamEvent`; the timestamp and the duration are left out. The
kind `Event` is a `NodeEvent`, a string. -/
structure StreamEvent where
  NodeName : String
  Event : String
  State : Value
  Error : Option GoError
  Metadata : List (String × Value)
  deriving DecidableEq, Repr

/-- The struct `StreamConfig`; `Mode` is a `StreamMode`, a string. -/
structure StreamConfig where
  BufferSize : Int
  EnableBackpressure : Bool
  MaxDroppedEvents : Int
  Mode : String
  deriving DecidableEq, Repr

/-- `DefaultStreamConfig`. -/
def DefaultStreamConfig : StreamConfig :=
  { BufferSize := 1000, EnableBackpressure := true, MaxDroppedEvents := 100, Mode := "debug" }

/-- The struct `StreamingListener`, without its channel: the channel is handed
to the methods as the queue of the events sent and not yet received. -/
structure StreamingListener where
  config : StreamConfig
  droppedEvents : Int
  closed : Bool
  deriving DecidableEq, Repr

/-- `NewStreamingListener`. -/
def NewStreamingListener (config : StreamConfig) : StreamingListener :=
  { config := config, droppedEvents := 0, closed := false }

/-- `StreamingListener.shouldEmit`. -/
def StreamingListener.shouldEmit (sl : StreamingListener) (event : StreamEvent) : Bool :=
  if sl.config.Mode = "debug" then true
  else if sl.config.Mode = "values" then decide (event.Event = "graph_step")
  else if sl.config.Mode = "updates" then
    decide (event.Event = "tool_end") || decide (event.Event = "chain_end") ||
      decide (event.Event = "complete")
  else if sl.config.Mode = "messages" then
    decide (event.Event = "llm_end") || decide (event.Event = "llm_start")
  else true

/-- `StreamingListener.handleBackpressure`. -/
def StreamingListener.handleBackpressure (sl : StreamingListener) : StreamingListener :=
  { sl with droppedEvents := wrapInt64 (sl.droppedEvents + 1) }

/-- `StreamingListener.emitEvent`, on the event channel taken as a FIFO queue of
capacity `BufferSize`: the send of the `select` succeeds when the queue is not
full, else the `default` case runs. -/
def StreamingListener.emitEvent (sl : StreamingListener) (eventChan : List StreamEvent)
    (event : StreamEvent) : StreamingListener × List StreamEvent :=
  if sl.closed then (sl, eventChan)
  else if !sl.shouldEmit event then (sl, eventChan)
  else if (eventChan.length : Int) < sl.config.BufferSize then (sl, eventChan ++ [event])
  else if sl.config.EnableBackpressure then (sl.handleBackpressure, eventChan)
  else (sl, eventChan)

/-- `StreamingListener.Close`. -/
def StreamingListener.Close (sl : StreamingListener) : StreamingListener :=
  { sl with closed := true }

/-- `GetDroppedEventsCount`. -/
def StreamingListener.GetDroppedEventsCount (sl : StreamingListener) : Int := sl.droppedEvents

/-- The calls a streaming listener receives, as node listener and as callback
handler, with the arguments that reach the event. -/
inductive ListenerCall where
  | OnNodeEvent (event nodeName : String) (state : Value) (err : Option GoError)
  | OnChainStart (metadata : List (String × Value)) (inputs : Value)
  | OnChainEnd (outputs : Value)
  | OnChainError (err : GoError)
  | OnLLMStart (metadata : List (String × Value)) (prompts : Value)
  | OnLLMEnd (response : Value)
  | OnLLMError (err : GoError)
  | OnToolStart (metadata : List (String × Value)) (inputStr : String)
  | OnToolEnd (output : String)
  | OnToolError (err : GoError)
  | OnRetrieverStart
  | OnRetrieverEnd
  | OnRetrieverError
  | OnGraphStep (stepNode : String) (state : Value)

/-- The event a call hands to `emitEvent`; the retriever callbacks emit
nothing. -/
def ListenerCall.event : ListenerCall → Option StreamEvent
  | .OnNodeEvent event nodeName state err =>
    some { NodeName := nodeName, Event := event, State := state, Error := err, Metadata := [] }
  | .OnChainStart metadata inputs =>
    some { NodeName := "", Event := "chain_start", State := inputs, Error := none,
           Metadata := metadata }
  | .OnChainEnd outputs =>
    some { NodeName := "", Event := "chain_end", State := outputs, Error := none, Metadata := [] }
  | .OnChainError err =>
    some { NodeName := "", Event := "error", State := .nil, Error := some err, Metadata := [] }
  | .OnLLMStart metadata prompts =>
    some { NodeName := "", Event := "llm_start", State := prompts, Error := none,
           Metadata := metadata }
  | .OnLLMEnd response =>
    some { NodeName := "", Event := "llm_end", State := response, Error := none, Metadata := [] }
  | .OnLLMError err =>
    some { NodeName := "", Event := "error", State := .nil, Error := some err, Metadata := [] }
  | .OnToolStart metadata inputStr =>
    some { NodeName := "", Event := "tool_start", State := .str inputStr, Error := none,
           Metadata := metadata }
  | .OnToolEnd output =>
    some { NodeName := "", Event := "tool_end", State := .str output, Error := none,
           Metadata := [] }
  | .OnToolError err =>
    some { NodeName := "", Event := "error", State := .nil, Error := some err, Metadata := [] }
  | .OnRetrieverStart => none
  | .OnRetrieverEnd => none
  | .OnRetrieverError => none
  | .OnGraphStep stepNode state =>
    some { NodeName := stepNode, Event := "graph_step", State := state, Error := none,
           Metadata := [] }

/-- What happens around the event channel: a call on the listener, the consumer
receiving the oldest event, or the listener being closed. -/
inductive StreamOp where
  | call (c : ListenerCall)
  | receive
  | close

/-- A streaming session: the listener, the queue of the channel and the events
delivered to the consumer so far. -/
structure StreamState where
  listener : StreamingListener
  eventChan : List StreamEvent
  delivered : List StreamEvent

/-- One operation on a streaming session. -/
def StreamState.step (s : StreamState) : StreamOp → StreamState
  | .call c =>
    match c.event with
    | some event =>
      { s with
        listener := (s.listener.emitEvent s.eventChan event).1
        eventChan := (s.listener.emitEvent s.eventChan event).2 }
    | none => s
  | .receive =>
    match s.eventChan with
    | [] => s
    | event :: rest => { s with eventChan := rest, delivered := s.delivered ++ [event] }
  | .close => { s with listener := s.listener.Close }

/-- A streaming session from a new listener and an empty channel. -/
def streamSession (config : StreamConfig) (ops : List StreamOp) : StreamState :=
  ops.foldl StreamState.step
    { listener := NewStreamingListener config, eventChan := [], delivered := [] }

/-! ## The checkpoint store as a finite map -/

/-- A finite map keyed by checkpoint id, in the wording of the specification of
the store. -/
abbrev CheckpointMap := String → Option Checkpoint

/-- Saving in the finite map: the checkpoint is bound to its id. -/
def CheckpointMap.save (f : CheckpointMap) (checkpoint : Checkpoint) : CheckpointMap :=
  fun id => if id = checkpoint.ID then some checkpoint else f id

/-- Deleting in the finite map: only the id is unbound. -/
def CheckpointMap.delete (f : CheckpointMap) (checkpointID : String) : CheckpointMap :=
  fun id => if id = checkpointID then none else f id

/-- Clearing in the finite map: exactly the checkpoints of the thread are
unbound. -/
def CheckpointMap.clear (f : CheckpointMap) (thread : String) : CheckpointMap :=
  fun id => (f id).filter (fun checkpoint => !checkpoint.filedUnder thread)

/-- Loading in the finite map: the bound checkpoint, else the not-found
error. -/
def CheckpointMap.load (f : CheckpointMap) (checkpointID : String) : Except GoError Checkpoint :=
  match f checkpointID with
  | some checkpoint => .ok checkpoint
  | none => .error (.errorString ("checkpoint not found: " ++ checkpointID))

/-- The finite map a store holds. -/
def MemoryCheckpointStore.view (m : MemoryCheckpointStore) : CheckpointMap :=
  fun id => mapGet m.checkpoints id

/-- A store as the methods leave it: a Go map (distinct keys) in which every
checkpoint is bound to its own id. -/
def MemoryCheckpointStore.WellFormed (m : MemoryCheckpointStore) : Prop :=
  (mapKeys m.checkpoints).Nodup ∧ ∀ kv ∈ m.checkpoints, kv.2.ID = kv.1

/-- A store holding three checkpoints, two of the thread `t1` and one of the
thread `t2`. -/
def threeCheckpointStore : MemoryCheckpointStore :=
  ((NewMemoryCheckpointStore.Save
      { ID := "c1", NodeName := "A", State := .int 1, Version := 1,
        Metadata := [("execution_id", .str "t1")] }).Save
      { ID := "c2", NodeName := "B", State := .int 2, Version := 1,
        Metadata := [("execution_id", .str "t2")] }).Save
      { ID := "c3", NodeName := "C", State := .int 3, Version := 2,
        Metadata := [("execution_id", .str "t1")] }

/-- Two calls of `UpdateState` on the thread `exec_0` of an empty store, with
`{count: 1}` and then `{count: 2}`: the store holds `checkpoint_10` (version 1,
`{count: 1}`) and `checkpoint_20` (version 2, `{count: 3}`). -/
def twoUpdatesStore : MemoryCheckpointStore :=
  { checkpoints :=
      [("checkpoint_10",
        { ID := "checkpoint_10", NodeName := "human", State := countState 1, Version := 1,
          Metadata := [("execution_id", .str "exec_0"), ("source", .str "update_state"),
            ("updated_by", .str "human")] }),
       ("checkpoint_20",
        { ID := "checkpoint_20", NodeName := "human", State := countState 3, Version := 2,
          Metadata := [("execution_id", .str "exec_0"), ("source", .str "update_state"),
            ("updated_by", .str "human")] })] }

/-- `AddConditionalEdge`, promoted from the embedded `MessageGraph`. -/
def ListenableMessageGraph.AddConditionalEdge (g : ListenableMessageGraph) (src : String)
    (condition : Context → Value → String) : ListenableMessageGraph :=
  { g with toMessageGraph := g.toMessageGraph.AddConditionalEdge src condition }

/-- The runnable `Compile` gives for the declarations of a listenable graph. -/
def ListenableMessageGraph.runnable (g : ListenableMessageGraph) : Runnable :=
  { graph := g.toMessageGraph }

/-- The runnable `CompileListenable` gives for the declarations of a listenable
graph. -/
def ListenableMessageGraph.listenable (g : ListenableMessageGraph) : ListenableRunnable :=
  { graph := g, listenableNodes := g.listenableNodes }

/-- A fan-out: A, B and C return their names; edges A → B, A → C, B → END,
C → END. -/
def fanOutGraph : ListenableMessageGraph :=
  NewListenableMessageGraph
    |>.AddNode "A" (fun _ _ => .ok (.str "A"))
    |>.AddNode "B" (fun _ _ => .ok (.str "B"))
    |>.AddNode "C" (fun _ _ => .ok (.str "C"))
    |>.SetEntryPoint "A"
    |>.AddEdge "A" "B"
    |>.AddEdge "A" "C"
    |>.AddEdge "B" END
    |>.AddEdge "C" END

/-- A conditional edge: A returns its name and its conditional edge leads to
`END`. -/
def conditionalGraph : ListenableMessageGraph :=
  NewListenableMessageGraph
    |>.AddNode "A" (fun _ _ => .ok (.str "A"))
    |>.SetEntryPoint "A"
    |>.AddConditionalEdge "A" (fun _ _ => END)

/-- A failing node: A returns the error `boom`; edge A → END. -/
def failingGraph : ListenableMessageGraph :=
  NewListenableMessageGraph
    |>.AddNode "A" (fun _ _ => .err (.errorString "boom"))
    |>.SetEntryPoint "A"
    |>.AddEdge "A" END

/-- A join: A fans out to B and C, which both lead to D; every node returns its
name. -/
def joinGraph : MessageGraph :=
  NewMessageGraph
    |>.AddNode "A" (fun _ _ => .ok (.str "A"))
    |>.AddNode "B" (fun _ _ => .ok (.str "B"))
    |>.AddNode "C" (fun _ _ => .ok (.str "C"))
    |>.AddNode "D" (fun _ _ => .ok (.str "D"))
    |>.SetEntryPoint "A"
    |>.AddEdge "A" "B"
    |>.AddEdge "A" "C"
    |>.AddEdge "B" "D"
    |>.AddEdge "C" "D"
    |>.AddEdge "D" END

/-- The check the loop of "Use static edges" makes for one node that ran: the
error it returns for that node, if any. -/
def edgeFailure (g : MessageGraph) (ctx : Context) (state : Value) (nodeName : String) :
    Option GoError :=
  match mapGet g.conditionalEdges nodeName with
  | some nextNodeFn =>
    if nextNodeFn ctx state = "" then
      some (.errorString ("conditional edge returned empty next node from " ++ nodeName))
    else none
  | none =>
    if (g.edges.filter (fun e => decide (e.From = nodeName))).isEmpty then
      some (.wrapError "" ErrNoOutgoingEdge (": " ++ nodeName))
    else none

/-- A graph with a conditional edge and fan-out: A decides for B; B leads to C
and to D, twice to D; C has neither a conditional nor a static edge. -/
def routingGraph : MessageGraph :=
  NewMessageGraph
    |>.AddNode "A" (fun _ _ => .ok (.str "A"))
    |>.AddNode "B" (fun _ _ => .ok (.str "B"))
    |>.AddNode "C" (fun _ _ => .ok (.str "C"))
    |>.AddNode "D" (fun _ _ => .ok (.str "D"))
    |>.SetEntryPoint "A"
    |>.AddConditionalEdge "A" (fun _ _ => "B")
    |>.AddEdge "A" "D"
    |>.AddEdge "B" "C"
    |>.AddEdge "B" "D"
    |>.AddEdge "B" "D"
    |>.AddEdge "D" END

/-- A graph with the count schema in which A returns a goto-only Command
(`Update` nil, `Goto` B) and B returns `{count: 10}`. -/
def gotoOnlyGraph : StateGraph :=
  { toMessageGraph := NewMessageGraph
      |>.SetSchema countSchema.toSchema
      |>.AddNode "A" (fun _ _ => .ok (.command .nil (.str "B")))
      |>.AddNode "B" (fun _ _ => .ok (.map [("count", .int 10)]))
      |>.SetEntryPoint "A"
      |>.AddEdge "A" "B"
      |>.AddEdge "B" END,
    retryPolicy := none }

/-! # Theorems -/

/-! ## Association lists -/

theorem mapGet_mapSet_self {α : Type} (m : List (String × α)) (k : String) (v : α) :
    mapGet (mapSet m k v) k = some v := by
  induction m with
  | nil => simp [mapSet, mapGet]
  | cons p rest ih =>
    obtain ⟨k', v'⟩ := p
    by_cases h : k' = k
    · simp [mapSet, mapGet, h]
    · simp [mapSet, mapGet, h, ih]

theorem mapGet_mapSet_ne {α : Type} (m : List (String × α)) (k k' : String) (v : α)
    (h : k' ≠ k) : mapGet (mapSet m k v) k' = mapGet m k' := by
  induction m with
  | nil => simp [mapSet, mapGet, Ne.symm h]
  | cons p rest ih =>
    obtain ⟨k0, v0⟩ := p
    by_cases h0 : k0 = k
    · subst h0
      simp [mapSet, mapGet, Ne.symm h]
    · by_cases h1 : k0 = k'
      · subst h1
        simp [mapSet, mapGet, h0]
      · simp [mapSet, mapGet, h0, h1, ih]

theorem mapGet_eq_none_iff {α : Type} (m : List (String × α)) (k : String) :
    mapGet m k = none ↔ k ∉ mapKeys m := by
  induction m with
  | nil => simp [mapGet, mapKeys]
  | cons p rest ih =>
    obtain ⟨k0, v0⟩ := p
    by_cases h0 : k0 = k
    · simp [mapGet, mapKeys, h0]
    · have ih2 : mapGet rest k = none ↔ k ∉ List.map Prod.fst rest := ih
      simp [mapGet, mapKeys, h0, ih2, Ne.symm h0]

theorem mapHas_iff_mem {α : Type} (m : List (String × α)) (k : String) :
    mapHas m k = true ↔ k ∈ mapKeys m := by
  unfold mapHas
  rw [Option.isSome_iff_ne_none, Ne, mapGet_eq_none_iff, not_not]

theorem mem_mapKeys_mapSet {α : Type} (m : List (String × α)) (k k' : String) (v : α) :
    k' ∈ mapKeys (mapSet m k v) ↔ k' = k ∨ k' ∈ mapKeys m := by
  rw [← mapHas_iff_mem, ← mapHas_iff_mem]
  unfold mapHas
  by_cases h : k' = k
  · subst h
    simp [mapGet_mapSet_self]
  · simp [mapGet_mapSet_ne m k k' v h, h]

theorem mapGet_of_mem_nodup {α : Type} (m : List (String × α)) (k : String) (v : α)
    (hnd : (mapKeys m).Nodup) (hmem : (k, v) ∈ m) : mapGet m k = some v := by
  induction m with
  | nil => simp at hmem
  | cons p rest ih =>
    obtain ⟨k0, v0⟩ := p
    simp only [mapKeys, List.map_cons, List.nodup_cons] at hnd
    rcases List.mem_cons.1 hmem with h | h
    · cases h
      simp [mapGet]
    · have hk : k ∈ List.map Prod.fst rest := List.mem_map.2 ⟨(k, v), h, rfl⟩
      have hne : k0 ≠ k := fun e => hnd.1 (e ▸ hk)
      simp [mapGet, hne, ih hnd.2 h]

theorem mem_of_mapGet {α : Type} (m : List (String × α)) (k : String) (v : α)
    (h : mapGet m k = some v) : (k, v) ∈ m := by
  induction m with
  | nil => simp [mapGet] at h
  | cons p rest ih =>
    obtain ⟨k0, v0⟩ := p
    by_cases h0 : k0 = k
    · simp [mapGet, h0] at h
      simp [h0, h]
    · simp [mapGet, h0] at h
      exact List.mem_cons_of_mem _ (ih h)

/-! ## MapSchema.Update -/

theorem updateLoop_ok (s : MapSchema) (newMap result : List (String × Value))
    (hnd : (mapKeys newMap).Nodup)
    (hred : ∀ k v r, (k, v) ∈ newMap → mapGet s.Reducers k = some r →
      ∃ m, r ((mapGet result k).getD .nil) v = .ok m) :
    ∃ out, s.updateLoop newMap result = .ok (.map out) ∧
      ∀ k, (mapGet newMap k = none → mapGet out k = mapGet result k) ∧
        (∀ v, mapGet newMap k = some v → mapGet s.Reducers k = none →
          mapGet out k = some v) ∧
        (∀ v r, mapGet newMap k = some v → mapGet s.Reducers k = some r →
          ∃ m, mapGet out k = some m ∧ r ((mapGet result k).getD .nil) v = .ok m) := by
  induction newMap generalizing result with
  | nil =>
    refine ⟨result, rfl, fun k => ⟨fun _ => rfl, ?_, ?_⟩⟩
    · intro v h; simp [mapGet] at h
    · intro v r h; simp [mapGet] at h
  | cons p rest ih =>
    obtain ⟨k0, v0⟩ := p
    simp only [mapKeys, List.map_cons, List.nodup_cons] at hnd
    have hk0 : mapGet rest k0 = none := (mapGet_eq_none_iff rest k0).2 hnd.1
    have hne : ∀ k v, (k, v) ∈ rest → k ≠ k0 := by
      intro k v hmem e
      exact hnd.1 (List.mem_map.2 ⟨(k, v), hmem, e⟩)
    -- the value written for `k0` and the loop on the rest
    have tail : ∀ x : Value, ∃ out, s.updateLoop rest (mapSet result k0 x) = .ok (.map out) ∧
        ∀ k, (mapGet rest k = none → mapGet out k = mapGet (mapSet result k0 x) k) ∧
          (∀ v, mapGet rest k = some v → mapGet s.Reducers k = none →
            mapGet out k = some v) ∧
          (∀ v r, mapGet rest k = some v → mapGet s.Reducers k = some r →
            ∃ m, mapGet out k = some m ∧ r ((mapGet result k).getD .nil) v = .ok m) := by
      intro x
      obtain ⟨out, hout, hspec⟩ := ih (mapSet result k0 x) hnd.2 (by
        intro k v r hmem hr
        rw [mapGet_mapSet_ne result k0 k x (hne k v hmem)]
        exact hred k v r (List.mem_cons_of_mem _ hmem) hr)
      refine ⟨out, hout, fun k => ⟨(hspec k).1, (hspec k).2.1, ?_⟩⟩
      intro v r hv hr
      obtain ⟨m, hm, hrm⟩ := (hspec k).2.2 v r hv hr
      have hkne : k ≠ k0 := hne k v (mem_of_mapGet rest k v hv)
      rw [mapGet_mapSet_ne result k0 k x hkne] at hrm
      exact ⟨m, hm, hrm⟩
    cases hr0 : mapGet s.Reducers k0 with
    | none =>
      obtain ⟨out, hout, hspec⟩ := tail v0
      refine ⟨out, by simp [MapSchema.updateLoop, hr0, hout], fun k => ?_⟩
      by_cases hk : k0 = k
      · subst hk
        refine ⟨fun h => by simp [mapGet] at h, ?_, ?_⟩
        · intro v hv _
          simp [mapGet] at hv
          rw [(hspec k0).1 hk0, mapGet_mapSet_self, hv]
        · intro v r _ hr
          rw [hr0] at hr
          cases hr
      · simp only [mapGet, hk, if_false]
        refine ⟨fun h => ?_, (hspec k).2.1, (hspec k).2.2⟩
        rw [(hspec k).1 h, mapGet_mapSet_ne result k0 k v0 (Ne.symm hk)]
    | some r0 =>
      obtain ⟨m0, hm0⟩ := hred k0 v0 r0 (List.mem_cons_self _ _) hr0
      obtain ⟨out, hout, hspec⟩ := tail m0
      refine ⟨out, by simp [MapSchema.updateLoop, hr0, hm0, hout], fun k => ?_⟩
      by_cases hk : k0 = k
      · subst hk
        refine ⟨fun h => by simp [mapGet] at h, ?_, ?_⟩
        · intro v _ hr
          rw [hr0] at hr
          cases hr
        · intro v r hv hr
          simp [mapGet] at hv
          rw [hr0] at hr
          cases hr
          subst hv
          exact ⟨m0, by rw [(hspec k0).1 hk0, mapGet_mapSet_self], hm0⟩
      · simp only [mapGet, hk, if_false]
        refine ⟨fun h => ?_, (hspec k).2.1, (hspec k).2.2⟩
        rw [(hspec k).1 h, mapGet_mapSet_ne result k0 k m0 (Ne.symm hk)]

theorem updateLoop_keys (s : MapSchema) (newMap result out : List (String × Value))
    (h : s.updateLoop newMap result = .ok (.map out)) (k : String) :
    k ∈ mapKeys out ↔ k ∈ mapKeys result ∨ k ∈ mapKeys newMap := by
  induction newMap generalizing result with
  | nil =>
    simp [MapSchema.updateLoop] at h
    subst h
    simp [mapKeys]
  | cons p rest ih =>
    obtain ⟨k0, v0⟩ := p
    have key : ∀ x, s.updateLoop rest (mapSet result k0 x) = .ok (.map out) →
        (k ∈ mapKeys out ↔ k ∈ mapKeys result ∨ k ∈ mapKeys ((k0, v0) :: rest)) := by
      intro x hx
      rw [ih (mapSet result k0 x) hx, mem_mapKeys_mapSet]
      simp only [mapKeys, List.map_cons, List.mem_cons]
      tauto
    cases hr0 : mapGet s.Reducers k0 with
    | none =>
      simp only [MapSchema.updateLoop, hr0] at h
      exact key v0 h
    | some r0 =>
      simp only [MapSchema.updateLoop, hr0] at h
      cases hm : r0 ((mapGet result k0).getD .nil) v0 with
      | ok m => rw [hm] at h; exact key m h
      | err e => rw [hm] at h; cases h
      | panic => rw [hm] at h; cases h

/-- C1: for maps `current` and `partial` (distinct keys) on which every invoked
reducer succeeds, `Update` returns a map whose key set is the union of the two
key sets, that keeps `current[k]` for keys absent from `partial`, takes
`partial[k]` for keys without a reducer, and holds
`reducer_k(current[k], partial[k])` otherwise, with nil for a missing current
value. -/
theorem MapSchema.update_spec (s : MapSchema) (current part : List (String × Value))
    (hnd : (mapKeys part).Nodup)
    (hred : ∀ k v r, (k, v) ∈ part → mapGet s.Reducers k = some r →
      ∃ m, r ((mapGet current k).getD .nil) v = .ok m) :
    ∃ r, s.Update (.map current) (.map part) = .ok (.map r) ∧
      (∀ k, k ∈ mapKeys r ↔ k ∈ mapKeys current ∨ k ∈ mapKeys part) ∧
      ∀ k, (mapGet part k = none → mapGet r k = mapGet current k) ∧
        (∀ v, mapGet part k = some v → mapGet s.Reducers k = none →
          mapGet r k = some v) ∧
        (∀ v red, mapGet part k = some v → mapGet s.Reducers k = some red →
          ∃ m, mapGet r k = some m ∧ red ((mapGet current k).getD .nil) v = .ok m) := by
  obtain ⟨out, hout, hspec⟩ := updateLoop_ok s part current hnd hred
  exact ⟨out, by simpa [MapSchema.Update] using hout,
    fun k => updateLoop_keys s part current out hout k, hspec⟩

/-- Witness of C1: a sum reducer on `count`, current `{count: 1, a: 2}` and
update `{count: 5, b: 3}`. -/
theorem MapSchema.update_spec_witness :
    ∃ r, (NewMapSchema.RegisterReducer "count" sumReducer).Update
        (.map [("count", .int 1), ("a", .int 2)])
        (.map [("count", .int 5), ("b", .int 3)]) = .ok (.map r) ∧
      (∀ k, k ∈ mapKeys r ↔ k ∈ mapKeys [("count", Value.int 1), ("a", Value.int 2)] ∨
        k ∈ mapKeys [("count", Value.int 5), ("b", Value.int 3)]) ∧
      ∀ k, (mapGet [("count", Value.int 5), ("b", Value.int 3)] k = none →
          mapGet r k = mapGet [("count", Value.int 1), ("a", Value.int 2)] k) ∧
        (∀ v, mapGet [("count", Value.int 5), ("b", Value.int 3)] k = some v →
          mapGet (NewMapSchema.RegisterReducer "count" sumReducer).Reducers k = none →
          mapGet r k = some v) ∧
        (∀ v red, mapGet [("count", Value.int 5), ("b", Value.int 3)] k = some v →
          mapGet (NewMapSchema.RegisterReducer "count" sumReducer).Reducers k = some red →
          ∃ m, mapGet r k = some m ∧
            red ((mapGet [("count", Value.int 1), ("a", Value.int 2)] k).getD .nil) v = .ok m) :=
  MapSchema.update_spec (NewMapSchema.RegisterReducer "count" sumReducer)
    [("count", .int 1), ("a", .int 2)] [("count", .int 5), ("b", .int 3)]
    (by decide)
    (by
      intro k v r hmem hr
      simp only [List.mem_cons, Prod.mk.injEq, List.mem_singleton, List.not_mem_nil,
        or_false] at hmem
      rcases hmem with ⟨rfl, rfl⟩ | ⟨rfl, rfl⟩
      · simp [NewMapSchema, MapSchema.RegisterReducer, mapSet, mapGet] at hr
        subst hr
        exact ⟨.int 6, by simp [mapGet, sumReducer]; decide⟩
      · simp [NewMapSchema, MapSchema.RegisterReducer, mapSet, mapGet] at hr)

/-! ## MapSchema.Cleanup -/

theorem mapGet_filter_key {α : Type} (m : List (String × α)) (p : String → Bool) (k : String) :
    mapGet (m.filter (fun kv => p kv.1)) k = if p k then mapGet m k else none := by
  induction m with
  | nil => simp [mapGet]
  | cons q rest ih =>
    obtain ⟨k0, v0⟩ := q
    by_cases hp0 : p k0 = true
    · by_cases hk : k0 = k
      · subst hk
        simp [List.filter, hp0, mapGet]
      · simp [List.filter, hp0, mapGet, hk, ih]
    · by_cases hk : k0 = k
      · subst hk
        simp [List.filter, hp0, mapGet, ih]
      · simp [List.filter, hp0, mapGet, hk, ih]

theorem isEphemeral_mem_keys (s : MapSchema) (k : String) (h : s.isEphemeral k = true) :
    k ∈ mapKeys s.EphemeralKeys := by
  by_contra hk
  have hn := (mapGet_eq_none_iff s.EphemeralKeys k).2 hk
  simp [MapSchema.isEphemeral, hn] at h

theorem cleanup_cases (s : MapSchema) :
    (∀ state : List (String × Value), ∃ r, s.Cleanup (.map state) = .map r ∧
      (∀ k, s.isEphemeral k = true → mapGet r k = none) ∧
      (∀ k, s.isEphemeral k = false → mapGet r k = mapGet state k) ∧
      ((∀ k, s.isEphemeral k = true → mapGet state k = none) →
        s.Cleanup (.map state) = .map state)) ∧
    (∀ state : Value, (∀ m, state ≠ .map m) → s.Cleanup state = state) := by
  constructor
  · intro state
    by_cases hlen : s.EphemeralKeys.length = 0
    · have hnil : s.EphemeralKeys = [] := List.length_eq_zero.1 hlen
      refine ⟨state, by simp [MapSchema.Cleanup, hlen], ?_, fun _ _ => rfl, fun _ => by
        simp [MapSchema.Cleanup, hlen]⟩
      intro k hk
      simp [MapSchema.isEphemeral, hnil, mapGet] at hk
    · by_cases hany : (mapKeys s.EphemeralKeys).any (fun k => mapHas state k) = true
      · have hc : s.Cleanup (.map state) =
            .map (state.filter (fun kv => !s.isEphemeral kv.1)) := by
          simp [MapSchema.Cleanup, hlen, hany]
        refine ⟨_, hc, ?_, ?_, ?_⟩
        · intro k hk
          rw [mapGet_filter_key state (fun k => !s.isEphemeral k) k]
          simp [hk]
        · intro k hk
          rw [mapGet_filter_key state (fun k => !s.isEphemeral k) k]
          simp [hk]
        · intro hno
          rw [hc]
          congr 1
          apply List.filter_eq_self.2
          intro kv hkv
          cases he : s.isEphemeral kv.1 with
          | false => rfl
          | true =>
            have h1 := hno kv.1 he
            have h2 : kv.1 ∈ mapKeys state := List.mem_map.2 ⟨kv, hkv, rfl⟩
            exact absurd h1 (fun h => (mapGet_eq_none_iff state kv.1).1 h h2)
      · have hc : s.Cleanup (.map state) = .map state := by
          simp [MapSchema.Cleanup, hlen, hany]
        refine ⟨state, hc, ?_, fun _ _ => rfl, fun _ => hc⟩
        intro k hk
        have hmem := isEphemeral_mem_keys s k hk
        by_contra hne
        apply hany
        rw [List.any_eq_true]
        exact ⟨k, hmem, by simpa [mapHas, Option.isSome_iff_ne_none] using hne⟩
  · intro state hstate
    unfold MapSchema.Cleanup
    split
    · rfl
    · cases state with
      | map m => exact absurd rfl (hstate m)
      | _ => rfl

/-- C6: `Cleanup` of a map holds no key registered as ephemeral, keeps the value
of every other key, and is the state itself when the state holds no ephemeral
key (in particular when none is registered); a state that is not a map is
returned as it is. -/
theorem MapSchema.cleanup_spec (s : MapSchema) :
    (∀ state : List (String × Value), ∃ r, s.Cleanup (.map state) = .map r ∧
      (∀ k, s.isEphemeral k = true → mapGet r k = none) ∧
      (∀ k, s.isEphemeral k = false → mapGet r k = mapGet state k) ∧
      ((∀ k, s.isEphemeral k = true → mapGet state k = none) →
        s.Cleanup (.map state) = .map state)) ∧
    (∀ state : Value, (∀ m, state ≠ .map m) → s.Cleanup state = state) :=
  cleanup_cases s

/-! ## AppendReducer -/

/-- C7: for `current` nil or a sequence of element type `T`, and `new` a
sequence of `T` or a scalar (a value whose kind is not slice) of type `T`,
`AppendReducer` succeeds with the sequence `seq(current) ++ seq(new)` of element
type `T`, whose length is the sum of the two lengths. -/
theorem AppendReducer_spec (T : GoType) (current new : Value)
    (hc : current = .nil ∨ ∃ xs, current = .slice T xs)
    (hn : (∃ ys, new = .slice T ys) ∨ (isSlice new = false ∧ typeOf new = some T)) :
    AppendReducer current new = .ok (.slice T (seqOf current ++ seqOf new)) ∧
      (seqOf current ++ seqOf new).length = (seqOf current).length + (seqOf new).length := by
  refine ⟨?_, List.length_append _ _⟩
  rcases hc with rfl | ⟨xs, rfl⟩
  · rcases hn with ⟨ys, rfl⟩ | ⟨hs, ht⟩
    · simp [AppendReducer, seqOf]
    · cases new <;> first | (simp [typeOf] at ht; done) | simp_all [AppendReducer, seqOf, isSlice]
  · rcases hn with ⟨ys, rfl⟩ | ⟨hs, ht⟩
    · simp [AppendReducer, seqOf]
    · cases new <;>
        first | (simp [typeOf] at ht; done) | simp_all [AppendReducer, seqOf, isSlice, assignableTo]

/-- Witness of C7: `["a"]` extended by the scalar `"b"`. -/
theorem AppendReducer_spec_witness :
    AppendReducer (.slice .string [.str "a"]) (.str "b") =
        .ok (.slice .string (seqOf (.slice .string [.str "a"]) ++ seqOf (.str "b"))) ∧
      (seqOf (.slice .string [.str "a"]) ++ seqOf (.str "b")).length =
        (seqOf (.slice .string [.str "a"])).length + (seqOf (.str "b")).length :=
  AppendReducer_spec .string (.slice .string [.str "a"]) (.str "b")
    (Or.inr ⟨[.str "a"], rfl⟩) (Or.inr ⟨rfl, rfl⟩)

/-! ## Errors of MapSchema.Update -/

theorem updateLoop_err (s : MapSchema) (newMap result : List (String × Value))
    (hnd : (mapKeys newMap).Nodup)
    (hnp : ∀ k v r, (k, v) ∈ newMap → mapGet s.Reducers k = some r →
      r ((mapGet result k).getD .nil) v ≠ .panic)
    (k : String) (v : Value) (r : Reducer) (e : GoError) (hmem : (k, v) ∈ newMap)
    (hr : mapGet s.Reducers k = some r)
    (he : r ((mapGet result k).getD .nil) v = .err e) :
    ∃ e', s.updateLoop newMap result = .err e' := by
  induction newMap generalizing result with
  | nil => simp at hmem
  | cons p rest ih =>
    obtain ⟨k0, v0⟩ := p
    simp only [mapKeys, List.map_cons, List.nodup_cons] at hnd
    have hne : ∀ k v, (k, v) ∈ rest → k ≠ k0 := by
      intro k v hmem e
      exact hnd.1 (List.mem_map.2 ⟨(k, v), hmem, e⟩)
    have tail : ∀ x : Value, (k, v) ∈ rest →
        ∃ e', s.updateLoop rest (mapSet result k0 x) = .err e' := by
      intro x hin
      apply ih (mapSet result k0 x) hnd.2 _ hin
      · rw [mapGet_mapSet_ne result k0 k x (hne k v hin)]
        exact he
      · intro k1 v1 r1 hmem1 hr1
        rw [mapGet_mapSet_ne result k0 k1 x (hne k1 v1 hmem1)]
        exact hnp k1 v1 r1 (List.mem_cons_of_mem _ hmem1) hr1
    rcases List.mem_cons.1 hmem with hhead | hin
    · cases hhead
      exact ⟨.wrapError ("failed to reduce key " ++ k ++ ": ") e "", by
        simp [MapSchema.updateLoop, hr, he]⟩
    · cases hr0 : mapGet s.Reducers k0 with
      | none =>
        simp only [MapSchema.updateLoop, hr0]
        exact tail v0 hin
      | some r0 =>
        simp only [MapSchema.updateLoop, hr0]
        cases hm : r0 ((mapGet result k0).getD .nil) v0 with
        | ok m => exact tail m hin
        | err e0 => exact ⟨_, rfl⟩
        | panic => exact absurd hm (hnp k0 v0 r0 (List.mem_cons_self _ _) hr0)

/-- Counterexample to C8 as stated: the nil interface is not a mapping, yet
`Update(nil, {})` succeeds. -/
theorem MapSchema.update_nil_current_succeeds :
    ¬ (∀ (s : MapSchema) (current part : Value),
      ((∀ m, current ≠ .map m) ∨ (∀ m, part ≠ .map m)) →
        ∃ e, s.Update current part = .err e) := by
  intro h
  obtain ⟨e, he⟩ := h NewMapSchema .nil (.map []) (Or.inl (fun m hm => by cases hm))
  simp [MapSchema.Update, MapSchema.updateLoop] at he

/-- C8 (amended): `Update` returns an error when `current` is neither nil nor a
mapping and when the update is not a mapping; on a nil or mapping `current`
(nil counting as the empty mapping) and a mapping update with distinct keys
whose invoked reducers do not panic, it returns an error exactly when the
reducer registered for some key of the update returns an error, and a mapping
otherwise. -/
theorem MapSchema.update_error_iff (s : MapSchema) :
    (∀ current part : Value, current ≠ .nil → (∀ m, current ≠ .map m) →
      ∃ e, s.Update current part = .err e) ∧
    (∀ current part : Value, (∀ m, part ≠ .map m) → ∃ e, s.Update current part = .err e) ∧
    (∀ (current : Value) (c p : List (String × Value)),
      (current = .nil ∧ c = [] ∨ current = .map c) → (mapKeys p).Nodup →
      (∀ k v r, (k, v) ∈ p → mapGet s.Reducers k = some r →
        r ((mapGet c k).getD .nil) v ≠ .panic) →
      ((∃ e, s.Update current (.map p) = .err e) ↔
        ∃ k v r e, (k, v) ∈ p ∧ mapGet s.Reducers k = some r ∧
          r ((mapGet c k).getD .nil) v = .err e) ∧
      ((¬ ∃ k v r e, (k, v) ∈ p ∧ mapGet s.Reducers k = some r ∧
          r ((mapGet c k).getD .nil) v = .err e) →
        ∃ out, s.Update current (.map p) = .ok (.map out))) := by
  refine ⟨?_, ?_, ?_⟩
  · intro current part hnil hmap
    cases current with
    | nil => exact absurd rfl hnil
    | map m => exact absurd rfl (hmap m)
    | _ => exact ⟨_, rfl⟩
  · intro current part hmap
    cases part with
    | map m => exact absurd rfl (hmap m)
    | _ => cases current <;> exact ⟨_, rfl⟩
  · intro current c p hcur hnd hnp
    have hupd : s.Update current (.map p) = s.updateLoop p c := by
      rcases hcur with ⟨rfl, rfl⟩ | rfl <;> rfl
    rw [hupd]
    have hok : (¬ ∃ k v r e, (k, v) ∈ p ∧ mapGet s.Reducers k = some r ∧
          r ((mapGet c k).getD .nil) v = .err e) →
        ∃ out, s.updateLoop p c = .ok (.map out) := by
      intro hno
      obtain ⟨out, hout, _⟩ := updateLoop_ok s p c hnd (by
        intro k v r hmem hr
        cases hm : r ((mapGet c k).getD .nil) v with
        | ok m => exact ⟨m, rfl⟩
        | err e => exact absurd ⟨k, v, r, e, hmem, hr, hm⟩ hno
        | panic => exact absurd hm (hnp k v r hmem hr))
      exact ⟨out, hout⟩
    refine ⟨⟨?_, ?_⟩, hok⟩
    · rintro ⟨e, he⟩
      by_contra hno
      obtain ⟨out, hout⟩ := hok hno
      rw [hout] at he
      cases he
    · rintro ⟨k, v, r, e, hmem, hr, he⟩
      exact updateLoop_err s p c hnd hnp k v r e hmem hr he

/-- Witness of C8 (amended): a reducer that fails on `count`. -/
theorem MapSchema.update_error_iff_witness :
    ((∃ e, (NewMapSchema.RegisterReducer "count"
          (fun _ _ => .err (.errorString "boom"))).Update .nil
          (.map [("count", .int 1)]) = .err e) ↔
        ∃ k v r e, (k, v) ∈ [("count", Value.int 1)] ∧
          mapGet (NewMapSchema.RegisterReducer "count"
            (fun _ _ => .err (.errorString "boom"))).Reducers k = some r ∧
          r ((mapGet ([] : List (String × Value)) k).getD .nil) v = .err e) ∧
      ((¬ ∃ k v r e, (k, v) ∈ [("count", Value.int 1)] ∧
          mapGet (NewMapSchema.RegisterReducer "count"
            (fun _ _ => .err (.errorString "boom"))).Reducers k = some r ∧
          r ((mapGet ([] : List (String × Value)) k).getD .nil) v = .err e) →
        ∃ out, (NewMapSchema.RegisterReducer "count"
          (fun _ _ => .err (.errorString "boom"))).Update .nil
          (.map [("count", .int 1)]) = .ok (.map out)) :=
  (MapSchema.update_error_iff (NewMapSchema.RegisterReducer "count"
      (fun _ _ => .err (.errorString "boom")))).2.2 .nil [] [("count", .int 1)]
    (Or.inl ⟨rfl, rfl⟩) (by decide)
    (by
      intro k v r hmem hr
      simp only [List.mem_singleton, Prod.mk.injEq] at hmem
      obtain ⟨rfl, rfl⟩ := hmem
      simp [NewMapSchema, MapSchema.RegisterReducer, mapSet, mapGet] at hr
      subst hr
      simp)

/-! ## AddMessages -/

theorem getMessageID_replaceBy (msg x : Value) :
    getMessageID (replaceBy msg x) = getMessageID x := by
  unfold replaceBy
  split
  · rename_i h; exact h.2.symm
  · rfl

theorem map_replaceBy_ids (msg : Value) (l : List Value) :
    (l.map (replaceBy msg)).map getMessageID = l.map getMessageID := by
  simp [List.map_map, Function.comp_def, getMessageID_replaceBy]

theorem map_replaceBy_of_not_mem (msg : Value) (l : List Value)
    (h : ∀ y ∈ l, getMessageID y = "" ∨ getMessageID y ≠ getMessageID msg) :
    l.map (replaceBy msg) = l := by
  induction l with
  | nil => rfl
  | cons x xs ih =>
    have hx := h x (List.mem_cons_self _ _)
    have hxs := ih (fun y hy => h y (List.mem_cons_of_mem _ hy))
    have : replaceBy msg x = x := by
      unfold replaceBy
      rcases hx with hx | hx <;> simp [hx]
    simp [this, hxs]

theorem set_eq_map_replaceBy (msg : Value) (hid : getMessageID msg ≠ "") :
    ∀ (l : List Value) (i : Nat), (l.map getMessageID)[i]? = some (getMessageID msg) →
      DistinctIDs (l.map getMessageID) → l.set i msg = l.map (replaceBy msg) := by
  intro l
  induction l with
  | nil => intro i h; simp at h
  | cons x xs ih =>
    intro i h hd
    unfold DistinctIDs at hd
    simp only [List.map_cons, List.pairwise_cons] at hd
    cases i with
    | zero =>
      simp only [List.map_cons, List.getElem?_cons_zero, Option.some.injEq] at h
      have hx : replaceBy msg x = msg := by simp [replaceBy, h, hid]
      have hxs : xs.map (replaceBy msg) = xs := by
        apply map_replaceBy_of_not_mem
        intro y hy
        right
        rw [← h]
        exact Ne.symm (hd.1 _ (List.mem_map.2 ⟨y, hy, rfl⟩) (by rw [h]; exact hid))
      simp [hx, hxs]
    | succ j =>
      simp only [List.map_cons, List.getElem?_cons_succ] at h
      have hmem : getMessageID msg ∈ xs.map getMessageID := List.getElem?_mem h
      have hx : replaceBy msg x = x := by
        unfold replaceBy
        by_cases hx0 : getMessageID x = ""
        · simp [hx0]
        · have := hd.1 _ hmem hx0
          simp [this]
      simp [hx, ih j h hd.2]

theorem indexed_append_empty (ids : List String) (idx : List (String × Nat))
    (h : Indexed ids idx) : Indexed (ids ++ [""]) idx := by
  refine ⟨fun id i hi => ?_, fun id hmem hne => ?_⟩
  · obtain ⟨h1, h2⟩ := h.1 id i hi
    refine ⟨h1, ?_⟩
    have hlt : i < ids.length := by
      by_contra hge
      rw [List.getElem?_eq_none (Nat.le_of_not_lt hge)] at h2
      cases h2
    rw [List.getElem?_append_left hlt]
    exact h2
  · rcases List.mem_append.1 hmem with hm | hm
    · exact h.2 id hm hne
    · simp at hm
      exact absurd hm hne

theorem indexed_append_new (ids : List String) (idx : List (String × Nat)) (id : String)
    (h : Indexed ids idx) (hne : id ≠ "") :
    Indexed (ids ++ [id]) (mapSet idx id ids.length) := by
  refine ⟨fun id' i hi => ?_, fun id' hmem hne' => ?_⟩
  · by_cases he : id' = id
    · subst he
      rw [mapGet_mapSet_self] at hi
      cases hi
      exact ⟨hne, by simp⟩
    · rw [mapGet_mapSet_ne idx id id' _ he] at hi
      obtain ⟨h1, h2⟩ := h.1 id' i hi
      refine ⟨h1, ?_⟩
      have hlt : i < ids.length := by
        by_contra hge
        rw [List.getElem?_eq_none (Nat.le_of_not_lt hge)] at h2
        cases h2
      rw [List.getElem?_append_left hlt]
      exact h2
  · by_cases he : id' = id
    · subst he
      simp [mapGet_mapSet_self]
    · rw [mapGet_mapSet_ne idx id id' _ he]
      rcases List.mem_append.1 hmem with hm | hm
      · exact h.2 id' hm hne'
      · simp at hm
        exact absurd hm he

theorem distinct_append_one (ids : List String) (id : String) (hd : DistinctIDs ids)
    (h : id = "" ∨ id ∉ ids) : DistinctIDs (ids ++ [id]) := by
  unfold DistinctIDs at *
  rw [List.pairwise_append]
  refine ⟨hd, List.pairwise_singleton _ _, ?_⟩
  intro a ha b hb hne
  simp at hb
  subst hb
  rcases h with h | h
  · rw [h]; exact hne
  · intro e; exact h (e ▸ ha)

theorem indexMessages_indexed (l : List Value) :
    ∀ (pre : List String) (idx : List (String × Nat)), Indexed pre idx →
      DistinctIDs (pre ++ l.map getMessageID) →
      Indexed (pre ++ l.map getMessageID) (indexMessages pre.length l idx) := by
  induction l with
  | nil => intro pre idx h _; simpa [indexMessages] using h
  | cons m rest ih =>
    intro pre idx h hd
    have happ : pre ++ (m :: rest).map getMessageID =
        (pre ++ [getMessageID m]) ++ rest.map getMessageID := by simp
    rw [happ] at hd ⊢
    have hlen : (pre ++ [getMessageID m]).length = pre.length + 1 := by simp
    unfold indexMessages
    rw [← hlen]
    apply ih _ _ _ hd
    by_cases hid : getMessageID m = ""
    · simp only [hid, ne_eq, not_true_eq_false, if_false]
      exact indexed_append_empty pre idx h
    · simp only [ne_eq, hid, not_false_eq_true, if_true]
      exact indexed_append_new pre idx _ h hid

theorem addMessage_step (result : List Value) (idx : List (String × Nat)) (msg : Value)
    (hi : Indexed (result.map getMessageID) idx)
    (hd : DistinctIDs (result.map getMessageID)) :
    (addMessage (result, idx) msg).1 =
        (if getMessageID msg ≠ "" ∧ getMessageID msg ∈ result.map getMessageID
          then result.map (replaceBy msg) else result ++ [msg]) ∧
      Indexed ((addMessage (result, idx) msg).1.map getMessageID) (addMessage (result, idx) msg).2 ∧
      DistinctIDs ((addMessage (result, idx) msg).1.map getMessageID) := by
  by_cases hid : getMessageID msg = ""
  · have hadd : addMessage (result, idx) msg = (result ++ [msg], idx) := by
      simp [addMessage, hid]
    rw [hadd]
    refine ⟨by simp [hid], ?_, ?_⟩
    · simpa [hid] using indexed_append_empty _ idx hi
    · simpa using distinct_append_one _ (getMessageID msg) hd (Or.inl hid)
  · cases hg : mapGet idx (getMessageID msg) with
    | some i =>
      have hadd : addMessage (result, idx) msg = (result.set i msg, idx) := by
        simp [addMessage, hid, hg]
      obtain ⟨_, hget⟩ := hi.1 _ i hg
      have hmem : getMessageID msg ∈ result.map getMessageID := List.getElem?_mem hget
      have hset := set_eq_map_replaceBy msg hid result i hget hd
      rw [hadd]
      simp only [hset, map_replaceBy_ids]
      exact ⟨by simp [hid, hmem], hi, hd⟩
    | none =>
      have hnot : getMessageID msg ∉ result.map getMessageID := by
        intro hmem
        exact hi.2 _ hmem hid hg
      have hadd : addMessage (result, idx) msg =
          (result ++ [msg], mapSet idx (getMessageID msg) result.length) := by
        simp [addMessage, hid, hg]
      rw [hadd]
      refine ⟨by simp [hnot], ?_, ?_⟩
      · have := indexed_append_new _ idx (getMessageID msg) hi hid
        simpa using this
      · simpa using distinct_append_one _ (getMessageID msg) hd (Or.inr hnot)

theorem freshMessages_congr (l : List Value) :
    ∀ seen seen' : List String, (∀ id, id ≠ "" → (id ∈ seen ↔ id ∈ seen')) →
      freshMessages seen l = freshMessages seen' l := by
  induction l with
  | nil => intro _ _ _; rfl
  | cons m rest ih =>
    intro seen seen' h
    by_cases hid : getMessageID m = ""
    · simp [freshMessages, hid, ih seen seen' h]
    · have hiff := h _ hid
      by_cases hs : getMessageID m ∈ seen
      · simp [freshMessages, hid, hs, hiff.1 hs, ih seen seen' h]
      · have hs' : getMessageID m ∉ seen' := fun x => hs (hiff.2 x)
        have := ih (getMessageID m :: seen) (getMessageID m :: seen') (by
          intro id hne
          simp [h id hne])
        simp [freshMessages, hid, hs, hs', this]

theorem freshMessages_unseen (l : List Value) :
    ∀ (seen : List String) (y : Value), y ∈ freshMessages seen l →
      y ∈ l ∧ (getMessageID y = "" ∨ getMessageID y ∉ seen) := by
  induction l with
  | nil => intro _ y h; simp [freshMessages] at h
  | cons m rest ih =>
    intro seen y h
    by_cases hid : getMessageID m = ""
    · simp only [freshMessages, hid, if_true, List.mem_cons] at h
      rcases h with rfl | h
      · exact ⟨List.mem_cons_self _ _, Or.inl hid⟩
      · exact ⟨List.mem_cons_of_mem _ (ih seen y h).1, (ih seen y h).2⟩
    · by_cases hs : getMessageID m ∈ seen
      · simp only [freshMessages, hid, hs, if_true, if_false] at h
        exact ⟨List.mem_cons_of_mem _ (ih seen y h).1, (ih seen y h).2⟩
      · simp only [freshMessages, hid, hs, if_false, List.mem_cons] at h
        rcases h with rfl | h
        · exact ⟨List.mem_cons_self _ _, Or.inr hs⟩
        · obtain ⟨h1, h2⟩ := ih _ y h
          refine ⟨List.mem_cons_of_mem _ h1, ?_⟩
          rcases h2 with h2 | h2
          · exact Or.inl h2
          · exact Or.inr (fun x => h2 (List.mem_cons_of_mem _ x))

theorem upserted_nil (x : Value) : upserted [] x = x := by
  simp [upserted, lastWithID]

theorem upserted_cons (m : Value) (rest : List Value) (x : Value) :
    upserted (m :: rest) x = upserted rest (replaceBy m x) := by
  by_cases hx : getMessageID x = ""
  · simp [upserted, replaceBy, hx]
  · by_cases hm : getMessageID x = getMessageID m
    · have hm' : getMessageID m ≠ "" := fun e => hx (hm.trans e)
      simp only [upserted, replaceBy, hx, hm, hm', lastWithID, if_false, ne_eq,
        not_false_eq_true, and_self, if_true, List.filter_cons, decide_True]
      rw [List.getLast?_cons]
      simp
    · have hm2 : ¬ getMessageID m = getMessageID x := fun e => hm e.symm
      simp [upserted, replaceBy, hx, hm, hm2, lastWithID, List.filter_cons]

theorem upserted_mem (incoming : List Value) (x : Value) :
    upserted incoming x = x ∨ upserted incoming x ∈ incoming := by
  unfold upserted
  split
  · exact Or.inl rfl
  · unfold lastWithID
    cases h : (incoming.filter (fun m => decide (getMessageID m = getMessageID x))).getLast? with
    | none => exact Or.inl rfl
    | some y =>
      right
      have := List.mem_of_getLast?_eq_some h
      exact (List.mem_filter.1 this).1

theorem foldl_addMessage_spec (incoming : List Value) :
    ∀ (result : List Value) (idx : List (String × Nat)),
      Indexed (result.map getMessageID) idx → DistinctIDs (result.map getMessageID) →
      (incoming.foldl addMessage (result, idx)).1 =
        (result ++ freshMessages (result.map getMessageID) incoming).map (upserted incoming) := by
  induction incoming with
  | nil =>
    intro result idx _ _
    have hid : upserted [] = id := funext upserted_nil
    simp [freshMessages, hid]
  | cons m rest ih =>
    intro result idx hi hd
    obtain ⟨hres, hi', hd'⟩ := addMessage_step result idx m hi hd
    have hfun : upserted (m :: rest) = fun x => upserted rest (replaceBy m x) :=
      funext (upserted_cons m rest)
    have hmap : ∀ l : List Value, l.map (upserted (m :: rest)) =
        (l.map (replaceBy m)).map (upserted rest) := by
      intro l
      rw [hfun, List.map_map]
      rfl
    rw [List.foldl_cons]
    have hpair : addMessage (result, idx) m =
        ((addMessage (result, idx) m).1, (addMessage (result, idx) m).2) := rfl
    rw [hpair, ih _ _ hi' hd', hmap]
    congr 1
    rw [hres]
    by_cases hid : getMessageID m = ""
    · have hrep : ∀ l : List Value, l.map (replaceBy m) = l := fun l =>
        map_replaceBy_of_not_mem m l (fun y _ => by
          by_cases hy : getMessageID y = ""
          · exact Or.inl hy
          · exact Or.inr (by rw [hid]; exact hy))
      have hc : ¬ (getMessageID m ≠ "" ∧ getMessageID m ∈ result.map getMessageID) := by
        simp [hid]
      have hf : freshMessages (List.map getMessageID (result ++ [m])) rest =
          freshMessages (result.map getMessageID) rest :=
        freshMessages_congr rest _ _ (by
          intro id hne
          simp [hid, Ne.symm hne, hne])
      rw [if_neg hc, hf, hrep]
      simp [freshMessages, hid]
    · by_cases hmem : getMessageID m ∈ result.map getMessageID
      · have hf : freshMessages (result.map getMessageID) (m :: rest) =
            freshMessages (result.map getMessageID) rest := by
          simp [freshMessages, hid, hmem]
        have hfresh : (freshMessages (result.map getMessageID) rest).map (replaceBy m) =
            freshMessages (result.map getMessageID) rest := by
          apply map_replaceBy_of_not_mem
          intro y hy
          rcases (freshMessages_unseen rest _ y hy).2 with h | h
          · exact Or.inl h
          · exact Or.inr (fun e => h (e ▸ hmem))
        rw [if_pos ⟨hid, hmem⟩, map_replaceBy_ids, List.map_append (replaceBy m), hf, hfresh]
      · have hc : ¬ (getMessageID m ≠ "" ∧ getMessageID m ∈ result.map getMessageID) :=
          fun h => hmem h.2
        have hres1 : result.map (replaceBy m) = result := by
          apply map_replaceBy_of_not_mem
          intro y hy
          right
          intro e
          exact hmem (e ▸ List.mem_map.2 ⟨y, hy, rfl⟩)
        have hself : replaceBy m m = m := by simp [replaceBy]
        have hfresh : (freshMessages (getMessageID m :: result.map getMessageID) rest).map
            (replaceBy m) = freshMessages (getMessageID m :: result.map getMessageID) rest := by
          apply map_replaceBy_of_not_mem
          intro y hy
          rcases (freshMessages_unseen rest _ y hy).2 with h | h
          · exact Or.inl h
          · exact Or.inr (fun e => h (e ▸ List.mem_cons_self _ _))
        have hf : freshMessages (result.map getMessageID) (m :: rest) =
            m :: freshMessages (getMessageID m :: result.map getMessageID) rest := by
          simp [freshMessages, hid, hmem]
        have hf2 : freshMessages (List.map getMessageID (result ++ [m])) rest =
            freshMessages (getMessageID m :: result.map getMessageID) rest :=
          freshMessages_congr rest _ _ (by
            intro id _
            simp only [List.map_append, List.map_cons, List.map_nil, List.mem_append,
              List.mem_cons, List.mem_singleton, List.not_mem_nil, or_false]
            tauto)
        rw [if_neg hc, List.map_append (replaceBy m), hres1, hf, List.map_cons, hself, hfresh,
          hf2]
        simp

theorem rebuildSlice_ok (T : GoType) (l : List Value) :
    ∀ acc : List Value, (∀ m ∈ l, ∃ t, typeOf m = some t ∧ assignableTo t T = true) →
      rebuildSlice T l acc = .ok (.slice T (acc ++ l)) := by
  induction l with
  | nil => intro acc _; simp [rebuildSlice]
  | cons x xs ih =>
    intro acc h
    obtain ⟨t, ht, ha⟩ := h x (List.mem_cons_self _ _)
    simp only [rebuildSlice, ht, ha, if_true]
    rw [ih _ (fun m hm => h m (List.mem_cons_of_mem _ hm))]
    simp

theorem indexMessages_initial (cur : List Value) (hd : DistinctIDs (cur.map getMessageID)) :
    Indexed (cur.map getMessageID) (indexMessages 0 cur []) := by
  have h0 : Indexed ([] : List String) ([] : List (String × Nat)) :=
    ⟨fun id i h => by simp [mapGet] at h, fun id h => by simp at h⟩
  simpa using indexMessages_indexed cur [] [] h0 (by simpa using hd)

/-- Counterexample to C2 as stated: with current `[1:a]` and incoming
`[3:X, 3:Y]` the message `3:X` matches nothing in the result when it arrives, so
the stated result is `[1:a, 3:X]`; `AddMessages` returns `[1:a, 3:Y]`. -/
theorem AddMessages_appended_is_replaced :
    addMessagesStated [TestMessage "1" "a"] [TestMessage "3" "X", TestMessage "3" "Y"] =
        [TestMessage "1" "a", TestMessage "3" "X"] ∧
      AddMessages (.slice (.named "TestMessage") [TestMessage "1" "a"])
          (.slice (.named "TestMessage") [TestMessage "3" "X", TestMessage "3" "Y"]) =
        .ok (.slice (.named "TestMessage") [TestMessage "1" "a", TestMessage "3" "Y"]) ∧
      AddMessages (.slice (.named "TestMessage") [TestMessage "1" "a"])
          (.slice (.named "TestMessage") [TestMessage "3" "X", TestMessage "3" "Y"]) ≠
        .ok (.slice (.named "TestMessage") (addMessagesStated [TestMessage "1" "a"]
          [TestMessage "3" "X", TestMessage "3" "Y"])) := by
  decide

/-- C2 (amended): for a non-nil sequence `current` whose non-empty identities
are pairwise distinct and incoming messages (the elements of a sequence `new`,
or the single value `new`) assignable to the element type, `AddMessages`
returns the positions of `current` in order, each holding the last incoming
message with its non-empty identity if there is one, followed in arrival order
by one position for every incoming message whose identity is empty or matches
no message already in the result, that position holding the last incoming
message with the same non-empty identity. -/
theorem AddMessages_spec (T : GoType) (cur incoming : List Value) (new : Value)
    (hnew : (∃ U, new = .slice U incoming) ∨ (isSlice new = false ∧ incoming = [new]))
    (hd : DistinctIDs (cur.map getMessageID))
    (hty : ∀ m, m ∈ cur ∨ m ∈ incoming → ∃ t, typeOf m = some t ∧ assignableTo t T = true) :
    AddMessages (.slice T cur) new =
      .ok (.slice T (cur.map (upserted incoming) ++
        (freshMessages (cur.map getMessageID) incoming).map (upserted incoming))) := by
  have hmsgs : newMessagesOf new = incoming := by
    rcases hnew with ⟨U, rfl⟩ | ⟨hs, rfl⟩
    · rfl
    · cases new <;> first | rfl | simp [isSlice] at hs
  have hfold := foldl_addMessage_spec incoming cur (indexMessages 0 cur [])
    (indexMessages_initial cur hd) hd
  unfold AddMessages
  simp only [hmsgs, hfold]
  rw [rebuildSlice_ok, List.map_append]
  · rfl
  · intro m hm
    rcases List.mem_map.1 hm with ⟨x, hx, rfl⟩
    have hx' : x ∈ cur ∨ x ∈ incoming := by
      rcases List.mem_append.1 hx with h | h
      · exact Or.inl h
      · exact Or.inr (freshMessages_unseen incoming _ x h).1
    rcases upserted_mem incoming x with h | h
    · rw [h]; exact hty x hx'
    · exact hty _ (Or.inr h)

/-- Witness of C2 (amended): the upsert test of `add_messages_test.go`,
`[1:First, 2:Second] + [1:First Updated, 3:Third]`. -/
theorem AddMessages_spec_witness :
    AddMessages (.slice (.named "TestMessage") [TestMessage "1" "First", TestMessage "2" "Second"])
        (.slice (.named "TestMessage") [TestMessage "1" "First Updated", TestMessage "3" "Third"]) =
      .ok (.slice (.named "TestMessage")
        [TestMessage "1" "First Updated", TestMessage "2" "Second", TestMessage "3" "Third"]) := by
  have h := AddMessages_spec (.named "TestMessage")
    [TestMessage "1" "First", TestMessage "2" "Second"]
    [TestMessage "1" "First Updated", TestMessage "3" "Third"]
    (.slice (.named "TestMessage") [TestMessage "1" "First Updated", TestMessage "3" "Third"])
    (Or.inl ⟨_, rfl⟩) (by unfold DistinctIDs; decide)
    (by
      intro m hm
      simp only [List.mem_cons, List.mem_singleton, List.not_mem_nil, or_false] at hm
      rcases hm with (rfl | rfl) | (rfl | rfl) <;> exact ⟨.named "TestMessage", rfl, rfl⟩)
  rw [h]
  decide

/-! ## Command goto -/

theorem dedupGoto_spec (l : List String) : ∀ seen : List String,
    dedupGoto l seen =
      (firstOccurrences (l.filter (fun n => decide (n ≠ END)))).filter
        (fun x => decide (x ∉ seen)) := by
  induction l with
  | nil => intro seen; rfl
  | cons n rest ih =>
    intro seen
    by_cases hEnd : n = END
    · subst hEnd
      simp [dedupGoto, ih seen]
    · by_cases hseen : n ∈ seen
      · have h1 : dedupGoto (n :: rest) seen = dedupGoto rest seen := by
          simp [dedupGoto, hseen]
        rw [h1, ih seen]
        simp only [ne_eq, hEnd, not_false_eq_true, decide_True, List.filter_cons_of_pos,
          firstOccurrences, hseen, not_true_eq_false, decide_False, Bool.false_eq_true,
          List.filter_cons_of_neg, List.filter_filter]
        apply List.filter_congr
        intro x _
        by_cases hx : x ∈ seen
        · simp [hx]
        · have : x ≠ n := fun e => hx (e ▸ hseen)
          simp [hx, this]
      · have h1 : dedupGoto (n :: rest) seen = n :: dedupGoto rest (n :: seen) := by
          simp [dedupGoto, hseen, hEnd]
        rw [h1, ih (n :: seen)]
        simp only [ne_eq, hEnd, not_false_eq_true, decide_True, List.filter_cons_of_pos,
          firstOccurrences, hseen, List.filter_filter]
        congr 1
        apply List.filter_congr
        intro x _
        by_cases hx : x = n
        · simp [hx]
        · simp [hx]

theorem mergeAndRoute_goto (g : MessageGraph) (ctx : Context) (state state' : Value)
    (currentNodes : List String) (results : List Value)
    (hmerge : mergeResults g ctx state (results.map processedResult) = .ok state')
    (hgoto : allGotoTargets results ≠ []) :
    mergeAndRoute g ctx state currentNodes results =
      .ok (state', firstOccurrences ((allGotoTargets results).filter
        (fun n => decide (n ≠ END)))) := by
  have hlen : (allGotoTargets results).length > 0 := List.length_pos.2 hgoto
  have hlen' : (results.map gotoTargets).flatten.length > 0 := hlen
  simp only [mergeAndRoute, processResults, hmerge, determineNext, hlen', if_true,
    dedupGoto_spec, allGotoTargets]
  simp

theorem outs_all_ok {α : Type} (mk : String → GoError → GoError) (f : α → Res Value)
    (nodes : List (String × α)) : ∀ results : List Value,
    nodes.map (fun n => f n.2) = results.map Res.ok →
      anyPanic (nodes.map (fun n => (n.1, f n.2))) = false ∧
      errorsOf mk (nodes.map (fun n => (n.1, f n.2))) = [] ∧
      resultsOf (nodes.map (fun n => (n.1, f n.2))) = results := by
  induction nodes with
  | nil =>
    intro results h
    cases results with
    | nil => simp [anyPanic, errorsOf, resultsOf]
    | cons _ _ => simp at h
  | cons n rest ih =>
    intro results h
    cases results with
    | nil => simp at h
    | cons v vs =>
      simp only [List.map_cons, List.cons.injEq] at h
      obtain ⟨h1, h2, h3⟩ := ih vs h.2
      simp only [anyPanic] at h1
      simp [anyPanic, errorsOf, resultsOf, h.1, h1, h2, h3]

/-- Counterexample to C3 as stated: node A returns a Command whose Goto is the
empty list of node names, the goto targets of the step are none, and yet the
next frontier is B, taken from the static edge of A; B then runs. -/
theorem empty_goto_falls_back_to_edges :
    isGotoCommand (.command (.map []) (.slice .string [])) = true ∧
      firstOccurrences ((allGotoTargets [.command (.map []) (.slice .string [])]).filter
        (fun n => decide (n ≠ END))) = [] ∧
      StateRunnable.superStep { graph := emptyGotoGraph } plainRendering background
        (.map []) ["A"] = .next (.map []) ["B"] ["A"] ∧
      (StateRunnable.run { graph := emptyGotoGraph } plainRendering 5 background
        (.map []) none).steps = [(["A"], .map []), (["B"], .map [])] := by
  decide

/-- C3 (amended): in a super-step of `StateRunnable` or `Runnable` whose nodes
all return, whose merge succeeds and in which the Commands contribute at least
one goto target, the next frontier is the goto targets of all Commands in order
of first occurrence, without duplicates and without END, whatever the static
and conditional edges of the graph are: so the frontier phase computes it for
every graph, and so both runnables continue with it. -/
theorem goto_is_next_frontier (state state' : Value) (currentNodes : List String)
    (results : List Value) (nodes : List (String × Node)) (ctx : Context)
    (hgoto : allGotoTargets results ≠ []) :
    (∀ g : MessageGraph,
      mergeResults g ctx state (results.map processedResult) = .ok state' →
      mergeAndRoute g ctx state currentNodes results =
        .ok (state', firstOccurrences ((allGotoTargets results).filter
          (fun n => decide (n ≠ END))))) ∧
    (∀ (r : StateRunnable) (rd : Rendering),
      lookupNodes r.graph.nodes currentNodes = .ok nodes →
      nodes.map (fun n => r.executeNodeWithRetry rd ctx n.2 state) = results.map Res.ok →
      mergeResults r.graph.toMessageGraph ctx state (results.map processedResult) = .ok state' →
      r.superStep rd ctx state currentNodes =
        .next (cleanupState r.graph.toMessageGraph state')
          (firstOccurrences ((allGotoTargets results).filter (fun n => decide (n ≠ END))))
          currentNodes) ∧
    (∀ (r : Runnable) (config : Option Config),
      lookupNodes r.graph.nodes currentNodes = .ok nodes →
      nodes.map (fun n => n.2.Function ctx state) = results.map Res.ok →
      mergeResults r.graph ctx state (results.map processedResult) = .ok state' →
      config.bind (fun c => interruptGate c.InterruptBefore currentNodes) = none →
      config.bind (fun c => interruptGate c.InterruptAfter currentNodes) = none →
      r.superStep config ctx state currentNodes =
        .next (cleanupState r.graph state')
          (firstOccurrences ((allGotoTargets results).filter (fun n => decide (n ≠ END))))
          currentNodes) := by
  refine ⟨fun g hmerge => mergeAndRoute_goto g ctx state state' currentNodes results hmerge
    hgoto, ?_, ?_⟩
  · intro r rd hlook hres hmerge
    obtain ⟨h1, h2, h3⟩ := outs_all_ok stateNodeError
      (fun n : Node => r.executeNodeWithRetry rd ctx n state) nodes results hres
    have hroute := mergeAndRoute_goto r.graph.toMessageGraph ctx state state' currentNodes
      results hmerge hgoto
    simp only [StateRunnable.superStep, hlook, h1, h2, h3, hroute]
    simp
  · intro r config hlook hres hmerge hb ha
    obtain ⟨h1, h2, h3⟩ := outs_all_ok nodeError
      (fun n : Node => n.Function ctx state) nodes results hres
    have hroute := mergeAndRoute_goto r.graph ctx state state' currentNodes
      results hmerge hgoto
    simp only [Runnable.superStep, hb, hlook, h1, h2, h3, hroute, ha]
    simp

/-- Witness of C3 (amended): `TestCommandGoto`. A returns
`Command{Update: {count: 1}, Goto: "C"}` with edges A → B → C → END; the next
frontier is C, B never runs and the final count is 101. -/
theorem goto_is_next_frontier_witness :
    StateRunnable.superStep { graph := commandGotoGraph } plainRendering background
        (.map [("count", .int 0)]) ["A"] =
      .next (cleanupState commandGotoGraph.toMessageGraph (.map [("count", .int 1)]))
        (firstOccurrences ((allGotoTargets
          [.command (.map [("count", .int 1)]) (.str "C")]).filter
          (fun n => decide (n ≠ END)))) ["A"] ∧
    StateRunnable.run { graph := commandGotoGraph } plainRendering 5 background
        (.map [("count", .int 0)]) none =
      { outcome := .returned (.map [("count", .int 101)]) none,
        steps := [(["A"], .map [("count", .int 0)]), (["C"], .map [("count", .int 1)])] } :=
  ⟨(goto_is_next_frontier (.map [("count", .int 0)]) (.map [("count", .int 1)]) ["A"]
      [.command (.map [("count", .int 1)]) (.str "C")]
      [("A", { Name := "A",
               Function := fun _ _ => .ok (.command (.map [("count", .int 1)]) (.str "C")) })]
      background (by decide)).2.1 { graph := commandGotoGraph } plainRendering
      (by rfl) (by rfl) (by decide),
    by decide⟩

/-! ## Ephemeral keys -/

theorem cleanup_noEphemeral (s : MapSchema) (state : Value) :
    NoEphemeral s (s.Cleanup state) := by
  intro k hk
  cases state with
  | map m =>
    obtain ⟨r, hr, hnone, _⟩ := (cleanup_cases s).1 m
    rw [hr]
    simp [hasKey, mapHas, hnone k hk]
  | _ =>
    rw [(cleanup_cases s).2 _ (by intro m hm; cases hm)]
    rfl

theorem stateRunnable_step_clean (s : MapSchema) (r : StateRunnable)
    (hs : r.graph.Schema = some s.toSchema) (rd : Rendering) (ctx : Context) (state : Value)
    (currentNodes : List String) :
    (∀ st nodes ran, r.superStep rd ctx state currentNodes = .next st nodes ran →
      NoEphemeral s st) ∧
    (∀ st ran, r.superStep rd ctx state currentNodes ≠ .ret st none ran) := by
  unfold StateRunnable.superStep
  cases lookupNodes r.graph.nodes currentNodes with
  | error e => exact ⟨fun _ _ _ h => (by cases h), fun _ _ h => (by cases h)⟩
  | ok nodes =>
    simp only
    split
    · exact ⟨fun _ _ _ h => (by cases h), fun _ _ h => (by cases h)⟩
    · split
      · exact ⟨fun _ _ _ h => (by cases h), fun _ _ h => (by cases h)⟩
      · split
        · exact ⟨fun _ _ _ h => (by cases h), fun _ _ h => (by cases h)⟩
        · exact ⟨fun _ _ _ h => (by cases h), fun _ _ h => (by cases h)⟩
        · refine ⟨fun st nodes' ran h => ?_, fun _ _ h => (by cases h)⟩
          cases h
          simp only [cleanupState, hs, MapSchema.toSchema]
          exact cleanup_noEphemeral s _

theorem runnable_step_clean (s : MapSchema) (r : Runnable)
    (hs : r.graph.Schema = some s.toSchema) (config : Option Config) (ctx : Context)
    (state : Value) (currentNodes : List String) :
    (∀ st nodes ran, r.superStep config ctx state currentNodes = .next st nodes ran →
      NoEphemeral s st) ∧
    (∀ st ran, r.superStep config ctx state currentNodes ≠ .ret st none ran) := by
  unfold Runnable.superStep
  split
  · exact ⟨fun _ _ _ h => (by cases h), fun _ _ h => (by cases h)⟩
  · cases lookupNodes r.graph.nodes currentNodes with
    | error e => exact ⟨fun _ _ _ h => (by cases h), fun _ _ h => (by cases h)⟩
    | ok nodes =>
      simp only
      split
      · exact ⟨fun _ _ _ h => (by cases h), fun _ _ h => (by cases h)⟩
      · split
        · split
          · exact ⟨fun _ _ _ h => (by cases h), fun _ _ h => (by cases h)⟩
          · exact ⟨fun _ _ _ h => (by cases h), fun _ _ h => (by cases h)⟩
        · split
          · exact ⟨fun _ _ _ h => (by cases h), fun _ _ h => (by cases h)⟩
          · exact ⟨fun _ _ _ h => (by cases h), fun _ _ h => (by cases h)⟩
          · split
            · exact ⟨fun _ _ _ h => (by cases h), fun _ _ h => (by cases h)⟩
            · refine ⟨fun st nodes' ran h => ?_, fun _ _ h => (by cases h)⟩
              cases h
              simp only [cleanupState, hs, MapSchema.toSchema]
              exact cleanup_noEphemeral s _

theorem runLoop_clean (s : MapSchema) (step : Value → List String → StepOut)
    (hnext : ∀ state nodes st nodes' ran, step state nodes = .next st nodes' ran →
      NoEphemeral s st)
    (hret : ∀ state nodes st ran, step state nodes ≠ .ret st none ran) :
    ∀ (fuel : Nat) (state : Value) (currentNodes : List String), NoEphemeral s state →
      (∀ e ∈ (runLoop step fuel state currentNodes).steps, NoEphemeral s e.2) ∧
      (∀ st, (runLoop step fuel state currentNodes).outcome = .returned st none →
        NoEphemeral s st) := by
  intro fuel
  induction fuel with
  | zero =>
    intro state currentNodes _
    exact ⟨fun e he => (by simp [runLoop] at he), fun st h => (by simp [runLoop] at h)⟩
  | succ fuel ih =>
    intro state currentNodes hclean
    unfold runLoop
    split
    · refine ⟨fun e he => (by simp at he), fun st h => ?_⟩
      simp only [Outcome.returned.injEq, and_true] at h
      rw [← h]
      exact hclean
    · split
      · rename_i st err ran hstep
        refine ⟨fun e he => ?_, fun st' h => ?_⟩
        · simp only [List.mem_singleton] at he
          rw [he]
          exact hclean
        · simp only [Outcome.returned.injEq] at h
          obtain ⟨_, h2⟩ := h
          subst h2
          exact absurd hstep (hret _ _ _ _)
      · refine ⟨fun e he => ?_, fun st' h => (by simp at h)⟩
        simp only [List.mem_singleton] at he
        rw [he]
        exact hclean
      · rename_i st nodes ran hstep
        obtain ⟨h1, h2⟩ := ih st nodes (hnext _ _ _ _ _ hstep)
        refine ⟨fun e he => ?_, fun st' h => h2 st' h⟩
        rcases List.mem_cons.1 he with he | he
        · rw [he]
          exact hclean
        · exact h1 e he

theorem runLoop_later_clean (s : MapSchema) (step : Value → List String → StepOut)
    (hnext : ∀ state nodes st nodes' ran, step state nodes = .next st nodes' ran →
      NoEphemeral s st)
    (hret : ∀ state nodes st ran, step state nodes ≠ .ret st none ran)
    (fuel : Nat) (state : Value) (currentNodes : List String) :
    (∀ e ∈ (runLoop step fuel state currentNodes).steps.tail, NoEphemeral s e.2) ∧
      (∀ st, (runLoop step fuel state currentNodes).outcome = .returned st none →
        (runLoop step fuel state currentNodes).steps ≠ [] → NoEphemeral s st) := by
  cases fuel with
  | zero =>
    exact ⟨fun e he => (by simp [runLoop] at he), fun st h => (by simp [runLoop] at h)⟩
  | succ fuel =>
    unfold runLoop
    split
    · exact ⟨fun e he => (by simp at he), fun st _ h => (by simp at h)⟩
    · split
      · rename_i st err ran hstep
        refine ⟨fun e he => (by simp at he), fun st' h _ => ?_⟩
        simp only [Outcome.returned.injEq] at h
        obtain ⟨_, h2⟩ := h
        subst h2
        exact absurd hstep (hret _ _ _ _)
      · exact ⟨fun e he => (by simp at he), fun st' h => (by simp at h)⟩
      · rename_i st nodes ran hstep
        obtain ⟨h1, h2⟩ := runLoop_clean s step hnext hret fuel st nodes
          (hnext _ _ _ _ _ hstep)
        exact ⟨fun e he => h1 e (by simpa using he), fun st' h _ => h2 st' h⟩

/-- C4: with a MapSchema set, in every invocation of `StateRunnable` and of
`Runnable` the state handed to the nodes of every super-step after the first
contains no key registered as ephemeral, and neither does the state returned
without error after at least one super-step. -/
theorem ephemeral_keys_cleared (s : MapSchema) (fuel : Nat) (ctx : Context)
    (initialState : Value) (config : Option Config) :
    (∀ (r : StateRunnable) (rd : Rendering), r.graph.Schema = some s.toSchema →
      (∀ e ∈ (r.run rd fuel ctx initialState config).steps.tail, NoEphemeral s e.2) ∧
      (∀ st, r.InvokeWithConfig rd fuel ctx initialState config = .returned st none →
        (r.run rd fuel ctx initialState config).steps ≠ [] → NoEphemeral s st)) ∧
    (∀ r : Runnable, r.graph.Schema = some s.toSchema →
      (∀ e ∈ (r.run fuel ctx initialState config).steps.tail, NoEphemeral s e.2) ∧
      (∀ st, r.InvokeWithConfig fuel ctx initialState config = .returned st none →
        (r.run fuel ctx initialState config).steps ≠ [] → NoEphemeral s st)) := by
  constructor
  · intro r rd hs
    exact runLoop_later_clean s _
      (fun state nodes => (stateRunnable_step_clean s r hs rd _ state nodes).1)
      (fun state nodes => (stateRunnable_step_clean s r hs rd _ state nodes).2)
      fuel initialState _
  · intro r hs
    exact runLoop_later_clean s _
      (fun state nodes => (runnable_step_clean s r hs config _ state nodes).1)
      (fun state nodes => (runnable_step_clean s r hs config _ state nodes).2)
      fuel initialState _

/-- Witness of C4: `TestEphemeralChannel`. A writes `{temp: 1, count: 1}`, B
is handed a state without `temp` and adds 10; the final state is
`{count: 11}`. -/
theorem ephemeral_keys_cleared_witness :
    ((∀ e ∈ (StateRunnable.run { graph := ephemeralGraph } plainRendering 5 background
          (.map [("count", .int 0)]) none).steps.tail,
        NoEphemeral ((NewMapSchema.RegisterChannel "temp" OverwriteReducer true).RegisterReducer
          "count" sumReducer) e.2) ∧
      (∀ st, StateRunnable.InvokeWithConfig { graph := ephemeralGraph } plainRendering 5
          background (.map [("count", .int 0)]) none = .returned st none →
        (StateRunnable.run { graph := ephemeralGraph } plainRendering 5 background
          (.map [("count", .int 0)]) none).steps ≠ [] →
        NoEphemeral ((NewMapSchema.RegisterChannel "temp" OverwriteReducer true).RegisterReducer
          "count" sumReducer) st)) ∧
    StateRunnable.run { graph := ephemeralGraph } plainRendering 5 background
        (.map [("count", .int 0)]) none =
      { outcome := .returned (.map [("count", .int 11)]) none,
        steps := [(["A"], .map [("count", .int 0)]), (["B"], .map [("count", .int 1)])] } :=
  ⟨(ephemeral_keys_cleared ((NewMapSchema.RegisterChannel "temp" OverwriteReducer
      true).RegisterReducer "count" sumReducer) 5 background (.map [("count", .int 0)])
      none).1 { graph := ephemeralGraph } plainRendering rfl,
    by decide⟩

/-! ## Merge of a super-step -/

theorem foldl_stuck (schema : StateSchema) (updates : List Value) :
    (∀ e, updates.foldl (foldStep schema) (.err e) = .err e) ∧
    updates.foldl (foldStep schema) .panic = .panic := by
  induction updates with
  | nil => exact ⟨fun _ => rfl, rfl⟩
  | cons u rest ih =>
    exact ⟨fun e => (by simpa [foldStep] using ih.1 e), (by simpa [foldStep] using ih.2)⟩

theorem mergeWithSchema_eq_fold (schema : StateSchema) (updates : List Value) :
    ∀ state : Value, mergeWithSchema schema state updates =
      match foldUpdate schema state updates with
      | .ok st => .ok st
      | .err e => .err (.wrapError "schema update failed: " e "")
      | .panic => .panic := by
  induction updates with
  | nil => intro state; rfl
  | cons u rest ih =>
    intro state
    have hstep : foldUpdate schema state (u :: rest) =
        rest.foldl (foldStep schema) (schema.Update state u) := rfl
    rw [hstep, mergeWithSchema]
    cases hu : schema.Update state u with
    | ok st => exact ih st
    | err e => simp [(foldl_stuck schema rest).1 e]
    | panic => simp [(foldl_stuck schema rest).2]

/-- C5: in a super-step the updates are the results in frontier order, a
Command contributing its Update field; with a schema the post-merge state is
`Update` folded over them from left to right, else with a state merger it is
the merger applied to the state and the list of all updates, else it is the
last update. -/
theorem merge_of_step (g : MessageGraph) (ctx : Context) (state : Value)
    (results : List Value) :
    (processResults results).1 = results.map processedResult ∧
    (∀ update goto, processedResult (.command update goto) = update) ∧
    (∀ schema, g.Schema = some schema →
      mergeResults g ctx state (processResults results).1 =
        match foldUpdate schema state (processResults results).1 with
        | .ok st => .ok st
        | .err e => .err (.wrapError "schema update failed: " e "")
        | .panic => .panic) ∧
    (∀ merger, g.Schema = none → g.stateMerger = some merger →
      mergeResults g ctx state (processResults results).1 =
        match merger ctx state (processResults results).1 with
        | .ok st => .ok st
        | .err e => .err (.wrapError "state merge failed: " e "")
        | .panic => .panic) ∧
    (∀ un, g.Schema = none → g.stateMerger = none →
      (processResults results).1.getLast? = some un →
      mergeResults g ctx state (processResults results).1 = .ok un) ∧
    (∀ (r : StateRunnable) (rd : Rendering) (currentNodes next : List String)
      (nodes : List (String × Node)) (merged : Value),
      r.graph.toMessageGraph = g → lookupNodes r.graph.nodes currentNodes = .ok nodes →
      nodes.map (fun n => r.executeNodeWithRetry rd ctx n.2 state) = results.map Res.ok →
      mergeResults g ctx state (processResults results).1 = .ok merged →
      determineNext g ctx merged currentNodes (processResults results).2 = .ok next →
      r.superStep rd ctx state currentNodes = .next (cleanupState g merged) next currentNodes) ∧
    (∀ (r : Runnable) (currentNodes next : List String)
      (nodes : List (String × Node)) (merged : Value),
      r.graph = g → lookupNodes r.graph.nodes currentNodes = .ok nodes →
      nodes.map (fun n => n.2.Function ctx state) = results.map Res.ok →
      mergeResults g ctx state (processResults results).1 = .ok merged →
      determineNext g ctx merged currentNodes (processResults results).2 = .ok next →
      r.superStep none ctx state currentNodes = .next (cleanupState g merged) next currentNodes)
    := by
  refine ⟨rfl, fun _ _ => rfl, ?_, ?_, ?_, ?_, ?_⟩
  · intro schema hs
    simp only [mergeResults, hs]
    exact mergeWithSchema_eq_fold schema _ state
  · intro merger hs hm
    simp only [mergeResults, hs, hm]
  · intro un hs hm hlast
    simp only [mergeResults, hs, hm, hlast]
  · intro r rd currentNodes next nodes merged hg hlook hres hmerge hnext
    subst hg
    obtain ⟨h1, h2, h3⟩ := outs_all_ok stateNodeError
      (fun n : Node => r.executeNodeWithRetry rd ctx n state) nodes results hres
    simp only [StateRunnable.superStep, hlook, h1, h2, h3, mergeAndRoute, hmerge, hnext]
    simp
  · intro r currentNodes next nodes merged hg hlook hres hmerge hnext
    subst hg
    obtain ⟨h1, h2, h3⟩ := outs_all_ok nodeError
      (fun n : Node => n.Function ctx state) nodes results hres
    simp only [Runnable.superStep, Option.bind, hlook, h1, h2, h3, mergeAndRoute, hmerge,
      hnext]
    simp

/-- Witness of C5: without schema and merger, the results `1` and
`Command{Update: 2}` merge to `2`; with the sum schema on `count`, the updates
`{count: 1}` and `{count: 2}` fold to `{count: 3}`. -/
theorem merge_of_step_witness :
    mergeResults NewMessageGraph background (.int 0)
        (processResults [.int 1, .command (.int 2) .nil]).1 = .ok (.int 2) ∧
      mergeResults (NewMessageGraph.SetSchema
          (NewMapSchema.RegisterReducer "count" sumReducer).toSchema) background
          (.map [("count", .int 0)])
          (processResults [.map [("count", .int 1)], .map [("count", .int 2)]]).1 =
        .ok (.map [("count", .int 3)]) :=
  ⟨(merge_of_step NewMessageGraph background (.int 0)
      [.int 1, .command (.int 2) .nil]).2.2.2.2.1 (.int 2) rfl rfl rfl,
    by decide⟩

/-! ## Interrupt gates -/

theorem mem_filter_END (currentNodes : List String) (n : String) :
    n ∈ currentNodes.filter (fun node => node != END) ↔ n ∈ currentNodes ∧ n ≠ END := by
  simp [List.mem_filter]

/-- C9: when a node of the frontier of a super-step (`END` apart) is listed in
`config.InterruptBefore`, `Runnable.InvokeWithConfig` calls no node function in
that step and returns the state as it was before the step with a GraphInterrupt
whose Node is the first such frontier node and whose State is the returned
state; at the first step that state is the initial state. -/
theorem interrupt_before_gate (r : Runnable) (c : Config) (ctx : Context) (fuel : Nat) :
    (∀ (state : Value) (currentNodes : List String),
      (∃ n ∈ currentNodes, n ≠ END ∧ n ∈ c.InterruptBefore) →
      ∃ node pre post, currentNodes.filter (fun node => node != END) = pre ++ node :: post ∧
        node ∈ c.InterruptBefore ∧ (∀ x ∈ pre, x ∉ c.InterruptBefore) ∧
        r.loop (some c) ctx (fuel + 1) state currentNodes =
          { outcome := .returned state (some (.graphInterrupt node state [] .nil)),
            steps := [([], state)] }) ∧
    (∀ initialState : Value,
      (∃ n ∈ initialNodes r.graph.entryPoint (some c), n ≠ END ∧ n ∈ c.InterruptBefore) →
      ∃ node, node ∈ c.InterruptBefore ∧
        r.InvokeWithConfig (fuel + 1) ctx initialState (some c) =
          .returned initialState (some (.graphInterrupt node initialState [] .nil)) ∧
        (r.run (fuel + 1) ctx initialState (some c)).steps = [([], initialState)]) := by
  have key : ∀ (ctx : Context) (state : Value) (currentNodes : List String),
      (∃ n ∈ currentNodes, n ≠ END ∧ n ∈ c.InterruptBefore) →
      ∃ node pre post, currentNodes.filter (fun node => node != END) = pre ++ node :: post ∧
        node ∈ c.InterruptBefore ∧ (∀ x ∈ pre, x ∉ c.InterruptBefore) ∧
        r.loop (some c) ctx (fuel + 1) state currentNodes =
          { outcome := .returned state (some (.graphInterrupt node state [] .nil)),
            steps := [([], state)] } := by
    intro ctx state currentNodes ⟨n, hn, hne, hib⟩
    have hmem : n ∈ currentNodes.filter (fun node => node != END) :=
      (mem_filter_END currentNodes n).2 ⟨hn, hne⟩
    have hlen : c.InterruptBefore.length > 0 := List.length_pos_of_mem hib
    have hsome : ((currentNodes.filter (fun node => node != END)).find?
        (fun node => c.InterruptBefore.contains node)).isSome = true := by
      rw [List.find?_isSome]
      exact ⟨n, hmem, by simpa using hib⟩
    obtain ⟨node, hnode⟩ := Option.isSome_iff_exists.1 hsome
    obtain ⟨hp, pre, post, happ, hpre⟩ := List.find?_eq_some.1 hnode
    refine ⟨node, pre, post, happ, by simpa using hp, ?_, ?_⟩
    · intro x hx
      simpa using hpre x hx
    · have hne' : (currentNodes.filter (fun node => node != END)).length ≠ 0 := by
        intro h0
        rw [List.length_eq_zero.1 h0] at hmem
        simp at hmem
      have hstep : r.superStep (some c) ctx state
          (currentNodes.filter (fun node => node != END)) =
          .ret state (some (.graphInterrupt node state [] .nil)) [] := by
        simp only [Runnable.superStep, Option.bind, interruptGate, hlen, if_true, hnode]
      simp only [Runnable.loop, runLoop, hne', if_false, hstep]
  refine ⟨key ctx, ?_⟩
  intro initialState h
  obtain ⟨node, _, _, _, hib, _, hloop⟩ := key (invokeContext ctx (some c)) initialState _ h
  refine ⟨node, hib, ?_, ?_⟩
  · simp only [Runnable.InvokeWithConfig, Runnable.run, hloop]
  · simp only [Runnable.run, hloop]

/-- Witness of C9: with `InterruptBefore = [A]` the invocation of the graph
with entry A stops before A on the initial state. -/
theorem interrupt_before_gate_witness :
    ∃ node, node ∈ (interruptBefore ["A"]).InterruptBefore ∧
      Runnable.InvokeWithConfig { graph := errorAndInterruptGraph } (0 + 1) background
          (.int 7) (some (interruptBefore ["A"])) =
        .returned (.int 7) (some (.graphInterrupt node (.int 7) [] .nil)) ∧
      (Runnable.run { graph := errorAndInterruptGraph } (0 + 1) background (.int 7)
        (some (interruptBefore ["A"]))).steps = [([], .int 7)] :=
  (interrupt_before_gate { graph := errorAndInterruptGraph } (interruptBefore ["A"])
    background 0).2 (.int 7) ⟨"A", by decide, by decide, by decide⟩

theorem asNodeInterrupt_setInterruptNode (name : String) (e : GoError) :
    ∀ ni, e.asNodeInterrupt = some ni →
      (e.setInterruptNode name).asNodeInterrupt = some { Node := name, Value := ni.Value } := by
  induction e with
  | errorString s => intro ni h; simp [GoError.asNodeInterrupt] at h
  | wrapError pre err post ih =>
    intro ni h
    simp only [GoError.asNodeInterrupt] at h
    simpa [GoError.setInterruptNode, GoError.asNodeInterrupt] using ih ni h
  | nodeInterrupt n =>
    intro ni h
    simp only [GoError.asNodeInterrupt, Option.some.injEq] at h
    subst h
    simp [GoError.setInterruptNode, GoError.asNodeInterrupt]
  | graphInterrupt node st next v => intro ni h; simp [GoError.asNodeInterrupt] at h

theorem anyPanic_cons (n : String) (x : Res Value) (outs : List (String × Res Value)) :
    anyPanic ((n, x) :: outs) = ((match x with
      | .panic => true
      | _ => false) || anyPanic outs) := rfl

theorem anyPanic_no_panic (f : Node → Res Value) (post : List (String × Node))
    (hpost : ∀ n ∈ post, f n.2 ≠ .panic) :
    anyPanic (post.map (fun n => (n.1, f n.2))) = false := by
  induction post with
  | nil => rfl
  | cons p post ih =>
    have hp := hpost p (List.mem_cons_self _ _)
    have ih' := ih (fun n hn => hpost n (List.mem_cons_of_mem _ hn))
    rw [List.map_cons, anyPanic_cons, ih']
    cases hv : f p.2 with
    | ok v => rfl
    | err e => rfl
    | panic => exact absurd hv hp

theorem outs_first_error (mk : String → GoError → GoError) (f : Node → Res Value)
    (pre post : List (String × Node)) (name : String) (nd : Node) (e : GoError)
    (hpre : ∀ n ∈ pre, ∃ v, f n.2 = .ok v) (hpost : ∀ n ∈ post, f n.2 ≠ .panic)
    (herr : f nd = .err e) :
    anyPanic ((pre ++ (name, nd) :: post).map (fun n => (n.1, f n.2))) = false ∧
      ∃ rest, errorsOf mk ((pre ++ (name, nd) :: post).map (fun n => (n.1, f n.2))) =
        mk name e :: rest := by
  induction pre with
  | nil =>
    constructor
    · rw [List.nil_append, List.map_cons, anyPanic_cons, anyPanic_no_panic f post hpost]
      simp only [herr]
      rfl
    · refine ⟨errorsOf mk (post.map (fun n => (n.1, f n.2))), ?_⟩
      rw [List.nil_append, List.map_cons]
      simp only [herr, errorsOf]
  | cons p pre ih =>
    obtain ⟨v, hv⟩ := hpre p (List.mem_cons_self _ _)
    obtain ⟨h1, rest, h2⟩ := ih (fun n hn => hpre n (List.mem_cons_of_mem _ hn))
    constructor
    · rw [List.cons_append, List.map_cons, anyPanic_cons, h1]
      simp only [hv]
      rfl
    · refine ⟨rest, ?_⟩
      rw [List.cons_append, List.map_cons]
      simp only [hv, errorsOf, h2]

/-- Counterexample to C10 as stated: in the frontier `[A, B]` node B returns a
dynamic interrupt and node A, listed before it, fails with an ordinary error;
the invocation returns the error of A with a nil state, not a GraphInterrupt
with the pre-step state. -/
theorem ordinary_error_before_interrupt :
    Interrupt (invokeContext background (some (resumeFrom ["A", "B"]))) (.str "ask") =
        .err (.nodeInterrupt { Node := "", Value := .str "ask" }) ∧
      Runnable.InvokeWithConfig { graph := errorAndInterruptGraph } 1 background (.int 7)
          (some (resumeFrom ["A", "B"])) =
        .returned .nil (some (.wrapError "error in node A: " (.errorString "boom") "")) ∧
      Runnable.InvokeWithConfig { graph := errorAndInterruptGraph } 1 background (.int 7)
          (some (resumeFrom ["A", "B"])) ≠
        .returned (.int 7) (some (.graphInterrupt "B" (.int 7) ["B"] (.str "ask"))) := by
  decide

/-- C10 (amended): if, in a super-step whose frontier nodes are all registered
and that passed the interrupt-before gate, the first node in frontier order to
return an error returns a dynamic interrupt (the nodes before it return a
result, the nodes after it return a result or any error), then
`Runnable.InvokeWithConfig` performs no merge and returns the pre-step state
with `GraphInterrupt{Node: that node, State: the pre-step state,
InterruptValue: the value of the interrupt, NextNodes: [that node]}`. -/
theorem dynamic_interrupt_first_error (r : Runnable) (config : Option Config) (ctx : Context)
    (state : Value) (frontier : List String) (pre post : List (String × Node))
    (name : String) (nd : Node) (e : GoError) (ni : NodeInterrupt) (fuel : Nat)
    (hgate : config.bind (fun c => interruptGate c.InterruptBefore
      (frontier.filter (fun node => node != END))) = none)
    (hlook : lookupNodes r.graph.nodes (frontier.filter (fun node => node != END)) =
      .ok (pre ++ (name, nd) :: post))
    (hpre : ∀ n ∈ pre, ∃ v, n.2.Function ctx state = .ok v)
    (hpost : ∀ n ∈ post, n.2.Function ctx state ≠ .panic)
    (herr : nd.Function ctx state = .err e)
    (hint : e.asNodeInterrupt = some ni) :
    r.superStep config ctx state (frontier.filter (fun node => node != END)) =
        .ret state (some (.graphInterrupt name state [name] ni.Value))
          (frontier.filter (fun node => node != END)) ∧
      (r.loop config ctx (fuel + 1) state frontier).outcome =
        .returned state (some (.graphInterrupt name state [name] ni.Value)) := by
  obtain ⟨h1, rest, h2⟩ := outs_first_error nodeError (fun n : Node => n.Function ctx state)
    pre post name nd e hpre hpost herr
  have hni : (nodeError name e).asNodeInterrupt =
      some { Node := name, Value := ni.Value } := by
    simpa [nodeError, GoError.asNodeInterrupt] using
      asNodeInterrupt_setInterruptNode name e ni hint
  have hstep : r.superStep config ctx state (frontier.filter (fun node => node != END)) =
      .ret state (some (.graphInterrupt name state [name] ni.Value))
        (frontier.filter (fun node => node != END)) := by
    simp only [Runnable.superStep, hgate, hlook, h1, h2, hni]
    simp
  refine ⟨hstep, ?_⟩
  have hne : (frontier.filter (fun node => node != END)).length ≠ 0 := by
    intro h0
    rw [List.length_eq_zero.1 h0] at hlook
    simp [lookupNodes] at hlook
  simp only [Runnable.loop, runLoop, hne, if_false, hstep]

/-- Witness of C10 (amended): with the frontier `[C, B, A]`, C returns a
result, B returns a dynamic interrupt and A, listed after B, an ordinary
error; the invocation returns the pre-step state with the GraphInterrupt of
B. -/
theorem dynamic_interrupt_first_error_witness :
    Runnable.superStep { graph := errorAndInterruptGraph } none background (.int 7)
        (["C", "B", "A"].filter (fun node => node != END)) =
      .ret (.int 7) (some (.graphInterrupt "B" (.int 7) ["B"] (.str "ask")))
        (["C", "B", "A"].filter (fun node => node != END)) ∧
    (Runnable.loop { graph := errorAndInterruptGraph } none background (0 + 1) (.int 7)
        ["C", "B", "A"]).outcome =
      .returned (.int 7) (some (.graphInterrupt "B" (.int 7) ["B"] (.str "ask"))) :=
  dynamic_interrupt_first_error { graph := errorAndInterruptGraph } none background (.int 7)
    ["C", "B", "A"]
    [("C", { Name := "C", Function := fun _ state => .ok state })]
    [("A", { Name := "A", Function := fun _ _ => .err (.errorString "boom") })]
    "B" { Name := "B", Function := fun ctx _ => Interrupt ctx (.str "ask") }
    (.nodeInterrupt { Node := "", Value := .str "ask" }) { Node := "", Value := .str "ask" } 0
    rfl (by rfl)
    (by intro n hn; simp only [List.mem_singleton] at hn; subst hn; exact ⟨.int 7, rfl⟩)
    (by intro n hn; simp only [List.mem_singleton] at hn; subst hn; simp)
    rfl rfl

/-! ## Compile -/

/-- C14: `Compile` on a `MessageGraph` or a `StateGraph` and `CompileListenable`
on a `ListenableMessageGraph` return `ErrEntryPointNotSet` exactly when the
entry point is the empty string, as it is on a new graph and after
`SetEntryPoint("")`; otherwise they return the runnable bound to the graph,
whatever the nodes and edges are. -/
theorem compile_entry_point :
    (∀ g : MessageGraph,
      (g.Compile = .error ErrEntryPointNotSet ↔ g.entryPoint = "") ∧
      (g.entryPoint ≠ "" → g.Compile = .ok { graph := g })) ∧
    (∀ g : StateGraph,
      (g.Compile = .error ErrEntryPointNotSet ↔ g.entryPoint = "") ∧
      (g.entryPoint ≠ "" → g.Compile = .ok { graph := g })) ∧
    (∀ g : ListenableMessageGraph,
      (g.CompileListenable = .error ErrEntryPointNotSet ↔ g.entryPoint = "") ∧
      (g.entryPoint ≠ "" →
        g.CompileListenable = .ok { graph := g, listenableNodes := g.listenableNodes })) ∧
    NewMessageGraph.entryPoint = "" ∧ NewListenableMessageGraph.entryPoint = "" ∧
    (∀ g : MessageGraph, (g.SetEntryPoint "").entryPoint = "") := by
  refine ⟨fun g => ?_, fun g => ?_, fun g => ?_, rfl, rfl, fun _ => rfl⟩
  · by_cases h : g.entryPoint = ""
    · simp [MessageGraph.Compile, h]
    · simp [MessageGraph.Compile, h]
  · by_cases h : g.entryPoint = ""
    · simp [StateGraph.Compile, h]
    · simp [StateGraph.Compile, h]
  · by_cases h : g.entryPoint = ""
    · simp [ListenableMessageGraph.CompileListenable, h]
    · simp [ListenableMessageGraph.CompileListenable, h]

/-! ## AppendReducer twice -/

/-- C17: for `a` nil or a sequence of element type `T` and scalars `x`, `y` of
type `T`, appending `x` and then `y` gives the result of appending the sequence
`[x, y]`, and both succeed. -/
theorem AppendReducer_twice (T : GoType) (a x y : Value)
    (ha : a = .nil ∨ ∃ xs, a = .slice T xs)
    (hx : isSlice x = false ∧ typeOf x = some T)
    (hy : isSlice y = false ∧ typeOf y = some T) :
    ∃ r, AppendReducer a x = .ok r ∧
      AppendReducer r y = AppendReducer a (.slice T [x, y]) ∧
      AppendReducer a (.slice T [x, y]) = .ok (.slice T (seqOf a ++ [x, y])) := by
  have h1 : ∀ xs, AppendReducer (.slice T xs) x = .ok (.slice T (xs ++ [x])) := by
    intro xs
    cases x <;>
      first | (simp [typeOf] at hx; done) | simp_all [AppendReducer, isSlice, assignableTo]
  have h2 : ∀ xs, AppendReducer (.slice T xs) y = .ok (.slice T (xs ++ [y])) := by
    intro xs
    cases y <;>
      first | (simp [typeOf] at hy; done) | simp_all [AppendReducer, isSlice, assignableTo]
  have h0 : AppendReducer .nil x = .ok (.slice T [x]) := by
    cases x <;> first | (simp [typeOf] at hx; done) | simp_all [AppendReducer, isSlice]
  rcases ha with rfl | ⟨xs, rfl⟩
  · exact ⟨_, h0, by rw [h2]; simp [AppendReducer], by simp [AppendReducer, seqOf]⟩
  · exact ⟨_, h1 xs, by rw [h2]; simp [AppendReducer], by simp [AppendReducer, seqOf]⟩

/-- Witness of C17: `["a"]`, then `"b"`, then `"c"`. -/
theorem AppendReducer_twice_witness :
    ∃ r, AppendReducer (.slice .string [.str "a"]) (.str "b") = .ok r ∧
      AppendReducer r (.str "c") =
        AppendReducer (.slice .string [.str "a"]) (.slice .string [.str "b", .str "c"]) ∧
      AppendReducer (.slice .string [.str "a"]) (.slice .string [.str "b", .str "c"]) =
        .ok (.slice .string (seqOf (.slice .string [.str "a"]) ++ [.str "b", .str "c"])) :=
  AppendReducer_twice .string (.slice .string [.str "a"]) (.str "b") (.str "c")
    (Or.inr ⟨_, rfl⟩) ⟨rfl, rfl⟩ ⟨rfl, rfl⟩

/-! ## END is never executed -/

theorem takeWhile_subset {α : Type} (p : α → Bool) (l : List α) :
    ∀ x ∈ l.takeWhile p, x ∈ l := by
  intro x hx
  exact (List.takeWhile_sublist p).subset hx

theorem runnable_ran_subset (r : Runnable) (config : Option Config) (ctx : Context)
    (state : Value) (currentNodes : List String) :
    ∀ x ∈ (r.superStep config ctx state currentNodes).ran, x ∈ currentNodes := by
  unfold Runnable.superStep
  split
  · intro x hx; simp [StepOut.ran] at hx
  · cases lookupNodes r.graph.nodes currentNodes with
    | error e =>
      intro x hx
      exact takeWhile_subset _ _ x (by simpa [StepOut.ran] using hx)
    | ok nodes =>
      simp only
      split
      · intro x hx; simpa [StepOut.ran] using hx
      · split
        · split
          · intro x hx; simpa [StepOut.ran] using hx
          · intro x hx; simpa [StepOut.ran] using hx
        · split
          · intro x hx; simpa [StepOut.ran] using hx
          · intro x hx; simpa [StepOut.ran] using hx
          · split
            · intro x hx; simpa [StepOut.ran] using hx
            · intro x hx; simpa [StepOut.ran] using hx

theorem stateRunnable_ran_subset (r : StateRunnable) (rd : Rendering) (ctx : Context)
    (state : Value) (currentNodes : List String) :
    ∀ x ∈ (r.superStep rd ctx state currentNodes).ran, x ∈ currentNodes := by
  unfold StateRunnable.superStep
  cases lookupNodes r.graph.nodes currentNodes with
  | error e =>
    intro x hx
    exact takeWhile_subset _ _ x (by simpa [StepOut.ran] using hx)
  | ok nodes =>
    simp only
    split
    · intro x hx; simpa [StepOut.ran] using hx
    · split
      · intro x hx; simpa [StepOut.ran] using hx
      · split
        · intro x hx; simpa [StepOut.ran] using hx
        · intro x hx; simpa [StepOut.ran] using hx
        · intro x hx; simpa [StepOut.ran] using hx

theorem runLoop_never_END (step : Value → List String → StepOut)
    (hran : ∀ state nodes, ∀ x ∈ (step state nodes).ran, x ∈ nodes) :
    ∀ (fuel : Nat) (state : Value) (currentNodes : List String),
      ∀ e ∈ (runLoop step fuel state currentNodes).steps, END ∉ e.1 := by
  intro fuel
  induction fuel with
  | zero => intro state currentNodes e he; simp [runLoop] at he
  | succ fuel ih =>
    intro state currentNodes e he
    have hfilter : ∀ x ∈ (step state (currentNodes.filter (fun node => node != END))).ran,
        x ≠ END := by
      intro x hx
      have := hran _ _ x hx
      simpa using (List.mem_filter.1 this).2
    unfold runLoop at he
    split at he
    · simp at he
    · split at he
      · rename_i st err ran hstep
        simp only [List.mem_singleton] at he
        subst he
        intro hEnd
        exact hfilter END (by rw [hstep]; exact hEnd) rfl
      · rename_i ran hstep
        simp only [List.mem_singleton] at he
        subst he
        intro hEnd
        exact hfilter END (by rw [hstep]; exact hEnd) rfl
      · rename_i st nodes ran hstep
        rcases List.mem_cons.1 he with he | he
        · subst he
          intro hEnd
          exact hfilter END (by rw [hstep]; exact hEnd) rfl
        · exact ih st nodes e he

theorem runLoop_only_END (step : Value → List String → StepOut) (fuel : Nat) (state : Value)
    (frontier : List String) (h : ∀ n ∈ frontier, n = END) :
    runLoop step (fuel + 1) state frontier = { outcome := .returned state none, steps := [] } := by
  have hnil : frontier.filter (fun node => node != END) = [] := by
    rw [List.filter_eq_nil_iff]
    intro n hn
    simp [h n hn]
  simp [runLoop, hnil]

/-- C15: in every invocation of `Runnable` and of `StateRunnable` no pass calls
a node under the name `END`; and when the frontier consists only of `END`, be
it after a step, as entry point or as `ResumeFrom`, the invocation returns the
current state without error and calls no node. -/
theorem END_never_runs (fuel : Nat) (ctx : Context) (initialState : Value)
    (config : Option Config) :
    (∀ r : Runnable, ∀ e ∈ (r.run fuel ctx initialState config).steps, END ∉ e.1) ∧
    (∀ (r : StateRunnable) (rd : Rendering),
      ∀ e ∈ (r.run rd fuel ctx initialState config).steps, END ∉ e.1) ∧
    (∀ (r : Runnable) (state : Value) (frontier : List String),
      (∀ n ∈ frontier, n = END) →
      r.loop config ctx (fuel + 1) state frontier =
        { outcome := .returned state none, steps := [] }) ∧
    (∀ (r : StateRunnable) (rd : Rendering) (state : Value) (frontier : List String),
      (∀ n ∈ frontier, n = END) →
      r.loop rd ctx (fuel + 1) state frontier =
        { outcome := .returned state none, steps := [] }) ∧
    (∀ r : Runnable, (∀ n ∈ initialNodes r.graph.entryPoint config, n = END) →
      r.run (fuel + 1) ctx initialState config =
        { outcome := .returned initialState none, steps := [] }) ∧
    (∀ (r : StateRunnable) (rd : Rendering), r.graph.entryPoint = END →
      r.run rd (fuel + 1) ctx initialState config =
        { outcome := .returned initialState none, steps := [] }) := by
  refine ⟨fun r => ?_, fun r rd => ?_, fun r state frontier h => ?_,
    fun r rd state frontier h => ?_, fun r h => ?_, fun r rd h => ?_⟩
  · exact runLoop_never_END _ (runnable_ran_subset r config _) fuel initialState _
  · exact runLoop_never_END _ (stateRunnable_ran_subset r rd _) fuel initialState _
  · exact runLoop_only_END _ fuel state frontier h
  · exact runLoop_only_END _ fuel state frontier h
  · exact runLoop_only_END _ fuel initialState _ h
  · exact runLoop_only_END _ fuel initialState _ (by
      intro n hn
      simp only [List.mem_singleton] at hn
      rw [hn, h])

/-! ## Interrupt-after gate -/

theorem interruptGate_first (interrupts nodes : List String)
    (h : ∃ n ∈ nodes, n ∈ interrupts) :
    ∃ node pre post, nodes = pre ++ node :: post ∧ node ∈ interrupts ∧
      (∀ x ∈ pre, x ∉ interrupts) ∧ interruptGate interrupts nodes = some node := by
  obtain ⟨n, hn, hi⟩ := h
  have hlen : interrupts.length > 0 := List.length_pos_of_mem hi
  have hsome : (nodes.find? (fun node => interrupts.contains node)).isSome = true := by
    rw [List.find?_isSome]
    exact ⟨n, hn, by simpa using hi⟩
  obtain ⟨node, hnode⟩ := Option.isSome_iff_exists.1 hsome
  obtain ⟨hp, pre, post, happ, hpre⟩ := List.find?_eq_some.1 hnode
  refine ⟨node, pre, post, happ, by simpa using hp, ?_, ?_⟩
  · intro x hx
    simpa using hpre x hx
  · simp only [interruptGate, hlen, if_true, hnode]

/-- C11: when a super-step of `Runnable.InvokeWithConfig` has run its nodes,
merged their results and derived the next frontier, and a node of the step is
listed in `config.InterruptAfter`, the invocation returns the post-merge state
with `GraphInterrupt{Node: the first such node in frontier order, State: the
post-merge state, NextNodes: the next frontier}`, and no further pass runs. -/
theorem interrupt_after_gate (r : Runnable) (c : Config) (ctx : Context) (state merged : Value)
    (frontier next : List String) (nodes : List (String × Node)) (results : List Value)
    (fuel : Nat)
    (hbefore : interruptGate c.InterruptBefore (frontier.filter (fun node => node != END)) = none)
    (hlook : lookupNodes r.graph.nodes (frontier.filter (fun node => node != END)) = .ok nodes)
    (hres : nodes.map (fun n => n.2.Function ctx state) = results.map Res.ok)
    (hmerge : mergeResults r.graph ctx state (processResults results).1 = .ok merged)
    (hnext : determineNext r.graph ctx merged (frontier.filter (fun node => node != END))
      (processResults results).2 = .ok next)
    (hafter : ∃ n ∈ frontier, n ≠ END ∧ n ∈ c.InterruptAfter) :
    ∃ node pre post, frontier.filter (fun node => node != END) = pre ++ node :: post ∧
      node ∈ c.InterruptAfter ∧ (∀ x ∈ pre, x ∉ c.InterruptAfter) ∧
      r.superStep (some c) ctx state (frontier.filter (fun node => node != END)) =
        .ret merged (some (.graphInterrupt node merged next .nil))
          (frontier.filter (fun node => node != END)) ∧
      r.loop (some c) ctx (fuel + 1) state frontier =
        { outcome := .returned merged (some (.graphInterrupt node merged next .nil)),
          steps := [(frontier.filter (fun node => node != END), state)] } := by
  obtain ⟨n, hn, hne, hia⟩ := hafter
  have hmem : n ∈ frontier.filter (fun node => node != END) :=
    (mem_filter_END frontier n).2 ⟨hn, hne⟩
  obtain ⟨node, pre, post, happ, hnode, hpre, hgate⟩ :=
    interruptGate_first c.InterruptAfter _ ⟨n, hmem, hia⟩
  obtain ⟨h1, h2, h3⟩ := outs_all_ok nodeError
    (fun nd : Node => nd.Function ctx state) nodes results hres
  have hstep : r.superStep (some c) ctx state (frontier.filter (fun node => node != END)) =
      .ret merged (some (.graphInterrupt node merged next .nil))
        (frontier.filter (fun node => node != END)) := by
    simp only [Runnable.superStep, Option.bind, hbefore, hlook, h1, h2, h3, mergeAndRoute,
      hmerge, hnext, hgate]
    simp
  refine ⟨node, pre, post, happ, hnode, hpre, hstep, ?_⟩
  have hne' : (frontier.filter (fun node => node != END)).length ≠ 0 := by
    intro h0
    rw [List.length_eq_zero.1 h0] at hmem
    simp at hmem
  simp only [Runnable.loop, runLoop, hne', if_false, hstep]

/-- Witness of C11: in the chain A → B → C of `TestCommandGoto` run as a
`Runnable` with `InterruptAfter = [A]`, A returns a Command with goto C; the
invocation stops after A with the merged state `{count: 1}` and
`NextNodes = [C]`. -/
theorem interrupt_after_gate_witness :
    ∃ node pre post, ["A"].filter (fun node => node != END) = pre ++ node :: post ∧
      node ∈ (interruptAfter ["A"]).InterruptAfter ∧
      (∀ x ∈ pre, x ∉ (interruptAfter ["A"]).InterruptAfter) ∧
      Runnable.superStep { graph := commandGotoDecl } (some (interruptAfter ["A"])) background
          (.map [("count", .int 0)]) (["A"].filter (fun node => node != END)) =
        .ret (.map [("count", .int 1)])
          (some (.graphInterrupt node (.map [("count", .int 1)]) ["C"] .nil))
          (["A"].filter (fun node => node != END)) ∧
      Runnable.loop { graph := commandGotoDecl } (some (interruptAfter ["A"])) background
          (0 + 1) (.map [("count", .int 0)]) ["A"] =
        { outcome := .returned (.map [("count", .int 1)])
            (some (.graphInterrupt node (.map [("count", .int 1)]) ["C"] .nil)),
          steps := [(["A"].filter (fun node => node != END), .map [("count", .int 0)])] } :=
  interrupt_after_gate { graph := commandGotoDecl } (interruptAfter ["A"]) background
    (.map [("count", .int 0)]) (.map [("count", .int 1)]) ["A"] ["C"]
    [("A", { Name := "A",
             Function := fun _ _ => .ok (.command (.map [("count", .int 1)]) (.str "C")) })]
    [.command (.map [("count", .int 1)]) (.str "C")] 0
    (by decide) (by rfl) (by rfl) (by decide) (by decide) ⟨"A", by decide, by decide, by decide⟩

/-! ## AddMessages twice -/

theorem set_same {α : Type} : ∀ (l : List α) (i : Nat) (a : α), l[i]? = some a → l.set i a = l := by
  intro l
  induction l with
  | nil => intro i a h; simp at h
  | cons x xs ih =>
    intro i a h
    cases i with
    | zero =>
      simp only [List.getElem?_cons_zero, Option.some.injEq] at h
      simp [h]
    | succ j =>
      simp only [List.getElem?_cons_succ] at h
      simp [ih j a h]

theorem indexMessages_congr_ids (l : List Value) :
    ∀ (l' : List Value) (i : Nat) (idx : List (String × Nat)),
      l.map getMessageID = l'.map getMessageID →
      indexMessages i l idx = indexMessages i l' idx := by
  induction l with
  | nil =>
    intro l' i idx h
    cases l' with
    | nil => rfl
    | cons _ _ => simp at h
  | cons m rest ih =>
    intro l' i idx h
    cases l' with
    | nil => simp at h
    | cons m' rest' =>
      simp only [List.map_cons, List.cons.injEq] at h
      simp only [indexMessages, h.1]
      exact ih rest' _ _ h.2

theorem indexMessages_snoc (l : List Value) (m : Value) :
    ∀ (i : Nat) (idx : List (String × Nat)),
      indexMessages i (l ++ [m]) idx =
        if getMessageID m ≠ "" then
          mapSet (indexMessages i l idx) (getMessageID m) (i + l.length)
        else indexMessages i l idx := by
  induction l with
  | nil => intro i idx; simp [indexMessages]
  | cons x xs ih =>
    intro i idx
    have hlen : i + 1 + xs.length = i + (xs.length + 1) := by omega
    show indexMessages (i + 1) (xs ++ [m]) _ = _
    rw [ih, hlen]
    simp only [indexMessages, List.length_cons]

theorem indexMessages_valid (l : List Value) :
    ∀ (pre : List String) (idx : List (String × Nat)), Indexed pre idx →
      Indexed (pre ++ l.map getMessageID) (indexMessages pre.length l idx) := by
  induction l with
  | nil => intro pre idx h; simpa [indexMessages] using h
  | cons m rest ih =>
    intro pre idx h
    have happ : pre ++ (m :: rest).map getMessageID =
        (pre ++ [getMessageID m]) ++ rest.map getMessageID := by simp
    rw [happ]
    have hlen : (pre ++ [getMessageID m]).length = pre.length + 1 := by simp
    unfold indexMessages
    rw [← hlen]
    apply ih
    by_cases hid : getMessageID m = ""
    · simp only [hid, ne_eq, not_true_eq_false, if_false]
      exact indexed_append_empty pre idx h
    · simp only [ne_eq, hid, not_false_eq_true, if_true]
      exact indexed_append_new pre idx _ h hid

theorem addMessage_again (cur : List Value) (m : Value) (hid : getMessageID m ≠ "") :
    (addMessage ((addMessage (cur, indexMessages 0 cur []) m).1,
        indexMessages 0 (addMessage (cur, indexMessages 0 cur []) m).1 []) m).1 =
      (addMessage (cur, indexMessages 0 cur []) m).1 ∧
    m ∈ (addMessage (cur, indexMessages 0 cur []) m).1 ∧
    ∀ x ∈ (addMessage (cur, indexMessages 0 cur []) m).1, x ∈ cur ∨ x = m := by
  have h0 : Indexed ([] : List String) ([] : List (String × Nat)) :=
    ⟨fun id i h => (by simp [mapGet] at h), fun id h => (by simp at h)⟩
  have hidx : Indexed (cur.map getMessageID) (indexMessages 0 cur []) := by
    simpa using indexMessages_valid cur [] [] h0
  cases hg : mapGet (indexMessages 0 cur []) (getMessageID m) with
  | some i =>
    have hadd : addMessage (cur, indexMessages 0 cur []) m =
        (cur.set i m, indexMessages 0 cur []) := by
      simp [addMessage, hid, hg]
    obtain ⟨_, hget⟩ := hidx.1 _ i hg
    have hlt : i < cur.length := by
      by_contra hge
      rw [List.getElem?_eq_none (by simpa using Nat.le_of_not_lt hge)] at hget
      cases hget
    have hids : (cur.set i m).map getMessageID = cur.map getMessageID := by
      rw [List.map_set]
      exact set_same _ i _ hget
    have hidx1 : indexMessages 0 (cur.set i m) [] = indexMessages 0 cur [] :=
      indexMessages_congr_ids _ _ 0 [] hids
    rw [hadd]
    refine ⟨?_, ?_, ?_⟩
    · simp only [hidx1]
      simp [addMessage, hid, hg, List.set_set]
    · exact (List.mem_set cur i hlt m)
    · intro x hx
      exact List.mem_or_eq_of_mem_set hx
  | none =>
    have hadd : addMessage (cur, indexMessages 0 cur []) m =
        (cur ++ [m], mapSet (indexMessages 0 cur []) (getMessageID m) cur.length) := by
      simp [addMessage, hid, hg]
    have hidx1 : indexMessages 0 (cur ++ [m]) [] =
        mapSet (indexMessages 0 cur []) (getMessageID m) cur.length := by
      rw [indexMessages_snoc]
      simp [hid]
    rw [hadd]
    refine ⟨?_, by simp, ?_⟩
    · simp only [hidx1]
      have hself : mapGet (mapSet (indexMessages 0 cur []) (getMessageID m) cur.length)
          (getMessageID m) = some cur.length := mapGet_mapSet_self _ _ _
      simp only [addMessage, hid, ne_eq, not_false_eq_true, if_true, hself]
      exact set_same _ _ _ (List.getElem?_concat_length cur m)
    · intro x hx
      simpa using hx

theorem rebuildSlice_inv (T : GoType) (l : List Value) :
    ∀ (acc : List Value) (v : Value), rebuildSlice T l acc = .ok v →
      v = .slice T (acc ++ l) := by
  induction l with
  | nil =>
    intro acc v h
    simp only [rebuildSlice, Res.ok.injEq] at h
    simp [← h]
  | cons x xs ih =>
    intro acc v h
    unfold rebuildSlice at h
    split at h
    · cases h
    · split at h
      · have := ih _ v h
        simpa using this
      · cases h

theorem newMessagesOf_message (m : Value) (hid : getMessageID m ≠ "") :
    newMessagesOf m = [m] := by
  cases m <;> first | rfl | simp [getMessageID] at hid

/-- C16: for a non-nil sequence `current` and a message `m` with a non-empty
identity, submitting `m` again to the result of `AddMessages(current, m)` gives
that same result (an error or panic of the first call being the outcome of
both sides); when the elements and `m` are assignable to the element type the
calls succeed, the result holds `m`, and resubmitting changes neither its
length nor its elements. -/
theorem AddMessages_idempotent (T : GoType) (cur : List Value) (m : Value)
    (hid : getMessageID m ≠ "") :
    (match AddMessages (.slice T cur) m with
      | .ok r => AddMessages r m
      | other => other) = AddMessages (.slice T cur) m ∧
    ((∀ x, x ∈ cur ∨ x = m → ∃ t, typeOf x = some t ∧ assignableTo t T = true) →
      ∃ l, AddMessages (.slice T cur) m = .ok (.slice T l) ∧
        AddMessages (.slice T l) m = .ok (.slice T l) ∧ m ∈ l) := by
  obtain ⟨hagain, hmem, hsub⟩ := addMessage_again cur m hid
  have hfirst : AddMessages (.slice T cur) m =
      rebuildSlice T (addMessage (cur, indexMessages 0 cur []) m).1 [] := by
    simp [AddMessages, newMessagesOf_message m hid]
  have hsecond : AddMessages (.slice T (addMessage (cur, indexMessages 0 cur []) m).1) m =
      rebuildSlice T (addMessage (cur, indexMessages 0 cur []) m).1 [] := by
    simp only [AddMessages, newMessagesOf_message m hid, List.foldl_cons, List.foldl_nil,
      hagain]
  constructor
  · cases hr : AddMessages (.slice T cur) m with
    | ok r =>
      rw [hfirst] at hr
      have hv := rebuildSlice_inv T _ [] r hr
      simp only [List.nil_append] at hv
      subst hv
      show AddMessages _ m = _
      rw [hsecond]
      exact hr
    | err e => rfl
    | panic => rfl
  · intro hty
    have hok := rebuildSlice_ok T (addMessage (cur, indexMessages 0 cur []) m).1 []
      (fun x hx => hty x (hsub x hx))
    simp only [List.nil_append] at hok
    exact ⟨_, hfirst.trans hok, hsecond.trans hok, hmem⟩

/-- Witness of C16: `2:Second` submitted to `[1:First, 2:Old]`, twice. -/
theorem AddMessages_idempotent_witness :
    (match AddMessages (.slice (.named "TestMessage")
          [TestMessage "1" "First", TestMessage "2" "Old"]) (TestMessage "2" "Second") with
      | .ok r => AddMessages r (TestMessage "2" "Second")
      | other => other) =
        AddMessages (.slice (.named "TestMessage")
          [TestMessage "1" "First", TestMessage "2" "Old"]) (TestMessage "2" "Second") ∧
      AddMessages (.slice (.named "TestMessage")
          [TestMessage "1" "First", TestMessage "2" "Old"]) (TestMessage "2" "Second") =
        .ok (.slice (.named "TestMessage") [TestMessage "1" "First", TestMessage "2" "Second"]) :=
  ⟨(AddMessages_idempotent (.named "TestMessage")
      [TestMessage "1" "First", TestMessage "2" "Old"] (TestMessage "2" "Second")
      (by decide)).1, by decide⟩

/-! ## Order of the updates of a super-step -/

theorem stateValues_getD (D : String → Value → Prop) (c : List (String × Value))
    (h : StateValues D c) (k : String) :
    (mapGet c k).getD .nil = .nil ∨ D k ((mapGet c k).getD .nil) := by
  cases hk : mapGet c k with
  | none => exact Or.inl rfl
  | some v => exact h k v hk

theorem update_reduced (s : MapSchema) (D : String → Value → Prop)
    (m c : List (String × Value)) (hu : ReducedUpdate s D (.map m)) (hc : StateValues D c) :
    ∃ o, s.Update (.map c) (.map m) = .ok (.map o) ∧ StateValues D o ∧
      ∀ k, (mapGet m k = none → mapGet o k = mapGet c k) ∧
        ∀ v r, mapGet m k = some v → mapGet s.Reducers k = some r →
          r ((mapGet c k).getD .nil) v = .ok ((mapGet o k).getD .nil) ∧
            (mapGet o k).isSome = true := by
  obtain ⟨m', hm', hnd, hkeys⟩ := hu
  cases hm'
  have hred : ∀ k v r, (k, v) ∈ m → mapGet s.Reducers k = some r →
      ∃ x, r ((mapGet c k).getD .nil) v = .ok x := by
    intro k v r hmem hr
    obtain ⟨hD, r', hr', f, hf, _⟩ := hkeys k v hmem
    rw [hr] at hr'
    cases hr'
    exact ⟨_, (hf _ _ (stateValues_getD D c hc k) hD).1⟩
  obtain ⟨o, ho, hspec⟩ := updateLoop_ok s m c hnd hred
  refine ⟨o, by simpa [MapSchema.Update] using ho, ?_, ?_⟩
  · intro k v hv
    cases hmk : mapGet m k with
    | none =>
      rw [(hspec k).1 hmk] at hv
      exact hc k v hv
    | some w =>
      obtain ⟨hD, r, hr, f, hf, _⟩ := hkeys k w (mem_of_mapGet m k w hmk)
      obtain ⟨x, hx, hrx⟩ := (hspec k).2.2 w r hmk hr
      rw [hx] at hv
      cases hv
      have := hf _ _ (stateValues_getD D c hc k) hD
      rw [this.1] at hrx
      cases hrx
      exact Or.inr this.2
  · intro k
    refine ⟨(hspec k).1, ?_⟩
    intro v r hv hr
    obtain ⟨x, hx, hrx⟩ := (hspec k).2.2 v r hv hr
    simp [hx, hrx]

theorem update_congr (s : MapSchema) (D : String → Value → Prop)
    (m c1 c2 : List (String × Value)) (hu : ReducedUpdate s D (.map m))
    (hc : StateValues D c1) (heq : SameEntries c1 c2) :
    ∃ o1 o2, s.Update (.map c1) (.map m) = .ok (.map o1) ∧
      s.Update (.map c2) (.map m) = .ok (.map o2) ∧ StateValues D o1 ∧ SameEntries o1 o2 := by
  have hc2 : StateValues D c2 := fun k v hv => hc k v (by rw [heq k]; exact hv)
  obtain ⟨o1, h1, hv1, hs1⟩ := update_reduced s D m c1 hu hc
  obtain ⟨o2, h2, _, hs2⟩ := update_reduced s D m c2 hu hc2
  refine ⟨o1, o2, h1, h2, hv1, ?_⟩
  intro k
  cases hmk : mapGet m k with
  | none => rw [(hs1 k).1 hmk, (hs2 k).1 hmk, heq k]
  | some v =>
    obtain ⟨m', hm', _, hkeys⟩ := hu
    cases hm'
    obtain ⟨_, r, hr, _⟩ := hkeys k v (mem_of_mapGet m k v hmk)
    have a1 := (hs1 k).2 v r hmk hr
    have a2 := (hs2 k).2 v r hmk hr
    rw [heq k, a2.1] at a1
    have hx : (mapGet o2 k).getD Value.nil = (mapGet o1 k).getD Value.nil := by
      injection a1.1
    cases h1k : mapGet o1 k with
    | none => simp [h1k] at a1
    | some x1 =>
      cases h2k : mapGet o2 k with
      | none => simp [h2k] at a2
      | some x2 =>
        simp only [h1k, h2k, Option.getD_some] at hx
        rw [hx]

theorem update_swap (s : MapSchema) (D : String → Value → Prop)
    (m1 m2 c : List (String × Value)) (hu1 : ReducedUpdate s D (.map m1))
    (hu2 : ReducedUpdate s D (.map m2)) (hc : StateValues D c) :
    ∃ a b ab ba, s.Update (.map c) (.map m1) = .ok (.map a) ∧
      s.Update (.map a) (.map m2) = .ok (.map ab) ∧
      s.Update (.map c) (.map m2) = .ok (.map b) ∧
      s.Update (.map b) (.map m1) = .ok (.map ba) ∧
      StateValues D ab ∧ SameEntries ab ba := by
  obtain ⟨a, ha, hva, hsa⟩ := update_reduced s D m1 c hu1 hc
  obtain ⟨ab, hab, hvab, hsab⟩ := update_reduced s D m2 a hu2 hva
  obtain ⟨b, hb, hvb, hsb⟩ := update_reduced s D m2 c hu2 hc
  obtain ⟨ba, hba, _, hsba⟩ := update_reduced s D m1 b hu1 hvb
  refine ⟨a, b, ab, ba, ha, hab, hb, hba, hvab, ?_⟩
  obtain ⟨m1', hm1', _, hk1⟩ := hu1
  cases hm1'
  obtain ⟨m2', hm2', _, hk2⟩ := hu2
  cases hm2'
  have some_eq : ∀ (x y : Option Value), x.isSome = true → y.isSome = true →
      x.getD .nil = y.getD .nil → x = y := by
    intro x y hx hy h
    cases x <;> cases y <;> simp_all
  intro k
  cases h1 : mapGet m1 k with
  | none =>
    cases h2 : mapGet m2 k with
    | none => rw [(hsab k).1 h2, (hsa k).1 h1, (hsba k).1 h1, (hsb k).1 h2]
    | some v2 =>
      obtain ⟨_, r, hr, _⟩ := hk2 k v2 (mem_of_mapGet m2 k v2 h2)
      have e1 := (hsab k).2 v2 r h2 hr
      have e2 := (hsb k).2 v2 r h2 hr
      rw [(hsa k).1 h1, e2.1] at e1
      rw [(hsba k).1 h1]
      exact some_eq _ _ e1.2 e2.2 (by injection e1.1 with h; exact h.symm)
  | some v1 =>
    obtain ⟨hD1, r, hr, f, hf, hcomm⟩ := hk1 k v1 (mem_of_mapGet m1 k v1 h1)
    cases h2 : mapGet m2 k with
    | none =>
      have e1 := (hsa k).2 v1 r h1 hr
      have e2 := (hsba k).2 v1 r h1 hr
      rw [(hsb k).1 h2, e1.1] at e2
      rw [(hsab k).1 h2]
      exact some_eq _ _ e1.2 e2.2 (by injection e2.1)
    | some v2 =>
      obtain ⟨hD2, r', hr', _⟩ := hk2 k v2 (mem_of_mapGet m2 k v2 h2)
      rw [hr] at hr'
      cases hr'
      have hck := stateValues_getD D c hc k
      have ea := (hsa k).2 v1 r h1 hr
      have eab := (hsab k).2 v2 r h2 hr
      have eb := (hsb k).2 v2 r h2 hr
      have eba := (hsba k).2 v1 r h1 hr
      have fa := hf _ _ hck hD1
      have fb := hf _ _ hck hD2
      rw [fa.1] at ea
      rw [fb.1] at eb
      have ha' : (mapGet a k).getD Value.nil = f ((mapGet c k).getD .nil) v1 := by
        injection ea.1 with h; exact h.symm
      have hb' : (mapGet b k).getD Value.nil = f ((mapGet c k).getD .nil) v2 := by
        injection eb.1 with h; exact h.symm
      rw [ha', (hf _ _ (Or.inr fa.2) hD2).1] at eab
      rw [hb', (hf _ _ (Or.inr fb.2) hD1).1] at eba
      refine some_eq _ _ eab.2 eba.2 ?_
      have h3 : f (f ((mapGet c k).getD .nil) v1) v2 = (mapGet ab k).getD Value.nil := by
        injection eab.1
      have h4 : f (f ((mapGet c k).getD .nil) v2) v1 = (mapGet ba k).getD Value.nil := by
        injection eba.1
      rw [← h3, ← h4]
      exact hcomm _ _ _ hck hD1 hD2

theorem foldUpdate_cons_ok (s : MapSchema) (state st : Value) (u : Value)
    (rest : List Value) (h : s.Update state u = .ok st) :
    foldUpdate s.toSchema state (u :: rest) = foldUpdate s.toSchema st rest := by
  simp [foldUpdate, foldStep, MapSchema.toSchema, h]

theorem foldUpdate_congr (s : MapSchema) (D : String → Value → Prop) (l : List Value) :
    ∀ (c1 c2 : List (String × Value)), (∀ u ∈ l, ReducedUpdate s D u) →
      StateValues D c1 → SameEntries c1 c2 →
      ∃ o1 o2, foldUpdate s.toSchema (.map c1) l = .ok (.map o1) ∧
        foldUpdate s.toSchema (.map c2) l = .ok (.map o2) ∧
        StateValues D o1 ∧ SameEntries o1 o2 := by
  induction l with
  | nil => intro c1 c2 _ hc heq; exact ⟨c1, c2, rfl, rfl, hc, heq⟩
  | cons u rest ih =>
    intro c1 c2 hl hc heq
    obtain ⟨m, hm, hrest⟩ := hl u (List.mem_cons_self _ _)
    subst hm
    obtain ⟨a1, a2, h1, h2, hva, hea⟩ :=
      update_congr s D m c1 c2 (hl _ (List.mem_cons_self _ _)) hc heq
    obtain ⟨o1, o2, g1, g2, hvo, heo⟩ :=
      ih a1 a2 (fun u hu => hl u (List.mem_cons_of_mem _ hu)) hva hea
    exact ⟨o1, o2, by rw [foldUpdate_cons_ok s _ _ _ _ h1]; exact g1,
      by rw [foldUpdate_cons_ok s _ _ _ _ h2]; exact g2, hvo, heo⟩

theorem foldUpdate_perm (s : MapSchema) (D : String → Value → Prop) (l1 l2 : List Value)
    (hp : l1.Perm l2) :
    ∀ (c1 c2 : List (String × Value)), (∀ u ∈ l1, ReducedUpdate s D u) →
      StateValues D c1 → SameEntries c1 c2 →
      ∃ o1 o2, foldUpdate s.toSchema (.map c1) l1 = .ok (.map o1) ∧
        foldUpdate s.toSchema (.map c2) l2 = .ok (.map o2) ∧
        StateValues D o1 ∧ SameEntries o1 o2 := by
  induction hp with
  | nil => intro c1 c2 _ hc heq; exact ⟨c1, c2, rfl, rfl, hc, heq⟩
  | cons u _ ih =>
    intro c1 c2 hl hc heq
    obtain ⟨m, hm, hrest⟩ := hl u (List.mem_cons_self _ _)
    subst hm
    obtain ⟨a1, a2, h1, h2, hva, hea⟩ :=
      update_congr s D m c1 c2 (hl _ (List.mem_cons_self _ _)) hc heq
    obtain ⟨o1, o2, g1, g2, hvo, heo⟩ :=
      ih a1 a2 (fun u hu => hl u (List.mem_cons_of_mem _ hu)) hva hea
    exact ⟨o1, o2, by rw [foldUpdate_cons_ok s _ _ _ _ h1]; exact g1,
      by rw [foldUpdate_cons_ok s _ _ _ _ h2]; exact g2, hvo, heo⟩
  | swap x y l =>
    intro c1 c2 hl hc heq
    have hrest : ∀ u ∈ l, ReducedUpdate s D u :=
      fun u hu => hl u (List.mem_cons_of_mem _ (List.mem_cons_of_mem _ hu))
    obtain ⟨my, hmy, _⟩ := hl y (List.mem_cons_self _ _)
    subst hmy
    obtain ⟨mx, hmx, _⟩ := hl x (List.mem_cons_of_mem _ (List.mem_cons_self _ _))
    subst hmx
    have hy := hl _ (List.mem_cons_self _ _)
    have hx := hl _ (List.mem_cons_of_mem _ (List.mem_cons_self _ _))
    obtain ⟨a, b, ab, ba, ha, hab, hb, hba, hvab, hsame⟩ :=
      update_swap s D my mx c1 hy hx hc
    -- the other order, from the state with the same entries
    obtain ⟨b1, b2, k1, k2, hvb1, heb⟩ := update_congr s D mx c1 c2 hx hc heq
    rw [hb] at k1
    cases k1
    obtain ⟨ba1, ba2, j1, j2, _, heba⟩ := update_congr s D my b b2 hy hvb1 heb
    rw [hba] at j1
    cases j1
    have hfinal : SameEntries ab ba2 := fun k => (hsame k).trans (heba k)
    obtain ⟨o1, o2, g1, g2, hvo, heo⟩ := foldUpdate_congr s D l ab ba2 hrest hvab hfinal
    refine ⟨o1, o2, ?_, ?_, hvo, heo⟩
    · rw [foldUpdate_cons_ok s _ _ _ _ ha, foldUpdate_cons_ok s _ _ _ _ hab]
      exact g1
    · rw [foldUpdate_cons_ok s _ _ _ _ k2, foldUpdate_cons_ok s _ _ _ _ j2]
      exact g2
  | trans p12 _ ih1 ih2 =>
    intro c1 c2 hl hc heq
    obtain ⟨o1, o2, g1, g2, hvo, heo⟩ := ih1 c1 c1 hl hc (fun _ => rfl)
    obtain ⟨o2', o3, g2', g3, _, heo'⟩ :=
      ih2 c1 c2 (fun u hu => hl u (p12.mem_iff.mpr hu)) hc heq
    rw [g2] at g2'
    cases g2'
    exact ⟨o1, o3, g1, g3, hvo, fun k => (heo k).trans (heo' k)⟩
theorem wrapInt64_add_left (a b : Int) : wrapInt64 (wrapInt64 a + b) = wrapInt64 (a + b) := by
  unfold wrapInt64
  omega

theorem wrapInt64_add_right (a b : Int) : wrapInt64 (a + wrapInt64 b) = wrapInt64 (a + b) := by
  unfold wrapInt64
  omega

theorem wrapInt64_of_range (a : Int) (h : -2 ^ 63 ≤ a ∧ a < 2 ^ 63) : wrapInt64 a = a := by
  unfold wrapInt64
  omega

theorem SumReducer_orderIndependent : OrderIndependent isInt SumReducer := by
  refine ⟨fun c a => match c, a with
    | .nil, a => a
    | .int x, .int y => .int (wrapInt64 (x + y))
    | _, _ => .nil, ?_, ?_⟩
  · intro c a hc ha
    cases a <;> simp only [isInt] at ha
    rcases hc with hc | hc
    · subst hc
      exact ⟨rfl, trivial⟩
    · cases c <;> simp only [isInt] at hc
      exact ⟨rfl, trivial⟩
  · intro c a b hc ha hb
    cases a <;> simp only [isInt] at ha
    cases b <;> simp only [isInt] at hb
    rcases hc with hc | hc
    · subst hc
      simp only [Value.int.injEq]
      rw [Int.add_comm]
    · cases c <;> simp only [isInt] at hc
      simp only [Value.int.injEq, wrapInt64_add_left]
      congr 1
      omega

/-- C18: when every key written by the updates of a super-step has a registered
reducer that never fails on the values of its key and satisfies
`r(r(c, a), b) = r(r(c, b), a)` (for every `c`, the absent value nil
included), `MapSchema.Update` folded over the updates in two orders succeeds
both times with maps holding the same value at every key, and so does the merge
of the super-step; the states are compared key by key, a Go map having no
order of keys. -/
theorem update_order_independent (s : MapSchema) (D : String → Value → Prop)
    (cur : List (String × Value)) (l1 l2 : List Value) (hp : l1.Perm l2)
    (hl : ∀ u ∈ l1, ReducedUpdate s D u) (hc : StateValues D cur) :
    ∃ o1 o2, foldUpdate s.toSchema (.map cur) l1 = .ok (.map o1) ∧
      foldUpdate s.toSchema (.map cur) l2 = .ok (.map o2) ∧
      SameEntries o1 o2 ∧
      ∀ (g : MessageGraph) (ctx : Context), g.Schema = some s.toSchema →
        mergeResults g ctx (.map cur) l1 = .ok (.map o1) ∧
        mergeResults g ctx (.map cur) l2 = .ok (.map o2) := by
  obtain ⟨o1, o2, h1, h2, _, he⟩ := foldUpdate_perm s D l1 l2 hp cur cur hl hc (fun _ => rfl)
  refine ⟨o1, o2, h1, h2, he, ?_⟩
  intro g ctx hg
  simp only [mergeResults, hg, mergeWithSchema_eq_fold, h1, h2, and_self]

/-- Witness of C18: the sum reducer on `count`, the updates 1, 2, 3 and
3, 1, 2 merged into `{count: 0}`. -/
theorem update_order_independent_witness :
    ∃ o1 o2,
      foldUpdate (NewMapSchema.RegisterReducer "count" SumReducer).toSchema
        (.map [("count", .int 0)])
        [.map [("count", .int 1)], .map [("count", .int 2)], .map [("count", .int 3)]] =
          .ok (.map o1) ∧
      foldUpdate (NewMapSchema.RegisterReducer "count" SumReducer).toSchema
        (.map [("count", .int 0)])
        [.map [("count", .int 3)], .map [("count", .int 1)], .map [("count", .int 2)]] =
          .ok (.map o2) ∧
      SameEntries o1 o2 ∧
      ∀ (g : MessageGraph) (ctx : Context),
        g.Schema = some (NewMapSchema.RegisterReducer "count" SumReducer).toSchema →
        mergeResults g ctx (.map [("count", .int 0)])
          [.map [("count", .int 1)], .map [("count", .int 2)], .map [("count", .int 3)]] =
            .ok (.map o1) ∧
        mergeResults g ctx (.map [("count", .int 0)])
          [.map [("count", .int 3)], .map [("count", .int 1)], .map [("count", .int 2)]] =
            .ok (.map o2) :=
  update_order_independent (NewMapSchema.RegisterReducer "count" SumReducer)
    (fun _ v => isInt v) [("count", .int 0)]
    [.map [("count", .int 1)], .map [("count", .int 2)], .map [("count", .int 3)]]
    [.map [("count", .int 3)], .map [("count", .int 1)], .map [("count", .int 2)]]
    (@List.perm_append_comm Value [Value.map [("count", .int 1)], Value.map [("count", .int 2)]]
      [Value.map [("count", .int 3)]])
    (by
      intro u hu
      have hkey : ∀ n : Int, ReducedUpdate (NewMapSchema.RegisterReducer "count" SumReducer)
          (fun _ v => isInt v) (.map [("count", .int n)]) := by
        intro n
        refine ⟨_, rfl, by simp [mapKeys], ?_⟩
        intro k v hmem
        simp only [List.mem_singleton, Prod.mk.injEq] at hmem
        obtain ⟨hk, hv⟩ := hmem
        subst hk hv
        exact ⟨trivial, SumReducer, rfl, SumReducer_orderIndependent⟩
      simp only [List.mem_cons, List.mem_singleton, List.not_mem_nil, or_false] at hu
      rcases hu with h | h | h <;> subst h <;> exact hkey _)
    (by
      intro k v h
      by_cases hk : k = "count"
      · subst hk
        simp only [mapGet, if_true, Option.some.injEq] at h
        subst h
        exact Or.inr trivial
      · simp [mapGet, Ne.symm hk] at h)

/-! ## A linear chain with a sum reducer -/

theorem chainEdges_from_not_mem (names : List String) (n : String) (h : n ∉ names) :
    (chainEdges names).filter (fun e => decide (e.From = n)) = [] := by
  induction names with
  | nil => rfl
  | cons a rest ih =>
    simp only [List.mem_cons, not_or] at h
    simp only [chainEdges, List.filter_cons, decide_eq_true_eq]
    rw [if_neg (Ne.symm h.1)]
    exact ih h.2

theorem chainEdges_from (pre rest : List String) (n : String)
    (hnd : (pre ++ n :: rest).Nodup) :
    (chainEdges (pre ++ n :: rest)).filter (fun e => decide (e.From = n)) =
      [{ From := n, To := (rest.head?).getD END }] := by
  induction pre with
  | nil =>
    simp only [List.nil_append, List.nodup_cons] at hnd
    simp only [List.nil_append, chainEdges, List.filter_cons, decide_eq_true_eq, if_true]
    rw [chainEdges_from_not_mem rest n hnd.1]
  | cons a pre ih =>
    simp only [List.cons_append, List.nodup_cons] at hnd
    have hne : a ≠ n := by
      intro h
      exact hnd.1 (by simp [h])
    simp only [List.cons_append, chainEdges, List.filter_cons, decide_eq_true_eq]
    rw [if_neg hne]
    exact ih hnd.2

theorem chain_node (pre rest : List (String × Int)) (n : String) (c : Int)
    (hnd : ((pre ++ (n, c) :: rest).map Prod.fst).Nodup) :
    mapGet (chainGraph (pre ++ (n, c) :: rest)).nodes n = some (countNode n c) := by
  apply mapGet_of_mem_nodup
  · simpa [mapKeys, chainGraph, List.map_map, Function.comp_def] using hnd
  · simp [chainGraph]

theorem chain_step (pre rest : List (String × Int)) (n : String) (c x : Int)
    (hnd : ((pre ++ (n, c) :: rest).map Prod.fst).Nodup) (rd : Rendering) (ctx : Context) :
    StateRunnable.superStep { graph := chainGraph (pre ++ (n, c) :: rest) } rd ctx
        (countState x) [n] =
      .next (countState (wrapInt64 (x + c))) [((rest.head?).map Prod.fst).getD END] [n] := by
  have hnode := chain_node pre rest n c hnd
  have hedge : (chainGraph (pre ++ (n, c) :: rest)).edges.filter
      (fun e => decide (e.From = n)) =
      [{ From := n, To := (((rest.map Prod.fst).head?).getD END) }] := by
    have := chainEdges_from (pre.map Prod.fst) (rest.map Prod.fst) n (by simpa using hnd)
    simpa [chainGraph] using this
  have hcond : mapGet (chainGraph (pre ++ (n, c) :: rest)).conditionalEdges n = none := rfl
  have hschema : (chainGraph (pre ++ (n, c) :: rest)).Schema = some countSchema.toSchema := rfl
  have hmerger : (chainGraph (pre ++ (n, c) :: rest)).stateMerger = none := rfl
  have hretry : (chainGraph (pre ++ (n, c) :: rest)).retryPolicy = none := rfl
  have hred : mapGet countSchema.Reducers "count" = some SumReducer := rfl
  have heph : countSchema.EphemeralKeys = [] := rfl
  have hhead : ((rest.map Prod.fst).head?).getD END = ((rest.head?).map Prod.fst).getD END := by
    cases rest <;> rfl
  simp only [StateRunnable.superStep, lookupNodes, hnode, List.map_cons, List.map_nil,
    StateRunnable.executeNodeWithRetry, hretry, countNode, StateRunnable.retryLoop, anyPanic,
    List.any_cons, List.any_nil, Bool.or_false, errorsOf, resultsOf, mergeAndRoute,
    processResults, processedResult, gotoTargets, List.flatten, mergeResults, hschema,
    mergeWithSchema, MapSchema.toSchema, MapSchema.Update, countState, MapSchema.updateLoop,
    hred, mapGet, if_true, Option.getD_some, SumReducer, mapSet, determineNext, List.length_nil,
    gt_iff_lt, lt_self_iff_false, if_false, staticNext, hcond, hedge, List.isEmpty_cons,
    List.foldl_cons, List.foldl_nil, setInsert, List.contains_nil, List.nil_append,
    cleanupState, MapSchema.Cleanup, heph, hhead, Int.toNat_one, Bool.false_eq_true]

theorem chain_run (chain : List (String × Int)) (hnd : (chain.map Prod.fst).Nodup)
    (hEND : END ∉ chain.map Prod.fst) (rd : Rendering) (ctx : Context) :
    ∀ (rest pre : List (String × Int)) (x : Int) (fuel : Nat), chain = pre ++ rest →
      rest.length < fuel →
      runLoop (StateRunnable.superStep { graph := chainGraph chain } rd ctx) fuel
          (countState x) [((rest.head?).map Prod.fst).getD END] =
        { outcome := .returned (countState (chainFinal x rest)) none,
          steps := chainSteps x rest } := by
  intro rest
  induction rest with
  | nil =>
    intro pre x fuel _ hfuel
    cases fuel with
    | zero => cases hfuel
    | succ fuel => simp [runLoop, chainFinal, chainSteps]
  | cons nc rest ih =>
    intro pre x fuel hchain hfuel
    obtain ⟨n, c⟩ := nc
    cases fuel with
    | zero => cases hfuel
    | succ fuel =>
      have hn : n ≠ END := by
        intro h
        apply hEND
        rw [hchain]
        simp [h]
      have hfilter : [n].filter (fun node => node != END) = [n] := by
        simp [hn]
      have hstep := chain_step pre rest n c x (by rw [← hchain]; exact hnd) rd ctx
      rw [← hchain] at hstep
      have hrec := ih (pre ++ [(n, c)]) (wrapInt64 (x + c)) fuel (by simp [hchain])
        (by simpa using hfuel)
      simp only [List.head?_cons, Option.map_some', Option.getD_some]
      rw [runLoop]
      simp only [hfilter, List.length_singleton, one_ne_zero, if_false, hstep, hrec]
      simp [chainFinal, chainSteps]

theorem chainFinal_eq (chain : List (String × Int)) :
    ∀ x : Int, wrapInt64 (chainFinal x chain) = wrapInt64 (x + (chain.map Prod.snd).sum) := by
  induction chain with
  | nil => intro x; simp [chainFinal]
  | cons nc rest ih =>
    intro x
    have h := ih (wrapInt64 (x + nc.2))
    simp only [chainFinal, List.foldl_cons, List.map_cons, List.sum_cons] at h ⊢
    rw [h, wrapInt64_add_left]
    congr 1
    omega

theorem wrapInt64_idem (a : Int) : wrapInt64 (wrapInt64 a) = wrapInt64 a := by
  unfold wrapInt64
  omega

theorem chainFinal_cons (nc : String × Int) (rest : List (String × Int)) (x : Int) :
    chainFinal x (nc :: rest) = wrapInt64 (x + ((nc :: rest).map Prod.snd).sum) := by
  have hw : ∀ (l : List (String × Int)) (y : Int),
      wrapInt64 (chainFinal (wrapInt64 y) l) = chainFinal (wrapInt64 y) l := by
    intro l
    induction l with
    | nil => intro y; exact wrapInt64_idem y
    | cons a l ih => intro y; exact ih (wrapInt64 y + a.2)
  have h1 : chainFinal x (nc :: rest) = chainFinal (wrapInt64 (x + nc.2)) rest := rfl
  rw [h1, ← hw rest (x + nc.2), ← h1, chainFinal_eq]

theorem chainSteps_ran (chain : List (String × Int)) :
    ∀ x : Int, (chainSteps x chain).map Prod.fst = chain.map (fun nc => [nc.1]) := by
  induction chain with
  | nil => intro x; rfl
  | cons nc rest ih =>
    intro x
    obtain ⟨n, c⟩ := nc
    simp [chainSteps, ih]
/-- C20: for a linear chain `n1 → … → nk → END` of distinct nodes with entry
point `n1`, the `count` key reduced by the integer sum and every `ni` returning
`{count: ci}`, `StateRunnable.InvokeWithConfig` on `{count: c0}` (given more
than `k` super-steps) calls each `ni` exactly once, one per super-step in chain
order, and returns `{count: c0 + c1 + … + ck}` with a nil error, the sum being
that of 64-bit integers; it is the exact sum whenever that fits in 64 bits. -/
theorem chain_sum (chain : List (String × Int)) (c0 : Int) (rd : Rendering) (ctx : Context)
    (config : Option Config) (fuel : Nat) (hne : chain ≠ [])
    (hnd : (chain.map Prod.fst).Nodup) (hEND : END ∉ chain.map Prod.fst)
    (hfuel : chain.length < fuel) :
    (StateRunnable.run { graph := chainGraph chain } rd fuel ctx (countState c0) config).outcome =
      .returned (countState (wrapInt64 (c0 + (chain.map Prod.snd).sum))) none ∧
    (StateRunnable.run { graph := chainGraph chain } rd fuel ctx (countState c0)
      config).steps.map Prod.fst = chain.map (fun nc => [nc.1]) ∧
    (-2 ^ 63 ≤ c0 + (chain.map Prod.snd).sum ∧ c0 + (chain.map Prod.snd).sum < 2 ^ 63 →
      StateRunnable.InvokeWithConfig { graph := chainGraph chain } rd fuel ctx (countState c0)
        config = .returned (countState (c0 + (chain.map Prod.snd).sum)) none) ∧
    ((chainGraph chain).entryPoint ≠ "" →
      (chainGraph chain).Compile = .ok { graph := chainGraph chain }) := by
  cases chain with
  | nil => exact absurd rfl hne
  | cons nc rest =>
    have hrun : StateRunnable.run { graph := chainGraph (nc :: rest) } rd fuel ctx
        (countState c0) config =
        { outcome := .returned (countState (chainFinal c0 (nc :: rest))) none,
          steps := chainSteps c0 (nc :: rest) } := by
      have h := chain_run (nc :: rest) hnd hEND rd
        (match config with
          | some c => { ctx with config := some c }
          | none => ctx) (nc :: rest) [] c0 fuel rfl hfuel
      simpa [StateRunnable.run, StateRunnable.loop, chainGraph] using h
    rw [chainFinal_cons] at hrun
    refine ⟨by rw [hrun], by rw [hrun]; exact chainSteps_ran _ _, ?_, ?_⟩
    · intro hrange
      rw [StateRunnable.InvokeWithConfig, hrun, wrapInt64_of_range _ hrange]
    · intro hentry
      simp only [StateGraph.Compile, if_neg hentry]

/-- Witness of C20: the chain of `examples/state_schema/main.go`, nodes
returning 1, 2 and 3 from `{count: 0}`, built by the calls of the example. -/
theorem chain_sum_witness :
    ({ toMessageGraph := NewMessageGraph
        |>.SetSchema countSchema.toSchema
        |>.AddNode "node_a" (fun _ _ => .ok (.map [("count", .int 1)]))
        |>.AddNode "node_b" (fun _ _ => .ok (.map [("count", .int 2)]))
        |>.AddNode "node_c" (fun _ _ => .ok (.map [("count", .int 3)]))
        |>.SetEntryPoint "node_a"
        |>.AddEdge "node_a" "node_b"
        |>.AddEdge "node_b" "node_c"
        |>.AddEdge "node_c" END,
       retryPolicy := none } : StateGraph) =
      chainGraph [("node_a", 1), ("node_b", 2), ("node_c", 3)] ∧
    StateRunnable.InvokeWithConfig
      { graph := chainGraph [("node_a", 1), ("node_b", 2), ("node_c", 3)] }
      plainRendering 4 background (countState 0) none = .returned (countState 6) none ∧
    (StateRunnable.run { graph := chainGraph [("node_a", 1), ("node_b", 2), ("node_c", 3)] }
      plainRendering 4 background (countState 0) none).steps.map Prod.fst =
        [["node_a"], ["node_b"], ["node_c"]] :=
  ⟨rfl,
    (chain_sum [("node_a", 1), ("node_b", 2), ("node_c", 3)] 0 plainRendering background none 4
      (by simp) (by decide) (by decide) (by decide)).2.2.1 (by decide),
    (chain_sum [("node_a", 1), ("node_b", 2), ("node_c", 3)] 0 plainRendering background none 4
      (by simp) (by decide) (by decide) (by decide)).2.1⟩

/-! ## Termination -/

theorem mem_setInsert (set : List String) (x n : String) :
    n ∈ setInsert set x ↔ n ∈ set ∨ n = x := by
  unfold setInsert
  split
  · rename_i h
    constructor
    · exact Or.inl
    · rintro (h1 | h1)
      · exact h1
      · subst h1; simpa using h
  · simp

theorem mem_foldl_setInsert (xs : List String) : ∀ (set : List String) (n : String),
    n ∈ xs.foldl setInsert set ↔ n ∈ set ∨ n ∈ xs := by
  induction xs with
  | nil => intro set n; simp
  | cons x xs ih =>
    intro set n
    simp only [List.foldl_cons, ih, mem_setInsert, List.mem_cons]
    tauto

theorem staticNext_rank (g : MessageGraph) (rank : String → Nat) (hr : Ranked g rank)
    (ctx : Context) (state : Value) (cur : List String) :
    ∀ (set next : List String), staticNext g ctx state cur set = .ok next →
      ∀ n ∈ next, n ∈ set ∨ ∃ c ∈ cur, rank n < rank c := by
  induction cur with
  | nil =>
    intro set next h n hn
    simp only [staticNext, Res.ok.injEq] at h
    subst h
    exact Or.inl hn
  | cons c rest ih =>
    intro set next h n hn
    unfold staticNext at h
    split at h
    · rename_i fn hfn
      split at h
      · cases h
      · rcases ih _ next h n hn with h1 | ⟨c', hc', hlt⟩
        · rcases (mem_setInsert _ _ _).1 h1 with h2 | h2
          · exact Or.inl h2
          · subst h2
            exact Or.inr ⟨c, List.mem_cons_self _ _, hr.2 c fn hfn ctx state⟩
        · exact Or.inr ⟨c', List.mem_cons_of_mem _ hc', hlt⟩
    · split at h
      · cases h
      · rcases ih _ next h n hn with h1 | ⟨c', hc', hlt⟩
        · rcases (mem_foldl_setInsert _ _ _).1 h1 with h2 | h2
          · exact Or.inl h2
          · obtain ⟨e, he, hto⟩ := List.mem_map.1 h2
            have hmem := List.mem_filter.1 he
            have hfrom : e.From = c := by simpa using hmem.2
            subst hto
            refine Or.inr ⟨c, List.mem_cons_self _ _, ?_⟩
            rw [← hfrom]
            exact hr.1 e hmem.1
        · exact Or.inr ⟨c', List.mem_cons_of_mem _ hc', hlt⟩

theorem lookupNodes_mem (nodes : List (String × Node)) (names : List String) :
    ∀ ns, lookupNodes nodes names = .ok ns → ∀ p ∈ ns, mapGet nodes p.1 = some p.2 := by
  induction names with
  | nil =>
    intro ns h p hp
    simp only [lookupNodes, Except.ok.injEq] at h
    subst h
    cases hp
  | cons name rest ih =>
    intro ns h p hp
    unfold lookupNodes at h
    split at h
    · cases h
    · rename_i node hnode
      split at h
      · rename_i ns' hns'
        simp only [Except.ok.injEq] at h
        subst h
        rcases List.mem_cons.1 hp with h1 | h1
        · subst h1; exact hnode
        · exact ih ns' hns' p h1
      · cases h

theorem resultsOf_no_goto (outs : List (String × Res Value))
    (h : ∀ o ∈ outs, ∀ v, o.2 = .ok v → gotoTargets v = []) :
    (processResults (resultsOf outs)).2 = [] := by
  induction outs with
  | nil => rfl
  | cons o rest ih =>
    have hrest := ih (fun o ho => h o (List.mem_cons_of_mem _ ho))
    simp only [processResults] at hrest ⊢
    obtain ⟨name, res⟩ := o
    cases res with
    | ok v =>
      have hv := h (name, .ok v) (List.mem_cons_self _ _) v rfl
      simp only [resultsOf, List.map_cons, List.flatten, hv, List.nil_append]
      exact hrest
    | err e =>
      simp only [resultsOf, List.map_cons, List.flatten, gotoTargets, List.nil_append]
      exact hrest
    | panic =>
      simp only [resultsOf, List.map_cons, List.flatten, gotoTargets, List.nil_append]
      exact hrest

theorem mergeAndRoute_rank (g : MessageGraph) (rank : String → Nat) (hr : Ranked g rank)
    (ctx : Context) (state st : Value) (cur next : List String) (results : List Value)
    (hgoto : (processResults results).2 = [])
    (h : mergeAndRoute g ctx state cur results = .ok (st, next)) :
    ∀ n ∈ next, ∃ c ∈ cur, rank n < rank c := by
  unfold mergeAndRoute at h
  split at h
  · rename_i state' _
    split at h
    · rename_i nextNodesList hnext
      simp only [Res.ok.injEq, Prod.mk.injEq] at h
      obtain ⟨_, h2⟩ := h
      subst h2
      simp only [determineNext, hgoto, List.length_nil, gt_iff_lt, lt_self_iff_false,
        if_false] at hnext
      intro n hn
      rcases staticNext_rank g rank hr ctx state' cur [] _ hnext n hn with h1 | h1
      · cases h1
      · exact h1
    · cases h
    · cases h
  · cases h
  · cases h

theorem retryLoop_ok (r : StateRunnable) (rd : Rendering) (ctx : Context)
    (call : Nat → Res Value) : ∀ (remaining attempt : Nat) (v : Value),
    r.retryLoop rd ctx call remaining attempt = .ok v → v = .nil ∨ ∃ i, call i = .ok v := by
  intro remaining
  induction remaining with
  | zero =>
    intro attempt v h
    simp only [StateRunnable.retryLoop, Res.ok.injEq] at h
    exact Or.inl h.symm
  | succ k ih =>
    intro attempt v h
    unfold StateRunnable.retryLoop at h
    split at h
    · rename_i result hcall
      simp only [Res.ok.injEq] at h
      subst h
      exact Or.inr ⟨attempt, hcall⟩
    · cases h
    · split at h
      · split at h
        · cases h
        · exact ih _ v h
      · cases h

theorem runnable_step_rank (r : Runnable) (rank : String → Nat) (hr : Ranked r.graph rank)
    (hg : NoGoto r.graph) (config : Option Config) (ctx : Context) (state st : Value)
    (cur next ran : List String) (h : r.superStep config ctx state cur = .next st next ran) :
    ∀ n ∈ next, ∃ c ∈ cur, rank n < rank c := by
  unfold Runnable.superStep at h
  split at h
  · cases h
  · cases hl : lookupNodes r.graph.nodes cur with
    | error e => rw [hl] at h; cases h
    | ok nodes =>
      rw [hl] at h
      simp only at h
      split at h
      · cases h
      · split at h
        · split at h <;> cases h
        · split at h
          · cases h
          · cases h
          · rename_i state' nextNodesList hmr
            split at h
            · cases h
            · simp only [StepOut.next.injEq] at h
              obtain ⟨_, h2, _⟩ := h
              subst h2
              refine mergeAndRoute_rank r.graph rank hr ctx state state' cur _ _ ?_ hmr
              apply resultsOf_no_goto
              intro o ho v hv
              obtain ⟨p, hp, hpo⟩ := List.mem_map.1 ho
              subst hpo
              exact hg p.1 p.2 (lookupNodes_mem _ _ nodes hl p hp) ctx state v hv

theorem stateRunnable_step_rank (r : StateRunnable) (rank : String → Nat)
    (hr : Ranked r.graph.toMessageGraph rank) (hg : NoGoto r.graph.toMessageGraph)
    (rd : Rendering) (ctx : Context) (state st : Value)
    (cur next ran : List String) (h : r.superStep rd ctx state cur = .next st next ran) :
    ∀ n ∈ next, ∃ c ∈ cur, rank n < rank c := by
  unfold StateRunnable.superStep at h
  cases hl : lookupNodes r.graph.nodes cur with
  | error e => rw [hl] at h; cases h
  | ok nodes =>
    rw [hl] at h
    simp only at h
    split at h
    · cases h
    · split at h
      · cases h
      · split at h
        · cases h
        · cases h
        · rename_i state' nextNodesList hmr
          simp only [StepOut.next.injEq] at h
          obtain ⟨_, h2, _⟩ := h
          subst h2
          refine mergeAndRoute_rank r.graph.toMessageGraph rank hr ctx state state' cur _ _
            ?_ hmr
          apply resultsOf_no_goto
          intro o ho v hv
          obtain ⟨p, hp, hpo⟩ := List.mem_map.1 ho
          subst hpo
          rcases retryLoop_ok r rd ctx _ _ _ v hv with h1 | ⟨_, h1⟩
          · subst h1; rfl
          · exact hg p.1 p.2 (lookupNodes_mem _ _ nodes hl p hp) ctx state v h1

theorem mergeWithSchema_no_panic (schema : StateSchema)
    (h : ∀ state res, schema.Update state res ≠ .panic) (l : List Value) :
    ∀ state, mergeWithSchema schema state l ≠ .panic := by
  induction l with
  | nil => intro state; simp [mergeWithSchema]
  | cons u rest ih =>
    intro state
    unfold mergeWithSchema
    split
    · exact ih _
    · simp
    · rename_i hp
      exact absurd hp (h _ _)

theorem staticNext_no_panic (g : MessageGraph) (ctx : Context) (state : Value)
    (cur : List String) : ∀ set, staticNext g ctx state cur set ≠ .panic := by
  induction cur with
  | nil => intro set; simp [staticNext]
  | cons c rest ih =>
    intro set
    unfold staticNext
    split
    · split
      · simp
      · exact ih _
    · split
      · simp
      · exact ih _

theorem mergeAndRoute_no_panic (g : MessageGraph) (hp : NoPanic g) (ctx : Context)
    (state : Value) (cur : List String) (results : List Value) :
    mergeAndRoute g ctx state cur results ≠ .panic := by
  have hmerge : mergeResults g ctx state (processResults results).1 ≠ .panic := by
    unfold mergeResults
    split
    · rename_i schema hs
      exact mergeWithSchema_no_panic schema (hp.2.1 schema hs) _ _
    · split
      · rename_i merger hm
        split
        · simp
        · simp
        · rename_i hpanic
          exact absurd hpanic (hp.2.2 merger hm _ _ _)
      · split <;> simp
  unfold mergeAndRoute
  split
  · rename_i state' _
    have hnext : determineNext g ctx state' cur (processResults results).2 ≠ .panic := by
      unfold determineNext
      split
      · simp
      · exact staticNext_no_panic g ctx state' cur []
    split
    · simp
    · simp
    · rename_i hpanic
      exact absurd hpanic hnext
  · simp
  · rename_i hpanic
    exact absurd hpanic hmerge

theorem anyPanic_false (outs : List (String × Res Value)) (h : ∀ o ∈ outs, o.2 ≠ .panic) :
    anyPanic outs = false := by
  unfold anyPanic
  rw [List.any_eq_false]
  intro o ho
  have := h o ho
  cases hres : o.2 with
  | ok v => simp
  | err e => simp
  | panic => exact absurd hres this

theorem retryLoop_no_panic (r : StateRunnable) (rd : Rendering) (ctx : Context)
    (call : Nat → Res Value) (hcall : ∀ i, call i ≠ .panic) : ∀ (remaining attempt : Nat),
    r.retryLoop rd ctx call remaining attempt ≠ .panic := by
  intro remaining
  induction remaining with
  | zero => intro attempt; simp [StateRunnable.retryLoop]
  | succ k ih =>
    intro attempt
    unfold StateRunnable.retryLoop
    split
    · simp
    · rename_i hp
      exact absurd hp (hcall _)
    · split
      · split
        · simp
        · exact ih _
      · simp

theorem runnable_step_no_panic (r : Runnable) (hp : NoPanic r.graph) (config : Option Config)
    (ctx : Context) (state : Value) (cur ran : List String) :
    r.superStep config ctx state cur ≠ .panic ran := by
  unfold Runnable.superStep
  split
  · simp
  · cases hl : lookupNodes r.graph.nodes cur with
    | error e => simp
    | ok nodes =>
      simp only
      have hany : anyPanic (nodes.map (fun n => (n.1, n.2.Function ctx state))) = false := by
        apply anyPanic_false
        intro o ho
        obtain ⟨p, hpm, hpo⟩ := List.mem_map.1 ho
        subst hpo
        exact hp.1 p.1 p.2 (lookupNodes_mem _ _ nodes hl p hpm) ctx state
      rw [hany]
      simp only [Bool.false_eq_true, if_false]
      split
      · split <;> simp
      · split
        · simp
        · rename_i hpanic
          exact absurd hpanic (mergeAndRoute_no_panic r.graph hp ctx state cur _)
        · split <;> simp

theorem stateRunnable_step_no_panic (r : StateRunnable) (hp : NoPanic r.graph.toMessageGraph)
    (rd : Rendering) (ctx : Context) (state : Value) (cur ran : List String) :
    r.superStep rd ctx state cur ≠ .panic ran := by
  unfold StateRunnable.superStep
  cases hl : lookupNodes r.graph.nodes cur with
  | error e => simp
  | ok nodes =>
    simp only
    have hany : anyPanic (nodes.map
        (fun n => (n.1, r.executeNodeWithRetry rd ctx n.2 state))) = false := by
      apply anyPanic_false
      intro o ho
      obtain ⟨p, hpm, hpo⟩ := List.mem_map.1 ho
      subst hpo
      exact retryLoop_no_panic r rd ctx _
        (fun _ => hp.1 p.1 p.2 (lookupNodes_mem _ _ nodes hl p hpm) ctx state) _ _
    rw [hany]
    simp only [Bool.false_eq_true, if_false]
    split
    · simp
    · split
      · simp
      · rename_i hpanic
        exact absurd hpanic (mergeAndRoute_no_panic r.graph.toMessageGraph hp ctx state cur _)
      · simp

theorem runLoop_terminates (step : Value → List String → StepOut) (rank : String → Nat)
    (hstep : ∀ state cur st next ran, step state cur = .next st next ran →
      ∀ n ∈ next, ∃ c ∈ cur, rank n < rank c)
    (hpanic : ∀ state cur ran, step state cur ≠ .panic ran) :
    ∀ (fuel : Nat) (state : Value) (frontier : List String), 0 < fuel →
      (∀ n ∈ frontier, rank n + 1 < fuel) →
      ∃ st err, (runLoop step fuel state frontier).outcome = .returned st err := by
  intro fuel
  induction fuel with
  | zero => intro _ _ h; cases h
  | succ fuel ih =>
    intro state frontier _ hrank
    unfold runLoop
    split
    · exact ⟨_, _, rfl⟩
    · rename_i hne
      split
      · exact ⟨_, _, rfl⟩
      · rename_i hs
        exact absurd hs (hpanic _ _ _)
      · rename_i st nodes ran hs
        simp only
        have hnext := hstep _ _ _ _ _ hs
        obtain ⟨c, hc⟩ := List.exists_mem_of_length_pos (Nat.pos_of_ne_zero hne)
        have hcf : c ∈ frontier := (List.mem_filter.1 hc).1
        have hpos : 0 < fuel := by have := hrank c hcf; omega
        apply ih st nodes hpos
        intro n hn
        obtain ⟨c', hc', hlt⟩ := hnext n hn
        have := hrank c' (List.mem_filter.1 hc').1
        omega

theorem selfLoop_never_returns (step : Value → List String → StepOut)
    (hstep : ∀ state, step state ["A"] = .next .nil ["A"] ["A"]) :
    ∀ (fuel : Nat) (state : Value), (runLoop step fuel state ["A"]).outcome = .outOfFuel := by
  intro fuel
  induction fuel with
  | zero => intro state; rfl
  | succ fuel ih =>
    intro state
    have hf : ["A"].filter (fun node => node != END) = ["A"] := by decide
    rw [runLoop]
    simp only [hf, List.length_singleton, one_ne_zero, if_false, hstep, ih]

/-- Counterexample to C19 as stated: the compiled graph with the single node A
(returning nil, no goto) and the static edge A → A satisfies the hypotheses of
the claim, and neither `Runnable.InvokeWithConfig` nor
`StateRunnable.InvokeWithConfig` returns within any number of super-steps. -/
theorem cyclic_graph_never_returns :
    selfLoopGraph.Compile = .ok { graph := selfLoopGraph } ∧
    selfLoopGraph.toMessageGraph.Compile = .ok { graph := selfLoopGraph.toMessageGraph } ∧
    mapKeys selfLoopGraph.nodes = ["A"] ∧
    (selfLoopGraph.edges.filter (fun e => decide (e.From = "A"))).isEmpty = false ∧
    NoGoto selfLoopGraph.toMessageGraph ∧
    ∀ (fuel : Nat) (ctx : Context) (state : Value) (rd : Rendering),
      Runnable.InvokeWithConfig { graph := selfLoopGraph.toMessageGraph } fuel ctx state none =
        .outOfFuel ∧
      StateRunnable.InvokeWithConfig { graph := selfLoopGraph } rd fuel ctx state none =
        .outOfFuel := by
  refine ⟨rfl, rfl, rfl, rfl, ?_, ?_⟩
  · intro name node hnode ctx state v hv
    by_cases hname : name = "A"
    · subst hname
      have hn : node = { Name := "A", Function := fun _ _ => .ok .nil } := by
        have : mapGet selfLoopGraph.nodes "A" =
            some { Name := "A", Function := fun _ _ => .ok .nil } := rfl
        rw [this] at hnode
        exact (Option.some.inj hnode).symm
      subst hn
      simp only [Res.ok.injEq] at hv
      subst hv
      rfl
    · have : mapGet selfLoopGraph.nodes name = none := by
        simp [selfLoopGraph, NewMessageGraph, MessageGraph.AddNode, MessageGraph.SetEntryPoint,
          MessageGraph.AddEdge, mapSet, mapGet, Ne.symm hname]
      rw [this] at hnode
      cases hnode
  · intro fuel ctx state rd
    constructor
    · exact selfLoop_never_returns _ (fun st => by rfl) fuel state
    · exact selfLoop_never_returns _ (fun st => by rfl) fuel state

/-- C19, amended: for a graph that is acyclic (some rank on node names strictly
decreases along every static edge and every target a conditional edge
returns), whose nodes return no goto targets and in which nothing panics,
`Runnable.InvokeWithConfig` and `StateRunnable.InvokeWithConfig` return a state
and an error value (nil, an error or an interrupt) within any number of
super-steps exceeding the rank of the entry point and of the resumed nodes by
more than one; no assumption on outgoing edges is needed. -/
theorem acyclic_graph_returns (g : StateGraph) (rank : String → Nat)
    (hr : Ranked g.toMessageGraph rank) (hg : NoGoto g.toMessageGraph)
    (hp : NoPanic g.toMessageGraph) (fuel : Nat) (ctx : Context) (state : Value)
    (config : Option Config) (rd : Rendering)
    (hentry : rank g.entryPoint + 1 < fuel)
    (hresume : ∀ n ∈ initialNodes g.entryPoint config, rank n + 1 < fuel) :
    (∃ st err, Runnable.InvokeWithConfig { graph := g.toMessageGraph } fuel ctx state config =
      .returned st err) ∧
    ∃ st err, StateRunnable.InvokeWithConfig { graph := g } rd fuel ctx state config =
      .returned st err := by
  have hpos : 0 < fuel := by omega
  constructor
  · exact runLoop_terminates _ rank
      (fun st cur st' next ran h =>
        runnable_step_rank { graph := g.toMessageGraph } rank hr hg config _ st st' cur next ran h)
      (fun st cur ran =>
        runnable_step_no_panic { graph := g.toMessageGraph } hp config _ st cur ran)
      fuel state _ hpos hresume
  · exact runLoop_terminates _ rank
      (fun st cur st' next ran h =>
        stateRunnable_step_rank { graph := g } rank hr hg rd _ st st' cur next ran h)
      (fun st cur ran => stateRunnable_step_no_panic { graph := g } hp rd _ st cur ran)
      fuel state _ hpos
      (by
        intro n hn
        simp only [List.mem_singleton] at hn
        subst hn
        exact hentry)
theorem chainGraph_node (chain : List (String × Int)) (name : String) (node : Node)
    (h : mapGet (chainGraph chain).nodes name = some node) :
    ∃ c, node = countNode name c := by
  have hmem := mem_of_mapGet _ _ _ h
  simp only [chainGraph, List.mem_map, Prod.mk.injEq] at hmem
  obtain ⟨nc, _, h1, h2⟩ := hmem
  exact ⟨nc.2, by rw [← h2, h1]⟩

theorem updateLoop_no_panic (s : MapSchema)
    (hs : ∀ k r, mapGet s.Reducers k = some r → ∀ a b, r a b ≠ .panic)
    (newMap : List (String × Value)) :
    ∀ result, s.updateLoop newMap result ≠ .panic := by
  induction newMap with
  | nil => intro result; simp [MapSchema.updateLoop]
  | cons kv rest ih =>
    intro result
    obtain ⟨k, v⟩ := kv
    unfold MapSchema.updateLoop
    split
    · rename_i reducer hred
      split
      · exact ih _
      · simp
      · rename_i hp
        exact absurd hp (hs k reducer hred _ _)
    · exact ih _

theorem countSchema_no_panic (state res : Value) : countSchema.Update state res ≠ .panic := by
  have hs : ∀ k r, mapGet countSchema.Reducers k = some r → ∀ a b, r a b ≠ .panic := by
    intro k r hr a b
    have hr' : r = SumReducer := by
      simp only [countSchema, NewMapSchema, MapSchema.RegisterReducer, mapSet, mapGet] at hr
      split at hr
      · exact (Option.some.inj hr).symm
      · cases hr
    subst hr'
    unfold SumReducer
    split
    · simp
    · split <;> simp
    · simp
  unfold MapSchema.Update
  simp only
  split
  · split
    · exact updateLoop_no_panic countSchema hs _ _
    · simp
  · simp

theorem chainGraph_noGoto (chain : List (String × Int)) :
    NoGoto (chainGraph chain).toMessageGraph := by
  intro name node hnode ctx state v hv
  obtain ⟨c, hc⟩ := chainGraph_node chain name node hnode
  subst hc
  simp only [countNode, Res.ok.injEq] at hv
  subst hv
  rfl

theorem chainGraph_noPanic (chain : List (String × Int)) :
    NoPanic (chainGraph chain).toMessageGraph := by
  refine ⟨?_, ?_, ?_⟩
  · intro name node hnode ctx state
    obtain ⟨c, hc⟩ := chainGraph_node chain name node hnode
    subst hc
    simp [countNode]
  · intro schema hschema state res
    have : schema = countSchema.toSchema := by
      simp only [chainGraph, Option.some.injEq] at hschema
      exact hschema.symm
    subst this
    exact countSchema_no_panic state res
  · intro merger hm
    simp [chainGraph] at hm

/-- Witness of C19 as amended: the chain `node_a → node_b → node_c → END` with
the ranks 3, 2, 1 (and 0 for `END`), given five super-steps. -/
theorem acyclic_graph_returns_witness :
    (∃ st err, Runnable.InvokeWithConfig
      { graph := (chainGraph [("node_a", 1), ("node_b", 2), ("node_c", 3)]).toMessageGraph }
      5 background (countState 0) none = .returned st err) ∧
    ∃ st err, StateRunnable.InvokeWithConfig
      { graph := chainGraph [("node_a", 1), ("node_b", 2), ("node_c", 3)] }
      plainRendering 5 background (countState 0) none = .returned st err :=
  acyclic_graph_returns (chainGraph [("node_a", 1), ("node_b", 2), ("node_c", 3)])
    (fun n => if n = "node_a" then 3 else if n = "node_b" then 2
      else if n = "node_c" then 1 else 0)
    ⟨by
      intro e he
      simp only [chainGraph, chainEdges, List.map_cons, List.map_nil, List.head?_cons,
        List.head?_nil, Option.getD_some, Option.getD_none, List.mem_cons, List.mem_singleton,
        List.not_mem_nil, or_false] at he
      rcases he with h | h | h <;> subst h <;> decide,
     by
      intro n fn h
      simp [chainGraph, mapGet] at h⟩
    (chainGraph_noGoto _) (chainGraph_noPanic _) 5 background (countState 0) none plainRendering
    (by decide) (by decide)

/-! ## The time-travel example -/

theorem timeTravel_run (now : Int) (fuel : Nat) (ctx : Context) (initialState : Value)
    (config : Config) (h : initialState = countState 0 ∨ initialState = .nil) :
    (timeTravelRunnable now).runnable.InvokeWithConfig (fuel + 3) ctx initialState
        (some config) =
      { outcome := .returned (countState 11) none,
        events := [("step:[A]", countState 1), ("step:[B]", countState 11)] } := by
  rcases h with h | h <;> subst h <;> rfl

/-- C12 (the code departs from the claim): for the graph of
`examples/time_travel`, `CheckpointableRunnable.InvokeWithConfig` on
`{count: 0}` with `interrupt_before = [B]` raises no interrupt: B is executed
and `({count: 11}, nil)` is returned; the step checkpoints are filed under the
execution id, so `UpdateState` on `thread_1` with `{count: 50}` finds no
checkpoint and saves `{count: 50}` with version 1; and the invocation with
`resume_from = [B]` on a nil state starts again at A and returns `{count: 11}`,
not `{count: 61}`. -/
theorem time_travel_runs_through (now : Int) (clock : Nat → Int) (fuel : Nat) (ctx : Context)
    (store : MemoryCheckpointStore) (configurable : List (String × Value)) :
    timeTravelGraph.CompileCheckpointable now = .ok (timeTravelRunnable now) ∧
    (timeTravelRunnable now).runnable.InvokeWithConfig (fuel + 3) ctx (countState 0)
        (some timeTravelConfig) =
      { outcome := .returned (countState 11) none,
        events := [("step:[A]", countState 1), ("step:[B]", countState 11)] } ∧
    ((timeTravelRunnable now).InvokeWithConfig clock (fuel + 3) ctx store (countState 0)
      (some timeTravelConfig)).1 = .returned (countState 11) none ∧
    ((timeTravelRunnable now).InvokeWithConfig clock (fuel + 3) ctx store .nil
      (some (timeTravelResume configurable))).1 = .returned (countState 11) none ∧
    (timeTravelRunnable 0).UpdateState id 10
        ((timeTravelRunnable 0).InvokeWithConfig (fun i => i + 1) 3 background
          NewMemoryCheckpointStore (countState 0) (some timeTravelConfig)).2
        (some timeTravelConfig) (countState 50) "human" =
      .ok (checkpointConfig "thread_1" "checkpoint_10",
        { checkpoints :=
            [("checkpoint_1",
                { ID := "checkpoint_1", NodeName := "step:[A]", State := countState 1,
                  Version := 1,
                  Metadata := [("execution_id", .str "exec_0"), ("event", .str "step")] }),
              ("checkpoint_2",
                { ID := "checkpoint_2", NodeName := "step:[B]", State := countState 11,
                  Version := 1,
                  Metadata := [("execution_id", .str "exec_0"), ("event", .str "step")] }),
              ("checkpoint_10",
                { ID := "checkpoint_10", NodeName := "human", State := countState 50,
                  Version := 1,
                  Metadata := [("execution_id", .str "thread_1"),
                    ("source", .str "update_state"), ("updated_by", .str "human")] })] }) := by
  refine ⟨rfl, timeTravel_run now fuel ctx _ _ (Or.inl rfl), ?_, ?_, rfl⟩
  · show ((timeTravelRunnable now).runnable.InvokeWithConfig (fuel + 3) ctx (countState 0)
      (some timeTravelConfig)).outcome = _
    rw [timeTravel_run now fuel ctx _ _ (Or.inl rfl)]
  · show ((timeTravelRunnable now).runnable.InvokeWithConfig (fuel + 3) ctx .nil
      (some (timeTravelResume configurable))).outcome = _
    rw [timeTravel_run now fuel ctx _ _ (Or.inr rfl)]

/-! ## UpdateState -/

theorem generateCheckpointID_ne_empty (now : Int) : generateCheckpointID now ≠ "" := by
  intro h
  have hd := congrArg String.data h
  simp only [generateCheckpointID, String.data_append] at hd
  have hl := congrArg List.length hd
  simp at hl

theorem load_save_self (store : MemoryCheckpointStore) (checkpoint : Checkpoint) :
    (store.Save checkpoint).Load checkpoint.ID = .ok checkpoint := by
  simp [MemoryCheckpointStore.Save, MemoryCheckpointStore.Load, mapGet_mapSet_self]

theorem load_save_other (store : MemoryCheckpointStore) (checkpoint : Checkpoint) (id : String)
    (h : id ≠ checkpoint.ID) : (store.Save checkpoint).Load id = store.Load id := by
  simp only [MemoryCheckpointStore.Save, MemoryCheckpointStore.Load]
  rw [mapGet_mapSet_ne _ _ _ _ h]

theorem configString_checkpointConfig (threadID checkpointID : String) :
    configString (some (checkpointConfig threadID checkpointID)) "checkpoint_id" =
      checkpointID := by
  simp [configString, checkpointConfig, mapGet]

theorem getState_of_saved (cr : CheckpointableRunnable) (range : RangeOrder)
    (store : MemoryCheckpointStore) (threadID : String) (checkpoint : Checkpoint)
    (hid : checkpoint.ID ≠ "") :
    ∃ snapshot, cr.GetState range (store.Save checkpoint)
        (some (checkpointConfig threadID checkpoint.ID)) = .ok snapshot ∧
      snapshot.Values = checkpoint.State ∧ snapshot.Metadata = checkpoint.Metadata := by
  simp only [CheckpointableRunnable.GetState, configString_checkpointConfig, ne_eq, hid,
    not_false_eq_true, if_true, load_save_self]
  exact ⟨_, rfl, rfl, rfl⟩

/-- Counterexample to C13 as stated: with a schema whose `Update` rejects a nil
state and the thread's latest checkpoint holding the state nil,
`Schema.Update(nil, {count: 5})` fails and yet `UpdateState` succeeds, saving
`Update(Init(), {count: 5}) = {count: 5}`. -/
theorem UpdateState_nil_state_uses_Init :
    (oneCheckpointStore .nil).List id "exec_0" =
      [{ ID := "checkpoint_1", NodeName := "step:[A]", State := .nil, Version := 1,
         Metadata := [("execution_id", .str "exec_0"), ("event", .str "step")] }] ∧
    nilRejectingSchema.Update .nil (countState 5) =
      .err (.errorString "current state is nil") ∧
    (updateStateRunnable nilRejectingSchema).UpdateState id 10 (oneCheckpointStore .nil)
        (some (threadConfig "exec_0")) (countState 5) "human" =
      .ok (checkpointConfig "exec_0" "checkpoint_10",
        (oneCheckpointStore .nil).Save
          { ID := "checkpoint_10", NodeName := "human", State := countState 5, Version := 2,
            Metadata := [("execution_id", .str "exec_0"), ("source", .str "update_state"),
              ("updated_by", .str "human")] }) :=
  ⟨rfl, rfl, rfl⟩

/-- C13, amended: with a schema set and the in-memory store, let `S` be the
state of the last checkpoint `List` returns for the thread, or `Init()` when
the thread has no checkpoint or that state is nil, and `version` its version
(0 without a checkpoint). `UpdateState(config, values, asNode)` succeeds
exactly when `Schema.Update(S, values)` succeeds (an error is wrapped, a panic
is a panic); it then saves under a new id one checkpoint whose state is that
result, with `source = update_state`, `updated_by = asNode`, the thread as
`execution_id` and version `version + 1`, leaves the checkpoints of other ids
as they were, and returns a config naming the thread and the new checkpoint,
for which `GetState` returns that result as `Values`. -/
theorem UpdateState_spec (cr : CheckpointableRunnable) (range : RangeOrder) (now : Int)
    (store : MemoryCheckpointStore) (config : Option Config) (values : Value) (asNode : String)
    (schema : StateSchema) (S : Value) (version : Int)
    (hschema : cr.runnable.graph.Schema = some schema)
    (hS : match (store.List range (cr.threadOf config)).getLast? with
      | some latest =>
        S = (if latest.State = .nil then schema.Init else latest.State) ∧
          version = latest.Version
      | none => S = schema.Init ∧ version = 0) :
    match schema.Update S values with
    | .ok newState =>
      ∃ checkpoint,
        cr.UpdateState range now store config values asNode =
          .ok (checkpointConfig (cr.threadOf config) checkpoint.ID, store.Save checkpoint) ∧
        checkpoint =
          { ID := generateCheckpointID now, NodeName := asNode, State := newState,
            Version := wrapInt64 (version + 1),
            Metadata := [("execution_id", .str (cr.threadOf config)),
              ("source", .str "update_state"), ("updated_by", .str asNode)] } ∧
        (store.Save checkpoint).Load checkpoint.ID = .ok checkpoint ∧
        (∀ id, id ≠ checkpoint.ID → (store.Save checkpoint).Load id = store.Load id) ∧
        ∃ snapshot,
          cr.GetState range (store.Save checkpoint)
            (some (checkpointConfig (cr.threadOf config) checkpoint.ID)) = .ok snapshot ∧
          snapshot.Values = newState
    | .err e =>
      ∃ pre, cr.UpdateState range now store config values asNode = .err (.wrapError pre e "")
    | .panic => cr.UpdateState range now store config values asNode = .panic := by
  have hmerge : cr.mergeValues (cr.currentOf range store (cr.threadOf config)).1 values =
      match schema.Update S values with
      | .ok newState => .ok newState
      | .err e => .err (.wrapError
          (if (cr.currentOf range store (cr.threadOf config)).1 ≠ .nil
            then "failed to merge state: " else "failed to initialize and merge state: ") e "")
      | .panic => .panic := by
    have hcur : (if (cr.currentOf range store (cr.threadOf config)).1 = .nil then schema.Init
        else (cr.currentOf range store (cr.threadOf config)).1) = S := by
      unfold CheckpointableRunnable.currentOf
      cases hl : (store.List range (cr.threadOf config)).getLast? with
      | none =>
        rw [hl] at hS
        simp only [hschema]
        rw [hS.1]
        simp
      | some latest =>
        rw [hl] at hS
        simp only
        exact hS.1.symm
    unfold CheckpointableRunnable.mergeValues
    simp only [hschema]
    by_cases hnil : (cr.currentOf range store (cr.threadOf config)).1 = .nil
    · simp only [hnil, if_true] at hcur
      simp only [hnil, ne_eq, not_true_eq_false, if_false, hcur]
    · simp only [hnil, if_false] at hcur
      rw [hcur] at hnil
      simp only [hcur, ne_eq, hnil, not_false_eq_true, if_true]
  have hver : (cr.currentOf range store (cr.threadOf config)).2 = version := by
    unfold CheckpointableRunnable.currentOf
    cases hl : (store.List range (cr.threadOf config)).getLast? with
    | none =>
      rw [hl] at hS
      simp only [hschema]
      exact hS.2.symm
    | some latest =>
      rw [hl] at hS
      exact hS.2.symm
  unfold CheckpointableRunnable.UpdateState
  rw [hmerge, hver]
  cases hu : schema.Update S values with
  | ok newState =>
    simp only
    refine ⟨updateCheckpoint now (cr.threadOf config) asNode newState version, rfl, rfl,
      load_save_self _ _, fun id hid => load_save_other _ _ id hid, ?_⟩
    obtain ⟨snapshot, h1, h2, _⟩ := getState_of_saved cr range store (cr.threadOf config)
      (updateCheckpoint now (cr.threadOf config) asNode newState version)
      (generateCheckpointID_ne_empty now)
    exact ⟨snapshot, h1, h2⟩
  | err e => exact ⟨_, rfl⟩
  | panic => rfl

/-- Witness of C13 as amended: the sum reducer on `count`, the thread's only
checkpoint holding `{count: 11}`, the update `{count: 5}`: the snapshot of the
returned config holds `{count: 16}`. -/
theorem UpdateState_spec_witness :
    ∃ checkpoint,
      (updateStateRunnable countSchema.toSchema).UpdateState id 10
          (oneCheckpointStore (countState 11)) (some (threadConfig "exec_0"))
          (countState 5) "human" =
        .ok (checkpointConfig "exec_0" checkpoint.ID,
          (oneCheckpointStore (countState 11)).Save checkpoint) ∧
      checkpoint =
        { ID := "checkpoint_10", NodeName := "human", State := countState 16,
          Version := 2,
          Metadata := [("execution_id", .str "exec_0"), ("source", .str "update_state"),
            ("updated_by", .str "human")] } ∧
      ((oneCheckpointStore (countState 11)).Save checkpoint).Load checkpoint.ID =
        .ok checkpoint ∧
      (∀ id, id ≠ checkpoint.ID →
        ((oneCheckpointStore (countState 11)).Save checkpoint).Load id =
          (oneCheckpointStore (countState 11)).Load id) ∧
      ∃ snapshot,
        (updateStateRunnable countSchema.toSchema).GetState id
          ((oneCheckpointStore (countState 11)).Save checkpoint)
          (some (checkpointConfig "exec_0" checkpoint.ID)) = .ok snapshot ∧
        snapshot.Values = countState 16 :=
  UpdateState_spec (updateStateRunnable countSchema.toSchema) id 10
    (oneCheckpointStore (countState 11)) (some (threadConfig "exec_0")) (countState 5) "human"
    countSchema.toSchema (countState 11) 1 rfl ⟨rfl, rfl⟩

/-! ## Retries -/

theorem retryCalls_le (r : StateRunnable) (rd : Rendering) (ctx : Context)
    (call : Nat → Res Value) : ∀ (remaining attempt : Nat),
    r.retryCalls rd ctx call remaining attempt ≤ remaining := by
  intro remaining
  induction remaining with
  | zero => intro attempt; simp [StateRunnable.retryCalls]
  | succ k ih =>
    intro attempt
    unfold StateRunnable.retryCalls
    split
    · omega
    · omega
    · split
      · split
        · omega
        · have := ih (attempt + 1)
          omega
      · omega

theorem retry_skip (r : StateRunnable) (rd : Rendering) (ctx : Context)
    (call : Nat → Res Value) (hpol : r.graph.retryPolicy.isSome = true)
    (hctx : ∀ i, ctx.doneDuringBackoff i = false) (k : Nat) :
    ∀ (remaining attempt : Nat), k < remaining →
      (∀ i, i < k → ∃ e, call (attempt + i) = .err e ∧ r.isRetryableError rd e = true) →
      r.retryLoop rd ctx call remaining attempt =
        r.retryLoop rd ctx call (remaining - k) (attempt + k) ∧
      r.retryCalls rd ctx call remaining attempt =
        k + r.retryCalls rd ctx call (remaining - k) (attempt + k) := by
  induction k with
  | zero => intro remaining attempt _ _; simp
  | succ k ih =>
    intro remaining attempt hlt hfail
    cases remaining with
    | zero => cases hlt
    | succ rem =>
      obtain ⟨e, he, hre⟩ := hfail 0 (Nat.succ_pos k)
      simp only [Nat.add_zero] at he
      have hrem : rem > 0 := by omega
      have hnext := ih rem (attempt + 1) (by omega) (fun i hi => by
        have := hfail (i + 1) (by omega)
        have harg : attempt + (i + 1) = attempt + 1 + i := by omega
        rw [harg] at this
        exact this)
      have h1 : rem + 1 - (k + 1) = rem - k := by omega
      have h2 : attempt + (k + 1) = attempt + 1 + k := by omega
      rw [h1, h2]
      constructor
      · rw [StateRunnable.retryLoop]
        simp only [he, hpol, hrem, hre, hctx, decide_True, Bool.and_self, Bool.and_false,
          if_true, Bool.false_eq_true, if_false]
        exact hnext.1
      · rw [StateRunnable.retryCalls]
        simp only [he, hpol, hrem, hre, hctx, decide_True, Bool.and_self, Bool.and_false,
          if_true, Bool.false_eq_true, if_false]
        rw [hnext.2]
        omega

theorem retry_last (r : StateRunnable) (rd : Rendering) (ctx : Context)
    (call : Nat → Res Value) (remaining attempt : Nat) :
    (∀ v, call attempt = .ok v →
      r.retryLoop rd ctx call (remaining + 1) attempt = .ok v ∧
      r.retryCalls rd ctx call (remaining + 1) attempt = 1) ∧
    (∀ e, call attempt = .err e →
      (r.graph.retryPolicy.isSome = false ∨ remaining = 0 ∨ r.isRetryableError rd e = false) →
      r.retryLoop rd ctx call (remaining + 1) attempt = .err e ∧
      r.retryCalls rd ctx call (remaining + 1) attempt = 1) := by
  constructor
  · intro v hv
    simp [StateRunnable.retryLoop, StateRunnable.retryCalls, hv]
  · intro e he hcond
    have hfalse : (r.graph.retryPolicy.isSome && decide (remaining > 0) &&
        r.isRetryableError rd e) = false := by
      rcases hcond with h | h | h
      · simp [h]
      · simp [h]
      · simp [h]
    simp [StateRunnable.retryLoop, StateRunnable.retryCalls, he, hfalse]
/-- Counterexample to C21 as stated: with `MaxRetries` the largest 64-bit
integer (which is ≥ 0), `MaxRetries + 1` overflows to a negative bound, the
node function is never called and `(nil, nil)` is returned, also for a node
that would succeed. -/
theorem retry_overflow_never_calls :
    (0 : Int) ≤ 9223372036854775807 ∧
    (retryRunnable 9223372036854775807).maxRetries = -9223372036854775808 ∧
    (∀ (rd : Rendering) (ctx : Context) (state : Value),
      (retryRunnable 9223372036854775807).executeNodeWithRetry rd ctx
        { Name := "A", Function := fun _ _ => .ok (.int 7) } state = .ok .nil) ∧
    ∀ (rd : Rendering) (ctx : Context) (call : Nat → Res Value),
      (retryRunnable 9223372036854775807).retryCalls rd ctx call
        (retryRunnable 9223372036854775807).maxRetries.toNat 0 = 0 := by
  have hmax : (retryRunnable 9223372036854775807).maxRetries = -9223372036854775808 := by
    decide
  refine ⟨by decide, hmax, ?_, ?_⟩
  · intro rd ctx state
    simp [StateRunnable.executeNodeWithRetry, hmax, StateRunnable.retryLoop]
  · intro rd ctx call
    simp [hmax, StateRunnable.retryCalls]

/-- C21, amended: with a retry policy whose `MaxRetries` is `n` with
`0 ≤ n < 2^63 - 1` the loop of `executeNodeWithRetry` has `n + 1` iterations
(one without a policy) and calls the node function at most that many times;
when the context is not cancelled during a back-off wait, it stops at the
first successful attempt with that attempt's result, makes exactly `n + 1`
calls and returns the last error when every attempt fails with a retryable
error, and makes exactly one call when the first attempt fails with an error
that is not retryable or when no policy is set. `call i` is the outcome of the
call made at attempt `i`. -/
theorem retry_attempts (r : StateRunnable) (rd : Rendering) (ctx : Context)
    (call : Nat → Res Value)
    (hn : ∀ p, r.graph.retryPolicy = some p → 0 ≤ p.MaxRetries ∧ p.MaxRetries + 1 < 2 ^ 63)
    (hctx : ∀ i, ctx.doneDuringBackoff i = false) :
    (∀ p, r.graph.retryPolicy = some p → r.maxRetries.toNat = p.MaxRetries.toNat + 1) ∧
    (r.graph.retryPolicy = none → r.maxRetries.toNat = 1) ∧
    r.retryCalls rd ctx call r.maxRetries.toNat 0 ≤ r.maxRetries.toNat ∧
    (∀ k v, k < r.maxRetries.toNat →
      (∀ i, i < k → ∃ e, call i = .err e ∧ r.isRetryableError rd e = true) →
      call k = .ok v →
      r.retryLoop rd ctx call r.maxRetries.toNat 0 = .ok v ∧
      r.retryCalls rd ctx call r.maxRetries.toNat 0 = k + 1) ∧
    (∀ e : Nat → GoError,
      (∀ i, i < r.maxRetries.toNat → call i = .err (e i) ∧
        r.isRetryableError rd (e i) = true) →
      r.retryLoop rd ctx call r.maxRetries.toNat 0 = .err (e (r.maxRetries.toNat - 1)) ∧
      r.retryCalls rd ctx call r.maxRetries.toNat 0 = r.maxRetries.toNat) ∧
    (∀ e, call 0 = .err e → r.isRetryableError rd e = false →
      r.retryLoop rd ctx call r.maxRetries.toNat 0 = .err e ∧
      r.retryCalls rd ctx call r.maxRetries.toNat 0 = 1) ∧
    (r.graph.retryPolicy = none →
      r.retryLoop rd ctx call r.maxRetries.toNat 0 = call 0 ∧
      r.retryCalls rd ctx call r.maxRetries.toNat 0 = 1) ∧
    ∀ node state, r.executeNodeWithRetry rd ctx node state =
      r.retryLoop rd ctx (fun _ => node.Function ctx state) r.maxRetries.toNat 0 := by
  have hsome : ∀ p, r.graph.retryPolicy = some p →
      r.maxRetries.toNat = p.MaxRetries.toNat + 1 := by
    intro p hp
    obtain ⟨h0, h1⟩ := hn p hp
    simp only [StateRunnable.maxRetries, hp]
    rw [wrapInt64_of_range _ ⟨by omega, h1⟩]
    omega
  have hnone : r.graph.retryPolicy = none → r.maxRetries.toNat = 1 := by
    intro hp
    simp [StateRunnable.maxRetries, hp]
  have hpos : 0 < r.maxRetries.toNat := by
    cases hp : r.graph.retryPolicy with
    | none => rw [hnone hp]; omega
    | some p => rw [hsome p hp]; omega
  obtain ⟨m, hm⟩ : ∃ m, r.maxRetries.toNat = m + 1 := ⟨r.maxRetries.toNat - 1, by omega⟩
  have hisSome : 0 < m → r.graph.retryPolicy.isSome = true := by
    intro h
    cases hp : r.graph.retryPolicy with
    | none => have := hnone hp; omega
    | some p => rfl
  have hskip : ∀ k, k < m + 1 →
      (∀ i, i < k → ∃ e, call i = .err e ∧ r.isRetryableError rd e = true) →
      r.retryLoop rd ctx call (m + 1) 0 = r.retryLoop rd ctx call (m - k + 1) k ∧
      r.retryCalls rd ctx call (m + 1) 0 = k + r.retryCalls rd ctx call (m - k + 1) k := by
    intro k hk hfail
    cases k with
    | zero => simp
    | succ j =>
      have h := retry_skip r rd ctx call (hisSome (by omega)) hctx (j + 1) (m + 1) 0 hk
        (fun i hi => by simpa using hfail i hi)
      have h1 : m + 1 - (j + 1) = m - (j + 1) + 1 := by omega
      simpa [h1] using h
  rw [hm]
  refine ⟨by rw [← hm]; exact hsome, by rw [← hm]; exact hnone, retryCalls_le r rd ctx call _ _,
    ?_, ?_, ?_, ?_, ?_⟩
  · intro k v hk hfail hv
    obtain ⟨h1, h2⟩ := hskip k hk hfail
    obtain ⟨h3, h4⟩ := (retry_last r rd ctx call (m - k) k).1 v hv
    exact ⟨h1.trans h3, by rw [h2, h4]⟩
  · intro e hall
    obtain ⟨h1, h2⟩ := hskip m (by omega)
      (fun i hi => ⟨e i, (hall i (by omega)).1, (hall i (by omega)).2⟩)
    have hlast := (retry_last r rd ctx call 0 m).2 (e m) (hall m (by omega)).1
      (Or.inr (Or.inl rfl))
    simp only [Nat.sub_self, Nat.zero_add] at h1 h2
    simp only [Nat.add_sub_cancel]
    exact ⟨h1.trans hlast.1, by rw [h2, hlast.2]⟩
  · intro e he hre
    exact (retry_last r rd ctx call m 0).2 e he (Or.inr (Or.inr hre))
  · intro hp
    have hm0 : m = 0 := by have := hnone hp; omega
    subst hm0
    cases hc : call 0 with
    | ok v => exact (retry_last r rd ctx call 0 0).1 v hc
    | err e => exact (retry_last r rd ctx call 0 0).2 e hc (Or.inr (Or.inl rfl))
    | panic => simp [StateRunnable.retryLoop, StateRunnable.retryCalls, hc]
  · intro node state
    rw [← hm]
    rfl

/-- Witness of C21 as amended: `MaxRetries = 2`, every attempt failing with the
retryable error `timeout`: three calls, the error returned. -/
theorem retry_attempts_witness :
    (retryRunnable 2).retryLoop plainRendering background
        (fun _ => .err (.errorString "timeout")) (retryRunnable 2).maxRetries.toNat 0 =
      .err (.errorString "timeout") ∧
    (retryRunnable 2).retryCalls plainRendering background
        (fun _ => .err (.errorString "timeout")) (retryRunnable 2).maxRetries.toNat 0 =
      (retryRunnable 2).maxRetries.toNat ∧
    (retryRunnable 2).maxRetries.toNat = 3 :=
  ⟨((retry_attempts (retryRunnable 2) plainRendering background
      (fun _ => .err (.errorString "timeout"))
      (fun p hp => by cases hp; decide) (fun _ => rfl)).2.2.2.2.1
      (fun _ => .errorString "timeout") (fun _ _ => ⟨rfl, (by decide : (retryRunnable 2).isRetryableError plainRendering
        (GoError.errorString "timeout") = true)⟩)).1,
    ((retry_attempts (retryRunnable 2) plainRendering background
      (fun _ => .err (.errorString "timeout"))
      (fun p hp => by cases hp; decide) (fun _ => rfl)).2.2.2.2.1
      (fun _ => .errorString "timeout") (fun _ _ => ⟨rfl, (by decide : (retryRunnable 2).isRetryableError plainRendering
        (GoError.errorString "timeout") = true)⟩)).2,
    by decide⟩

/-! ## Back-off delays -/

theorem pow_two_le_of_le (attempt : Nat) (h : attempt ≤ 33) : (2 : Int) ^ attempt ≤ 2 ^ 33 :=
  pow_le_pow_right₀ (by norm_num) h

/-- Counterexample to C22 as stated: for the exponential strategy the product
`1 second · 2^attempt` overflows 64 bits from attempt 34 on: the delay of
attempt 34 is negative and that of attempt 64 is 0. -/
theorem backoff_delay_overflows :
    StateRunnable.calculateBackoffDelay
      { graph := NewStateGraph.SetRetryPolicy
          { MaxRetries := 40, BackoffStrategy := .ExponentialBackoff, RetryableErrors := [] } }
      34 = -1266874889709551616 ∧
    StateRunnable.calculateBackoffDelay
      { graph := NewStateGraph.SetRetryPolicy
          { MaxRetries := 70, BackoffStrategy := .ExponentialBackoff, RetryableErrors := [] } }
      64 = 0 := by
  constructor <;> decide

/-- C22, amended: `calculateBackoffDelay(attempt)` is 0 without a policy,
1 second (10^9 nanoseconds) for `FixedBackoff` and for an unrecognised
strategy, `1 second · 2^attempt` for `ExponentialBackoff` when `attempt ≤ 33`,
and `1 second · (attempt + 1)` for `LinearBackoff` when
`attempt + 1 ≤ 9223372036`; in these cases with a policy the delay is
positive. Beyond the two bounds the product no longer fits in 64 bits. -/
theorem calculateBackoffDelay_spec (r : StateRunnable) (attempt : Nat) :
    (r.graph.retryPolicy = none → r.calculateBackoffDelay attempt = 0) ∧
    ∀ policy, r.graph.retryPolicy = some policy →
      (policy.BackoffStrategy = .FixedBackoff →
        r.calculateBackoffDelay attempt = 1000000000) ∧
      (∀ n, policy.BackoffStrategy = .other n →
        r.calculateBackoffDelay attempt = 1000000000) ∧
      (policy.BackoffStrategy = .ExponentialBackoff → attempt ≤ 33 →
        r.calculateBackoffDelay attempt = 1000000000 * 2 ^ attempt ∧
        0 < r.calculateBackoffDelay attempt) ∧
      (policy.BackoffStrategy = .LinearBackoff → attempt + 1 ≤ 9223372036 →
        r.calculateBackoffDelay attempt = 1000000000 * ((attempt : Int) + 1) ∧
        0 < r.calculateBackoffDelay attempt) := by
  constructor
  · intro h
    simp [StateRunnable.calculateBackoffDelay, h]
  · intro policy hp
    refine ⟨?_, ?_, ?_, ?_⟩
    · intro hs
      simp [StateRunnable.calculateBackoffDelay, hp, hs]
    · intro n hs
      simp [StateRunnable.calculateBackoffDelay, hp, hs]
    · intro hs hle
      have hpow := pow_two_le_of_le attempt hle
      have hpos : (0 : Int) < 2 ^ attempt := by positivity
      have h33 : (2 : Int) ^ 33 = 8589934592 := by norm_num
      rw [h33] at hpow
      have hshift : shiftLeftOne attempt = 2 ^ attempt := by
        unfold shiftLeftOne
        exact wrapInt64_of_range _ ⟨by omega, by omega⟩
      have hval : r.calculateBackoffDelay attempt = 1000000000 * 2 ^ attempt := by
        simp only [StateRunnable.calculateBackoffDelay, hp, hs, hshift]
        exact wrapInt64_of_range _ ⟨by omega, by omega⟩
      rw [hval]
      exact ⟨rfl, by omega⟩
    · intro hs hle
      have hinner : wrapInt64 ((attempt : Int) + 1) = (attempt : Int) + 1 :=
        wrapInt64_of_range _ ⟨by omega, by omega⟩
      have hval : r.calculateBackoffDelay attempt = 1000000000 * ((attempt : Int) + 1) := by
        simp only [StateRunnable.calculateBackoffDelay, hp, hs, hinner]
        exact wrapInt64_of_range _ ⟨by omega, by omega⟩
      rw [hval]
      exact ⟨rfl, by omega⟩

/-- Witness of C22 as amended: the exponential delay of attempt 3 is 8 seconds
and the linear delay of attempt 3 is 4 seconds. -/
theorem calculateBackoffDelay_spec_witness :
    StateRunnable.calculateBackoffDelay
      { graph := NewStateGraph.SetRetryPolicy
          { MaxRetries := 5, BackoffStrategy := .ExponentialBackoff, RetryableErrors := [] } }
      3 = 1000000000 * 2 ^ 3 ∧
    StateRunnable.calculateBackoffDelay
      { graph := NewStateGraph.SetRetryPolicy
          { MaxRetries := 5, BackoffStrategy := .LinearBackoff, RetryableErrors := [] } }
      3 = 1000000000 * (((3 : Nat) : Int) + 1) :=
  ⟨(((calculateBackoffDelay_spec
      { graph := NewStateGraph.SetRetryPolicy
          { MaxRetries := 5, BackoffStrategy := .ExponentialBackoff, RetryableErrors := [] } }
      3).2 _ rfl).2.2.1 rfl (by decide)).1,
    (((calculateBackoffDelay_spec
      { graph := NewStateGraph.SetRetryPolicy
          { MaxRetries := 5, BackoffStrategy := .LinearBackoff, RetryableErrors := [] } }
      3).2 _ rfl).2.2.2 rfl (by decide)).1⟩

/-! ## Streaming modes -/

theorem emitEvent_cases (sl : StreamingListener) (eventChan : List StreamEvent)
    (event : StreamEvent) :
    (sl.emitEvent eventChan event).1.config = sl.config ∧
    ((sl.emitEvent eventChan event).2 = eventChan ∨
      ((sl.emitEvent eventChan event).2 = eventChan ++ [event] ∧
        sl.shouldEmit event = true)) := by
  unfold StreamingListener.emitEvent
  split
  · exact ⟨rfl, Or.inl rfl⟩
  · split
    · exact ⟨rfl, Or.inl rfl⟩
    · rename_i hemit
      split
      · exact ⟨rfl, Or.inr ⟨rfl, by simpa using hemit⟩⟩
      · split
        · exact ⟨rfl, Or.inl rfl⟩
        · exact ⟨rfl, Or.inl rfl⟩

theorem streamStep_invariant (config : StreamConfig) (s : StreamState) (op : StreamOp)
    (hc : s.listener.config = config)
    (hq : ∀ e ∈ s.eventChan, (NewStreamingListener config).shouldEmit e = true)
    (hd : ∀ e ∈ s.delivered, (NewStreamingListener config).shouldEmit e = true) :
    (s.step op).listener.config = config ∧
    (∀ e ∈ (s.step op).eventChan, (NewStreamingListener config).shouldEmit e = true) ∧
    ∀ e ∈ (s.step op).delivered, (NewStreamingListener config).shouldEmit e = true := by
  have hsame : ∀ e, s.listener.shouldEmit e = (NewStreamingListener config).shouldEmit e := by
    intro e
    simp [StreamingListener.shouldEmit, hc, NewStreamingListener]
  cases op with
  | call c =>
    simp only [StreamState.step]
    cases hev : c.event with
    | none => exact ⟨hc, hq, hd⟩
    | some event =>
      obtain ⟨h1, h2⟩ := emitEvent_cases s.listener s.eventChan event
      refine ⟨h1.trans hc, ?_, hd⟩
      intro e he
      simp only at he
      rcases h2 with h2 | ⟨h2, h3⟩
      · rw [h2] at he
        exact hq e he
      · rw [h2] at he
        rcases List.mem_append.1 he with h | h
        · exact hq e h
        · simp only [List.mem_singleton] at h
          subst h
          rw [← hsame]
          exact h3
  | receive =>
    cases hch : s.eventChan with
    | nil =>
      have hs : s.step .receive = s := by simp [StreamState.step, hch]
      rw [hs]
      exact ⟨hc, hq, hd⟩
    | cons event rest =>
      have hs : s.step .receive =
          { s with eventChan := rest, delivered := s.delivered ++ [event] } := by
        simp [StreamState.step, hch]
      rw [hs]
      rw [hch] at hq
      refine ⟨hc, fun e he => hq e (List.mem_cons_of_mem _ he), ?_⟩
      intro e he
      simp only at he
      rcases List.mem_append.1 he with h | h
      · exact hd e h
      · simp only [List.mem_singleton] at h
        subst h
        exact hq e (List.mem_cons_self _ _)
  | close => exact ⟨hc, hq, hd⟩

theorem streamSession_delivered (config : StreamConfig) (ops : List StreamOp) :
    ∀ e ∈ (streamSession config ops).delivered,
      (NewStreamingListener config).shouldEmit e = true := by
  have key : ∀ (ops : List StreamOp) (s : StreamState), s.listener.config = config →
      (∀ e ∈ s.eventChan, (NewStreamingListener config).shouldEmit e = true) →
      (∀ e ∈ s.delivered, (NewStreamingListener config).shouldEmit e = true) →
      ∀ e ∈ (ops.foldl StreamState.step s).delivered,
        (NewStreamingListener config).shouldEmit e = true := by
    intro ops
    induction ops with
    | nil => intro s _ _ hd; exact hd
    | cons op rest ih =>
      intro s hc hq hd
      obtain ⟨h1, h2, h3⟩ := streamStep_invariant config s op hc hq hd
      exact ih (s.step op) h1 h2 h3
  exact key ops _ rfl (fun e he => by cases he) (fun e he => by cases he)

/-- C23: `shouldEmit` lets an event through according to the mode: `values`
only the kind `graph_step`; `updates` only `tool_end`, `chain_end` and
`complete`; `messages` only `llm_start` and `llm_end`; `debug` and every other
mode, the empty one included, every event. Hence whatever calls the listener
receives and whenever the consumer reads, every event delivered on the channel
of a listener in `values` mode has the kind `graph_step`. -/
theorem shouldEmit_spec (sl : StreamingListener) (event : StreamEvent) :
    (sl.config.Mode = "values" → sl.shouldEmit event = decide (event.Event = "graph_step")) ∧
    (sl.config.Mode = "updates" →
      (sl.shouldEmit event = true ↔
        event.Event = "tool_end" ∨ event.Event = "chain_end" ∨ event.Event = "complete")) ∧
    (sl.config.Mode = "messages" →
      (sl.shouldEmit event = true ↔ event.Event = "llm_start" ∨ event.Event = "llm_end")) ∧
    (sl.config.Mode = "debug" → sl.shouldEmit event = true) ∧
    (sl.config.Mode ≠ "values" → sl.config.Mode ≠ "updates" → sl.config.Mode ≠ "messages" →
      sl.shouldEmit event = true) ∧
    ∀ (config : StreamConfig) (ops : List StreamOp), config.Mode = "values" →
      ∀ e ∈ (streamSession config ops).delivered, e.Event = "graph_step" := by
  refine ⟨?_, ?_, ?_, ?_, ?_, ?_⟩
  · intro h
    simp [StreamingListener.shouldEmit, h]
  · intro h
    simp [StreamingListener.shouldEmit, h, or_assoc]
  · intro h
    simp [StreamingListener.shouldEmit, h, or_comm]
  · intro h
    simp [StreamingListener.shouldEmit, h]
  · intro h1 h2 h3
    simp [StreamingListener.shouldEmit, h1, h2, h3]
  · intro config ops hmode e he
    have h := streamSession_delivered config ops e he
    simpa [StreamingListener.shouldEmit, NewStreamingListener, hmode] using h

/-- Witness of C23: in `values` mode, of a node start, a node completion and two
graph steps, the consumer receives the graph steps. -/
theorem shouldEmit_spec_witness :
    (streamSession { DefaultStreamConfig with Mode := "values" }
      [.call (.OnNodeEvent "start" "A" (.str "Start") none),
       .call (.OnNodeEvent "complete" "A" (.str "A") none),
       .call (.OnGraphStep "step:[A]" (.str "A")),
       .receive,
       .call (.OnGraphStep "step:[B]" (.str "B")),
       .receive, .receive]).delivered.map StreamEvent.Event = ["graph_step", "graph_step"] ∧
    ∀ e ∈ (streamSession { DefaultStreamConfig with Mode := "values" }
      [.call (.OnNodeEvent "start" "A" (.str "Start") none),
       .call (.OnNodeEvent "complete" "A" (.str "A") none),
       .call (.OnGraphStep "step:[A]" (.str "A")),
       .receive,
       .call (.OnGraphStep "step:[B]" (.str "B")),
       .receive, .receive]).delivered, e.Event = "graph_step" :=
  ⟨by decide,
    (shouldEmit_spec (NewStreamingListener DefaultStreamConfig)
      { NodeName := "", Event := "", State := .nil, Error := none, Metadata := [] }).2.2.2.2.2
      { DefaultStreamConfig with Mode := "values" } _ rfl⟩

/-! ## MemoryCheckpointStore -/

theorem mapKeys_mapSet_nodup {α : Type} (m : List (String × α)) (k : String) (v : α)
    (h : (mapKeys m).Nodup) : (mapKeys (mapSet m k v)).Nodup := by
  induction m with
  | nil => simp [mapSet, mapKeys]
  | cons p rest ih =>
    obtain ⟨k0, v0⟩ := p
    simp only [mapKeys, List.map_cons, List.nodup_cons] at h
    by_cases hk : k0 = k
    · simp only [mapSet, hk, if_true, mapKeys, List.map_cons, List.nodup_cons]
      rw [← hk]
      exact h
    · have hmem : k0 ∉ mapKeys (mapSet rest k v) := by
        intro hin
        rcases (mem_mapKeys_mapSet rest k k0 v).1 hin with h1 | h1
        · exact hk h1
        · exact h.1 h1
      simp only [mapSet, hk, if_false, mapKeys, List.map_cons, List.nodup_cons]
      exact ⟨hmem, ih h.2⟩

theorem mem_mapSet {α : Type} (m : List (String × α)) (k : String) (v : α)
    (kv : String × α) (h : kv ∈ mapSet m k v) : kv = (k, v) ∨ kv ∈ m := by
  induction m with
  | nil =>
    simp only [mapSet, List.mem_singleton] at h
    exact Or.inl h
  | cons p rest ih =>
    obtain ⟨k0, v0⟩ := p
    by_cases hk : k0 = k
    · simp only [mapSet, hk, if_true, List.mem_cons] at h
      rcases h with h | h
      · exact Or.inl h
      · exact Or.inr (List.mem_cons_of_mem _ h)
    · simp only [mapSet, hk, if_false, List.mem_cons] at h
      rcases h with h | h
      · exact Or.inr (by rw [h]; exact List.mem_cons_self _ _)
      · rcases ih h with h1 | h1
        · exact Or.inl h1
        · exact Or.inr (List.mem_cons_of_mem _ h1)

theorem wellFormed_save (m : MemoryCheckpointStore) (checkpoint : Checkpoint)
    (h : m.WellFormed) : (m.Save checkpoint).WellFormed := by
  refine ⟨mapKeys_mapSet_nodup _ _ _ h.1, ?_⟩
  intro kv hkv
  rcases mem_mapSet _ _ _ kv hkv with h1 | h1
  · rw [h1]
  · exact h.2 kv h1

theorem wellFormed_filter (m : MemoryCheckpointStore) (p : String × Checkpoint → Bool)
    (h : m.WellFormed) :
    MemoryCheckpointStore.WellFormed { checkpoints := m.checkpoints.filter p } := by
  refine ⟨?_, fun kv hkv => h.2 kv (List.mem_filter.1 hkv).1⟩
  exact List.Nodup.sublist (List.Sublist.map _ (List.filter_sublist _)) h.1

theorem mapGet_filter_value {α : Type} (m : List (String × α)) (q : α → Bool) (k : String)
    (h : (mapKeys m).Nodup) :
    mapGet (m.filter (fun kv => q kv.2)) k = (mapGet m k).filter q := by
  induction m with
  | nil => simp [mapGet]
  | cons p rest ih =>
    obtain ⟨k0, v0⟩ := p
    simp only [mapKeys, List.map_cons, List.nodup_cons] at h
    by_cases hk : k0 = k
    · subst hk
      have hrest : mapGet rest k0 = none := (mapGet_eq_none_iff rest k0).2 h.1
      by_cases hq : q v0 = true
      · simp [List.filter_cons, hq, mapGet, Option.filter]
      · have hq' : q v0 = false := by simpa using hq
        have := ih h.2
        rw [hrest] at this
        simp [List.filter_cons, hq', mapGet, Option.filter, this]
    · by_cases hq : q v0 = true
      · simp [List.filter_cons, hq, mapGet, hk, ih h.2]
      · have hq' : q v0 = false := by simpa using hq
        simp [List.filter_cons, hq', mapGet, hk, ih h.2]

theorem mem_values_iff (m : MemoryCheckpointStore) (h : m.WellFormed) (c : Checkpoint) :
    c ∈ m.checkpoints.map Prod.snd ↔ m.view c.ID = some c := by
  constructor
  · intro hc
    obtain ⟨kv, hkv, hsnd⟩ := List.mem_map.1 hc
    have hid := h.2 kv hkv
    subst hsnd
    have : (kv.2.ID, kv.2) ∈ m.checkpoints := by rw [hid]; exact hkv
    exact mapGet_of_mem_nodup _ _ _ h.1 this
  · intro hc
    exact List.mem_map.2 ⟨(c.ID, c), mem_of_mapGet _ _ _ hc, rfl⟩

theorem values_ids_nodup (m : MemoryCheckpointStore) (h : m.WellFormed) :
    ((m.checkpoints.map Prod.snd).map Checkpoint.ID).Nodup := by
  have : (m.checkpoints.map Prod.snd).map Checkpoint.ID = mapKeys m.checkpoints := by
    simp only [mapKeys, List.map_map]
    apply List.map_congr_left
    intro kv hkv
    exact h.2 kv hkv
  rw [this]
  exact h.1
theorem filedUnder_unique (c : Checkpoint) (t t' : String) (h : c.filedUnder t = true)
    (h' : c.filedUnder t' = true) : t = t' := by
  simp only [Checkpoint.filedUnder, decide_eq_true_eq] at h h'
  rw [h] at h'
  simpa using h'

theorem mem_list_iff (m : MemoryCheckpointStore) (range : RangeOrder) (hwf : m.WellFormed)
    (hrange : ∀ l, (range l).Perm l) (t : String) (c : Checkpoint) :
    c ∈ m.List range t ↔ (m.view c.ID = some c ∧ c.filedUnder t = true) := by
  simp only [MemoryCheckpointStore.List, List.mem_filter]
  rw [((hrange m.checkpoints).map Prod.snd).mem_iff, mem_values_iff m hwf c]

theorem list_ids_nodup (m : MemoryCheckpointStore) (range : RangeOrder) (hwf : m.WellFormed)
    (hrange : ∀ l, (range l).Perm l) (t : String) :
    ((m.List range t).map Checkpoint.ID).Nodup := by
  have hperm : (((range m.checkpoints).map Prod.snd).map Checkpoint.ID).Perm
      ((m.checkpoints.map Prod.snd).map Checkpoint.ID) :=
    ((hrange m.checkpoints).map Prod.snd).map Checkpoint.ID
  have hnd := (hperm.nodup_iff).2 (values_ids_nodup m hwf)
  exact List.Nodup.sublist (List.Sublist.map _ (List.filter_sublist _)) hnd

theorem view_clear (m : MemoryCheckpointStore) (hwf : m.WellFormed) (t id : String) :
    (m.Clear t).view id = (m.view.clear t) id := by
  simp only [MemoryCheckpointStore.view, MemoryCheckpointStore.Clear, CheckpointMap.clear]
  exact mapGet_filter_value m.checkpoints (fun c => !c.filedUnder t) id hwf.1

/-- C24: the in-memory store refines a finite map keyed by checkpoint id. A new
store is empty; `Load` is the lookup of the map, failing with the not-found
error on an unbound id; `Save` binds the checkpoint to its id; `Delete` unbinds
only the given id; `Clear` unbinds exactly the checkpoints of the thread;
`List` returns, each once, the bound checkpoints of the thread, whatever the
order in which the map is ranged over; and after `Clear(t)` the other threads
are listed as before and `t` has no checkpoint. Every method keeps the store
well-formed, so this holds along any sequence of calls. -/
theorem store_refines_map (m : MemoryCheckpointStore) (range : RangeOrder)
    (hwf : m.WellFormed) (hrange : ∀ l, (range l).Perm l) :
    (NewMemoryCheckpointStore.WellFormed ∧ ∀ id, NewMemoryCheckpointStore.view id = none) ∧
    (∀ id, m.Load id = m.view.load id) ∧
    (∀ c, (m.Save c).WellFormed ∧ ∀ id, (m.Save c).view id = (m.view.save c) id) ∧
    (∀ d, (m.Delete d).WellFormed ∧ ∀ id, (m.Delete d).view id = (m.view.delete d) id) ∧
    (∀ t, (m.Clear t).WellFormed ∧ ∀ id, (m.Clear t).view id = (m.view.clear t) id) ∧
    (∀ t, ((m.List range t).map Checkpoint.ID).Nodup ∧
      ∀ c, c ∈ m.List range t ↔ (m.view c.ID = some c ∧ c.filedUnder t = true)) ∧
    ∀ t, (m.Clear t).List range t = [] ∧
      ∀ t', t' ≠ t → ∀ c, c ∈ (m.Clear t).List range t' ↔ c ∈ m.List range t' := by
  have hclearwf : ∀ t, (m.Clear t).WellFormed :=
    fun t => wellFormed_filter m (fun kv => !kv.2.filedUnder t) hwf
  refine ⟨⟨⟨by simp [NewMemoryCheckpointStore, mapKeys], fun kv hkv => by cases hkv⟩,
    fun id => rfl⟩, fun id => rfl, ?_, ?_, ?_, ?_, ?_⟩
  · intro c
    refine ⟨wellFormed_save m c hwf, fun id => ?_⟩
    simp only [MemoryCheckpointStore.view, MemoryCheckpointStore.Save, CheckpointMap.save]
    by_cases h : id = c.ID
    · rw [if_pos h, h, mapGet_mapSet_self]
    · rw [if_neg h, mapGet_mapSet_ne _ _ _ _ h]
  · intro d
    refine ⟨wellFormed_filter m (fun kv => decide (kv.1 ≠ d)) hwf, fun id => ?_⟩
    simp only [MemoryCheckpointStore.view, MemoryCheckpointStore.Delete, CheckpointMap.delete]
    rw [mapGet_filter_key m.checkpoints (fun k => decide (k ≠ d)) id]
    by_cases h : id = d
    · simp [h]
    · simp [h]
  · intro t
    exact ⟨hclearwf t, view_clear m hwf t⟩
  · intro t
    exact ⟨list_ids_nodup m range hwf hrange t, mem_list_iff m range hwf hrange t⟩
  · intro t
    constructor
    · apply List.eq_nil_iff_forall_not_mem.2
      intro c hc
      obtain ⟨h1, h2⟩ := (mem_list_iff (m.Clear t) range (hclearwf t) hrange t c).1 hc
      rw [view_clear m hwf t c.ID] at h1
      simp only [CheckpointMap.clear] at h1
      cases hv : m.view c.ID with
      | none => simp [hv, Option.filter] at h1
      | some c' =>
        simp only [hv, Option.filter] at h1
        split at h1
        · rename_i hf
          cases h1
          simp [h2] at hf
        · cases h1
    · intro t' hne c
      rw [mem_list_iff (m.Clear t) range (hclearwf t) hrange t' c,
        mem_list_iff m range hwf hrange t' c, view_clear m hwf t c.ID]
      constructor
      · rintro ⟨h1, h2⟩
        refine ⟨?_, h2⟩
        simp only [CheckpointMap.clear] at h1
        cases hv : m.view c.ID with
        | none => simp [hv, Option.filter] at h1
        | some c' =>
          simp only [hv, Option.filter] at h1
          split at h1
          · exact h1
          · cases h1
      · rintro ⟨h1, h2⟩
        refine ⟨?_, h2⟩
        have hnot : c.filedUnder t = false := by
          cases hf : c.filedUnder t with
          | false => rfl
          | true => exact absurd (filedUnder_unique c t t' hf h2).symm hne
        simp [CheckpointMap.clear, h1, Option.filter, hnot]

/-- Witness of C24: a store of three checkpoints, two of them of thread `t1`,
ranged over from the last entry to the first. -/
theorem store_refines_map_witness :
    threeCheckpointStore.List List.reverse "t1" =
      [{ ID := "c3", NodeName := "C", State := .int 3, Version := 2,
         Metadata := [("execution_id", .str "t1")] },
       { ID := "c1", NodeName := "A", State := .int 1, Version := 1,
         Metadata := [("execution_id", .str "t1")] }] ∧
    (threeCheckpointStore.Clear "t1").List List.reverse "t1" = [] ∧
    ∀ t', t' ≠ "t1" → ∀ c, c ∈ (threeCheckpointStore.Clear "t1").List List.reverse t' ↔
      c ∈ threeCheckpointStore.List List.reverse t' :=
  ⟨by decide,
    (store_refines_map threeCheckpointStore List.reverse ⟨by decide, by decide⟩
      (fun l => List.reverse_perm l)).2.2.2.2.2.2 "t1"⟩

/-! ## Order of List, versions and threads of the checkpoints -/

/-- C25 (the code departs from the claim): `List` does not sort; it returns the
checkpoints of the thread in the order in which the map is ranged over, which
Go leaves unspecified. On the store left by two calls of `UpdateState`, ranged
over from the last entry to the first, `List` returns version 2 before
version 1; `GetState` then takes the older `{count: 1}` for the latest state,
and a further `UpdateState` merges into it and saves a second checkpoint of
version 2. -/
theorem List_not_sorted_by_version (range : RangeOrder) (m : MemoryCheckpointStore)
    (t : String) :
    m.List range t =
      ((range m.checkpoints).map Prod.snd).filter (fun c => c.filedUnder t) ∧
    (∃ config1 store1 config2,
      (updateStateRunnable countSchema.toSchema).UpdateState id 10 NewMemoryCheckpointStore
          (some (threadConfig "exec_0")) (countState 1) "human" = .ok (config1, store1) ∧
      (updateStateRunnable countSchema.toSchema).UpdateState id 20 store1
          (some (threadConfig "exec_0")) (countState 2) "human" =
        .ok (config2, twoUpdatesStore)) ∧
    (twoUpdatesStore.List List.reverse "exec_0").map Checkpoint.Version = [2, 1] ∧
    (∃ snapshot,
      (updateStateRunnable countSchema.toSchema).GetState List.reverse twoUpdatesStore
          (some (threadConfig "exec_0")) = .ok snapshot ∧
      snapshot.Values = countState 1) ∧
    ∃ config3 store3 checkpoint,
      (updateStateRunnable countSchema.toSchema).UpdateState List.reverse 30 twoUpdatesStore
          (some (threadConfig "exec_0")) (countState 5) "human" = .ok (config3, store3) ∧
      store3.Load "checkpoint_30" = .ok checkpoint ∧
      checkpoint.State = countState 6 ∧ checkpoint.Version = 2 :=
  ⟨rfl, ⟨_, _, _, rfl, rfl⟩, by decide, ⟨_, rfl, rfl⟩, ⟨_, _, _, rfl, rfl, rfl, rfl⟩⟩
theorem saveEvents_mem (autoSave : Bool) (executionID : String) (clock : Nat → Int)
    (events : List (String × Value)) :
    ∀ (i : Nat) (store : MemoryCheckpointStore) (kv : String × Checkpoint),
      kv ∈ (saveEvents autoSave executionID clock i events store).checkpoints →
      kv ∈ store.checkpoints ∨
        (kv.2.Version = 1 ∧ kv.2.filedUnder executionID = true) := by
  induction events with
  | nil => intro i store kv h; exact Or.inl h
  | cons ev rest ih =>
    intro i store kv h
    obtain ⟨stepNode, state⟩ := ev
    simp only [saveEvents] at h
    rcases ih _ _ kv h with h1 | h1
    · cases hog : CheckpointListener.OnGraphStep autoSave executionID (clock i) stepNode state with
      | none =>
        rw [hog] at h1
        exact Or.inl h1
      | some checkpoint =>
        rw [hog] at h1
        rcases mem_mapSet _ _ _ kv h1 with h2 | h2
        · right
          simp only [CheckpointListener.OnGraphStep] at hog
          split at hog
          · cases hog
          · simp only [Option.some.injEq] at hog
            subst hog
            subst h2
            exact ⟨rfl, by simp [Checkpoint.filedUnder, mapGet]⟩
        · exact Or.inl h2
    · exact Or.inr h1

/-- C26 (the code departs from the claim): the checkpoint listener gives every
step checkpoint the version 1, whatever the thread holds. After a run (step
checkpoint of version 1), an `UpdateState` (version 2) and a second run on the
same thread, the versions in the order of the saves are 1, 2, 1; and the two
step checkpoints of one run of the time-travel graph both have version 1. -/
theorem step_checkpoints_have_version_one (autoSave : Bool) (executionID : String)
    (now : Int) (stepNode : String) (state : Value) :
    (CheckpointListener.OnGraphStep autoSave executionID now stepNode state).map
        Checkpoint.Version = (if autoSave then some 1 else none) ∧
    (∃ store1 config store2,
      (updateStateRunnable countSchema.toSchema).InvokeWithConfig (fun i => i + 1) 2 background
          NewMemoryCheckpointStore (countState 10) none =
        (.returned (countState 11) none, store1) ∧
      (updateStateRunnable countSchema.toSchema).UpdateState id 10 store1
          (some (threadConfig "exec_0")) (countState 5) "human" = .ok (config, store2) ∧
      (((updateStateRunnable countSchema.toSchema).InvokeWithConfig (fun i => i + 20) 2
          background store2 (countState 0) none).2.checkpoints.map
            (fun kv => (kv.2.ID, kv.2.filedUnder "exec_0", kv.2.Version))) =
        [("checkpoint_1", true, 1), ("checkpoint_10", true, 2), ("checkpoint_20", true, 1)]) ∧
    (((timeTravelRunnable 0).InvokeWithConfig (fun i => i + 1) 3 background
        NewMemoryCheckpointStore (countState 0) (some timeTravelConfig)).2.checkpoints.map
          (fun kv => (kv.2.NodeName, kv.2.Version))) =
      [("step:[A]", 1), ("step:[B]", 1)] := by
  refine ⟨?_, ⟨_, _, _, rfl, rfl, by decide⟩, by decide⟩
  cases autoSave <;> rfl

/-- C27 (the code departs from the claim): the checkpoint listener is created
with the execution id of the runnable and never reads the config, so a run adds
no checkpoint to any other thread: every checkpoint `List(t)` returns after the
run, for `t` other than the execution id, was in the store before. -/
theorem step_checkpoints_ignore_thread_id (cr : CheckpointableRunnable) (clock : Nat → Int)
    (fuel : Nat) (ctx : Context) (store : MemoryCheckpointStore) (initialState : Value)
    (config : Option Config) (range : RangeOrder) (t : String)
    (hrange : ∀ l, (range l).Perm l) (ht : t ≠ cr.executionID) :
    ∀ c, c ∈ (cr.InvokeWithConfig clock fuel ctx store initialState config).2.List range t →
      c ∈ store.checkpoints.map Prod.snd := by
  intro c hc
  simp only [MemoryCheckpointStore.List, List.mem_filter] at hc
  obtain ⟨hmem, hfiled⟩ := hc
  rw [((hrange _).map Prod.snd).mem_iff] at hmem
  obtain ⟨kv, hkv, hsnd⟩ := List.mem_map.1 hmem
  rcases saveEvents_mem _ _ _ _ _ _ kv hkv with h | ⟨_, h⟩
  · exact List.mem_map.2 ⟨kv, h, hsnd⟩
  · rw [hsnd] at h
    exact absurd (filedUnder_unique c _ _ hfiled h) ht

/-- The failing input of C27: the first run of `examples/time_travel` with
`thread_id = thread_1` on an empty store leaves nothing listed for `thread_1`
(so `GetState` with that thread finds a nil state), its two step checkpoints
being filed under the execution id `exec_0`. -/
theorem step_checkpoints_ignore_thread_id_witness :
    (∀ c, c ∈ ((timeTravelRunnable 0).InvokeWithConfig (fun i => i + 1) 3 background
        NewMemoryCheckpointStore (countState 0) (some timeTravelConfig)).2.List id "thread_1" →
      c ∈ NewMemoryCheckpointStore.checkpoints.map Prod.snd) ∧
    ((timeTravelRunnable 0).InvokeWithConfig (fun i => i + 1) 3 background
        NewMemoryCheckpointStore (countState 0) (some timeTravelConfig)).2.List id "thread_1" =
      [] ∧
    (((timeTravelRunnable 0).InvokeWithConfig (fun i => i + 1) 3 background
        NewMemoryCheckpointStore (countState 0) (some timeTravelConfig)).2.List id "exec_0").map
        Checkpoint.State = [countState 1, countState 11] ∧
    ∃ snapshot,
      (timeTravelRunnable 0).GetState id
          ((timeTravelRunnable 0).InvokeWithConfig (fun i => i + 1) 3 background
            NewMemoryCheckpointStore (countState 0) (some timeTravelConfig)).2
          (some timeTravelConfig) = .ok snapshot ∧
      snapshot.Values = .nil :=
  ⟨step_checkpoints_ignore_thread_id (timeTravelRunnable 0) (fun i => i + 1) 3 background
      NewMemoryCheckpointStore (countState 0) (some timeTravelConfig) id "thread_1"
      (fun l => List.Perm.refl l) (by decide),
    by decide, by decide, ⟨_, rfl, rfl⟩⟩

/-! ## The listenable runnable against the runnable -/

/-- C28 (the code departs from the claim): `ListenableRunnable.InvokeWithConfig`
is a loop of its own over one node at a time, following the first static edge.
Compiled from the same declarations, on a fan-out `Runnable` runs B and C and
returns `C` where the listenable runnable runs B alone and returns `B`; on a
conditional edge `Runnable` returns `A` where the listenable runnable fails
with `ErrNoOutgoingEdge`; with `interrupt_before = [B]` `Runnable` returns a
`GraphInterrupt` where the listenable runnable runs through; and the error of
a node is returned wrapped by `Runnable` and bare by the listenable runnable. -/
theorem listenable_differs_from_runnable :
    (fanOutGraph.runnable.InvokeWithConfig 3 background (.str "Start") none =
        .returned (.str "C") none ∧
      (fanOutGraph.runnable.run 3 background (.str "Start") none).steps.map Prod.fst =
        [["A"], ["B", "C"]] ∧
      fanOutGraph.listenable.InvokeWithConfig 3 background (.str "Start") none =
        { outcome := .returned (.str "B") none,
          events := [("step:[A]", .str "A"), ("step:[B]", .str "B")] }) ∧
    (conditionalGraph.runnable.InvokeWithConfig 3 background (.str "Start") none =
        .returned (.str "A") none ∧
      (conditionalGraph.listenable.InvokeWithConfig 3 background (.str "Start") none).outcome =
        .returned .nil (some ErrNoOutgoingEdge)) ∧
    (timeTravelGraph.toListenableMessageGraph.runnable.InvokeWithConfig 3 background
        (countState 0) (some timeTravelConfig) =
        .returned (countState 1) (some (.graphInterrupt "B" (countState 1) [] .nil)) ∧
      (timeTravelGraph.toListenableMessageGraph.listenable.InvokeWithConfig 3 background
        (countState 0) (some timeTravelConfig)).outcome = .returned (countState 11) none) ∧
    (failingGraph.runnable.InvokeWithConfig 3 background (.str "Start") none =
        .returned .nil (some (.wrapError "error in node A: " (.errorString "boom") "")) ∧
      (failingGraph.listenable.InvokeWithConfig 3 background (.str "Start") none).outcome =
        .returned .nil (some (.errorString "boom"))) := by
  refine ⟨⟨by decide, by decide, by decide⟩, ⟨by decide, by decide⟩, ⟨by decide, by decide⟩,
    ⟨by decide, by decide⟩⟩

/-! ## Errors of the reducers -/

/-- C29 (the code departs from the claim): on incompatible element types
`AppendReducer` does not return an error, it panics: `reflect.AppendSlice` on
slices of different element types, and `reflect.Append` of a value that is not
assignable to the element type (the nil interface included), as for a `[]string`
and an `int` or a `[]int`. It returns an error only when `current` is non-nil
and not a slice. -/
theorem AppendReducer_mismatch_panics :
    (∀ (t u : GoType) (xs ys : List Value), t ≠ u →
      AppendReducer (.slice t xs) (.slice u ys) = .panic) ∧
    (∀ (t u : GoType) (xs : List Value) (new : Value), isSlice new = false →
      typeOf new = some u → assignableTo u t = false →
      AppendReducer (.slice t xs) new = .panic) ∧
    (∀ (t : GoType) (xs : List Value), AppendReducer (.slice t xs) .nil = .panic) ∧
    AppendReducer (.slice .string [.str "a"]) (.int 1) = .panic ∧
    AppendReducer (.slice .string [.str "a"]) (.slice .int [.int 1]) = .panic ∧
    ∀ current new, current ≠ .nil → isSlice current = false →
      AppendReducer current new = .err (.errorString "current value is not a slice") := by
  refine ⟨?_, ?_, ?_, by decide, by decide, ?_⟩
  · intro t u xs ys h
    simp [AppendReducer, h]
  · intro t u xs new hs ht ha
    cases new <;> simp_all [AppendReducer, isSlice]
  · intro t xs
    simp [AppendReducer, typeOf]
  · intro current new hnil hs
    cases current <;> simp_all [AppendReducer, isSlice]

/-- C30: for a `current` that is neither nil nor a slice, `AddMessages` returns
the error `current value is not a slice` and no value, whatever `new` is. -/
theorem AddMessages_not_slice (current new : Value) (hnil : current ≠ .nil)
    (hslice : isSlice current = false) :
    AddMessages current new = .err (.errorString "current value is not a slice") := by
  cases current <;> simp_all [AddMessages, isSlice]

/-- Witness of C30: a map as `current`. -/
theorem AddMessages_not_slice_witness :
    AddMessages (.map [("id", .str "1")]) (TestMessage "2" "Second") =
      .err (.errorString "current value is not a slice") :=
  AddMessages_not_slice (.map [("id", .str "1")]) (TestMessage "2" "Second")
    (by simp) rfl

/-! ## NextNodes of the interrupt-before gate -/

/-- C31 (the code departs from the claim): the `GraphInterrupt` of the
interrupt-before gate is built with `Node` and `State` only, so its `NextNodes`
is nil although the frontier holds at least the interrupting node; the
interrupt-after gate and the dynamic interrupt do fill `NextNodes`. Resuming
with `resume_from = NextNodes` therefore restarts at the entry point. -/
theorem interrupt_before_NextNodes_nil (r : Runnable) (c : Config) (ctx : Context)
    (state : Value) (frontier : List String) (h : ∃ n ∈ frontier, n ∈ c.InterruptBefore) :
    ∃ node, node ∈ frontier ∧ frontier ≠ [] ∧
      r.superStep (some c) ctx state frontier =
        .ret state (some (.graphInterrupt node state [] .nil)) [] := by
  obtain ⟨node, pre, post, happ, _, _, hgate⟩ := interruptGate_first c.InterruptBefore frontier h
  refine ⟨node, by rw [happ]; simp, by rw [happ]; simp, ?_⟩
  simp [Runnable.superStep, hgate]

/-- The failing input of C31: the time-travel graph compiled by `Compile`,
interrupted before B on `{count: 0}`. The interrupt at B carries no next node;
the invocation resumed from these `NextNodes` on the interrupted state starts
at A again and returns `{count: 12}`, where resuming from the frontier `[B]`
returns `{count: 11}`. -/
theorem interrupt_before_NextNodes_nil_witness :
    (∃ node, node ∈ ["B"] ∧ ["B"] ≠ [] ∧
      timeTravelGraph.toListenableMessageGraph.runnable.superStep (some timeTravelConfig)
          background (countState 1) ["B"] =
        .ret (countState 1) (some (.graphInterrupt node (countState 1) [] .nil)) []) ∧
    timeTravelGraph.toListenableMessageGraph.runnable.InvokeWithConfig 3 background
        (countState 0) (some timeTravelConfig) =
      .returned (countState 1) (some (.graphInterrupt "B" (countState 1) [] .nil)) ∧
    timeTravelGraph.toListenableMessageGraph.runnable.InvokeWithConfig 3 background
        (countState 1) (some (resumeFrom [])) = .returned (countState 12) none ∧
    timeTravelGraph.toListenableMessageGraph.runnable.InvokeWithConfig 3 background
        (countState 1) (some (resumeFrom ["B"])) = .returned (countState 11) none :=
  ⟨interrupt_before_NextNodes_nil timeTravelGraph.toListenableMessageGraph.runnable
      timeTravelConfig background (countState 1) ["B"] ⟨"B", by simp, by decide⟩,
    by decide, by decide, by decide⟩
/-! ## Duplicates in the frontier -/

theorem setInsert_nodup (set : List String) (n : String) (h : set.Nodup) :
    (setInsert set n).Nodup := by
  unfold setInsert
  split
  · exact h
  · rename_i hn
    have hmem : n ∉ set := by simpa using hn
    exact List.nodup_append.2 ⟨h, List.nodup_singleton n, by
      intro a ha hb
      simp only [List.mem_singleton] at hb
      subst hb
      exact hmem ha⟩

theorem foldl_setInsert_nodup (xs : List String) : ∀ set : List String, set.Nodup →
    (xs.foldl setInsert set).Nodup := by
  induction xs with
  | nil => intro set h; exact h
  | cons x xs ih => intro set h; exact ih _ (setInsert_nodup set x h)

theorem staticNext_nodup (g : MessageGraph) (ctx : Context) (state : Value)
    (cur : List String) : ∀ (set next : List String), set.Nodup →
    staticNext g ctx state cur set = .ok next → next.Nodup := by
  induction cur with
  | nil =>
    intro set next hs h
    simp only [staticNext, Res.ok.injEq] at h
    subst h
    exact hs
  | cons c rest ih =>
    intro set next hs h
    unfold staticNext at h
    split at h
    · split at h
      · cases h
      · exact ih _ next (setInsert_nodup _ _ hs) h
    · split at h
      · cases h
      · exact ih _ next (foldl_setInsert_nodup _ _ hs) h

theorem dedupGoto_nodup (l : List String) : ∀ seen : List String,
    (dedupGoto l seen).Nodup ∧ ∀ x ∈ dedupGoto l seen, x ∉ seen := by
  induction l with
  | nil => intro seen; simp [dedupGoto]
  | cons n rest ih =>
    intro seen
    unfold dedupGoto
    split
    · rename_i hcond
      have hn : n ∉ seen := by
        intro hmem
        simp [hmem] at hcond
      obtain ⟨h1, h2⟩ := ih (n :: seen)
      refine ⟨List.nodup_cons.2 ⟨fun hmem => h2 n hmem (List.mem_cons_self _ _), h1⟩, ?_⟩
      intro x hx
      rcases List.mem_cons.1 hx with h | h
      · subst h; exact hn
      · exact fun hs => h2 x h (List.mem_cons_of_mem _ hs)
    · exact ih seen

theorem mergeAndRoute_nodup (g : MessageGraph) (ctx : Context) (state st : Value)
    (cur next : List String) (results : List Value)
    (h : mergeAndRoute g ctx state cur results = .ok (st, next)) : next.Nodup := by
  unfold mergeAndRoute at h
  split at h
  · rename_i state' _
    split at h
    · rename_i nextNodesList hnext
      simp only [Res.ok.injEq, Prod.mk.injEq] at h
      obtain ⟨_, h2⟩ := h
      subst h2
      unfold determineNext at hnext
      split at hnext
      · simp only [Res.ok.injEq] at hnext
        subst hnext
        exact (dedupGoto_nodup _ []).1
      · exact staticNext_nodup g ctx state' cur [] _ List.nodup_nil hnext
    · cases h
    · cases h
  · cases h
  · cases h

theorem runnable_next_nodup (r : Runnable) (config : Option Config) (ctx : Context)
    (state st : Value) (cur next ran : List String)
    (h : r.superStep config ctx state cur = .next st next ran) : next.Nodup := by
  unfold Runnable.superStep at h
  split at h
  · cases h
  · cases hl : lookupNodes r.graph.nodes cur with
    | error e => rw [hl] at h; cases h
    | ok nodes =>
      rw [hl] at h
      simp only at h
      split at h
      · cases h
      · split at h
        · split at h <;> cases h
        · split at h
          · cases h
          · cases h
          · rename_i state' nextNodesList hmr
            split at h
            · cases h
            · simp only [StepOut.next.injEq] at h
              obtain ⟨_, h2, _⟩ := h
              subst h2
              exact mergeAndRoute_nodup _ _ _ _ _ _ _ hmr

theorem runnable_ran_sublist (r : Runnable) (config : Option Config) (ctx : Context)
    (state : Value) (currentNodes : List String) :
    (r.superStep config ctx state currentNodes).ran.Sublist currentNodes := by
  unfold Runnable.superStep
  split
  · simp [StepOut.ran]
  · cases lookupNodes r.graph.nodes currentNodes with
    | error e => exact List.takeWhile_sublist _
    | ok nodes =>
      simp only
      split
      · exact List.Sublist.refl _
      · split
        · split
          · exact List.Sublist.refl _
          · exact List.Sublist.refl _
        · split
          · exact List.Sublist.refl _
          · exact List.Sublist.refl _
          · split
            · exact List.Sublist.refl _
            · exact List.Sublist.refl _

theorem runLoop_nodup (step : Value → List String → StepOut)
    (hnext : ∀ state cur st next ran, step state cur = .next st next ran → next.Nodup)
    (hran : ∀ state cur, (step state cur).ran.Sublist cur) :
    ∀ (fuel : Nat) (state : Value) (frontier : List String),
      (∀ s ∈ (runLoop step fuel state frontier).steps.tail, s.1.Nodup) ∧
      (frontier.Nodup → ∀ s ∈ (runLoop step fuel state frontier).steps, s.1.Nodup) := by
  intro fuel
  induction fuel with
  | zero => intro state frontier; simp [runLoop]
  | succ fuel ih =>
    intro state frontier
    have hfirst : frontier.Nodup →
        (step state (frontier.filter (fun node => node != END))).ran.Nodup :=
      fun h => List.Nodup.sublist (hran _ _) (h.filter _)
    unfold runLoop
    split
    · simp
    · split
      · rename_i st err ran hs
        refine ⟨by simp, fun h s hmem => ?_⟩
        simp only [List.mem_singleton] at hmem
        subst hmem
        have := hfirst h
        rw [hs] at this
        exact this
      · rename_i ran hs
        refine ⟨by simp, fun h s hmem => ?_⟩
        simp only [List.mem_singleton] at hmem
        subst hmem
        have := hfirst h
        rw [hs] at this
        exact this
      · rename_i st nodes ran hs
        have hrec := (ih st nodes).2 (hnext _ _ _ _ _ hs)
        refine ⟨fun s hmem => hrec s (by simpa using hmem), fun h s hmem => ?_⟩
        rcases List.mem_cons.1 hmem with h1 | h1
        · subst h1
          have := hfirst h
          rw [hs] at this
          exact this
        · exact hrec s h1

/-- Counterexample to C32 as stated: `config.ResumeFrom` is taken verbatim, so
with `resume_from = [B, B]` the first super-step calls the function of B
twice. -/
theorem resume_from_duplicates_run_twice :
    initialNodes fanOutGraph.runnable.graph.entryPoint (some (resumeFrom ["B", "B"])) =
      ["B", "B"] ∧
    (fanOutGraph.runnable.run 2 background (.str "Start")
      (some (resumeFrom ["B", "B"]))).steps = [(["B", "B"], .str "Start")] ∧
    fanOutGraph.runnable.InvokeWithConfig 2 background (.str "Start")
      (some (resumeFrom ["B", "B"])) = .returned (.str "B") none := by
  refine ⟨by decide, by decide, by decide⟩

/-- C32, amended: in every super-step of `Runnable.InvokeWithConfig` after the
first, the executed frontier holds no node name twice, whether it came from
static or conditional edges (a join node is scheduled once) or from Command
goto; the first super-step executes the initial frontier, which is the entry
point alone unless `config.ResumeFrom` is not empty, and then that list as it
is: without duplicates exactly when the caller lists no node twice. -/
theorem frontier_nodup (r : Runnable) (config : Option Config) (ctx : Context) (fuel : Nat)
    (initialState : Value) :
    (∀ s ∈ (r.run fuel ctx initialState config).steps.tail, s.1.Nodup) ∧
    ((initialNodes r.graph.entryPoint config).Nodup →
      ∀ s ∈ (r.run fuel ctx initialState config).steps, s.1.Nodup) ∧
    ((∀ c, config = some c → c.ResumeFrom = []) →
      initialNodes r.graph.entryPoint config = [r.graph.entryPoint] ∧
      ∀ s ∈ (r.run fuel ctx initialState config).steps, s.1.Nodup) := by
  have key := runLoop_nodup (r.superStep config (invokeContext ctx config))
    (fun state cur st next ran h => runnable_next_nodup r config _ state st cur next ran h)
    (fun state cur => runnable_ran_sublist r config _ state cur)
    fuel initialState (initialNodes r.graph.entryPoint config)
  refine ⟨key.1, key.2, ?_⟩
  intro hres
  have hinit : initialNodes r.graph.entryPoint config = [r.graph.entryPoint] := by
    cases config with
    | none => rfl
    | some c => simp [initialNodes, hres c rfl]
  refine ⟨hinit, key.2 ?_⟩
  rw [hinit]
  exact List.nodup_singleton _

/-- Witness of C32 as amended: the join graph runs D once, after B and C. -/
theorem frontier_nodup_witness :
    ((Runnable.mk joinGraph).run 4 background (.str "Start") none).steps.map Prod.fst =
      [["A"], ["B", "C"], ["D"]] ∧
    ∀ s ∈ ((Runnable.mk joinGraph).run 4 background (.str "Start") none).steps, s.1.Nodup :=
  ⟨by decide,
    ((frontier_nodup (Runnable.mk joinGraph) none background 4 (.str "Start")).2.2
      (fun c hc => by cases hc)).2⟩

/-! ## emitEvent -/

theorem emitEvent_dropped (sl : StreamingListener) (eventChan : List StreamEvent)
    (event : StreamEvent) :
    (sl.emitEvent eventChan event).1.droppedEvents = sl.droppedEvents ∨
    (sl.emitEvent eventChan event).1.droppedEvents = wrapInt64 (sl.droppedEvents + 1) := by
  unfold StreamingListener.emitEvent
  split
  · exact Or.inl rfl
  · split
    · exact Or.inl rfl
    · split
      · exact Or.inl rfl
      · split
        · exact Or.inr rfl
        · exact Or.inl rfl

theorem streamFold_dropped (ops : List StreamOp) :
    ∀ (s : StreamState) (k : Nat), 0 ≤ s.listener.droppedEvents →
      s.listener.droppedEvents ≤ k → ((k + ops.length : Nat) : Int) < 2 ^ 63 - 1 →
      0 ≤ (ops.foldl StreamState.step s).listener.droppedEvents ∧
      (ops.foldl StreamState.step s).listener.droppedEvents ≤ ((k + ops.length : Nat) : Int) := by
  induction ops with
  | nil => intro s k h0 h1 _; simpa using ⟨h0, h1⟩
  | cons op rest ih =>
    intro s k h0 h1 hlen
    simp only [List.length_cons] at hlen
    have hstep : 0 ≤ (s.step op).listener.droppedEvents ∧
        (s.step op).listener.droppedEvents ≤ ((k + 1 : Nat) : Int) := by
      cases op with
      | call c =>
        simp only [StreamState.step]
        cases c.event with
        | none => simp only; omega
        | some event =>
          simp only
          rcases emitEvent_dropped s.listener s.eventChan event with h | h
          · rw [h]; omega
          · rw [h, wrapInt64_of_range _ ⟨by omega, by omega⟩]; omega
      | receive =>
        simp only [StreamState.step]
        split
        · omega
        · simp only
          omega
      | close =>
        simp only [StreamState.step, StreamingListener.Close]
        omega
    have := ih (s.step op) (k + 1) hstep.1 hstep.2 (by
      have : k + 1 + rest.length = k + (rest.length + 1) := by omega
      rw [this]
      exact hlen)
    have harg : k + (rest.length + 1) = k + 1 + rest.length := by omega
    simp only [List.foldl_cons, List.length_cons]
    rw [harg]
    exact this

/-- C33: on the event channel taken as a FIFO queue of capacity `BufferSize`,
`emitEvent` is a single non-blocking attempt. A closed listener, and an event
the mode filters out, change neither the queue nor the counter; an event that
passes the filter is appended when the queue holds fewer than `BufferSize`
events; otherwise it is discarded, the counter of dropped events growing by
exactly one when `EnableBackpressure` is set and staying as it is otherwise. A
queue within its capacity stays within it. The counter is taken below the
largest 64-bit integer, as it is in every session of fewer than `2^63 - 1`
operations on a new listener. -/
theorem emitEvent_spec (sl : StreamingListener) (eventChan : List StreamEvent)
    (event : StreamEvent)
    (hcount : -2 ^ 63 ≤ sl.droppedEvents ∧ sl.droppedEvents + 1 < 2 ^ 63) :
    (sl.closed = true → sl.emitEvent eventChan event = (sl, eventChan)) ∧
    (sl.shouldEmit event = false → sl.emitEvent eventChan event = (sl, eventChan)) ∧
    (sl.closed = false → sl.shouldEmit event = true →
      (eventChan.length : Int) < sl.config.BufferSize →
      sl.emitEvent eventChan event = (sl, eventChan ++ [event])) ∧
    (sl.closed = false → sl.shouldEmit event = true →
      sl.config.BufferSize ≤ (eventChan.length : Int) →
      (sl.emitEvent eventChan event).2 = eventChan ∧
      (sl.emitEvent eventChan event).1.GetDroppedEventsCount =
        (if sl.config.EnableBackpressure then sl.droppedEvents + 1 else sl.droppedEvents) ∧
      (sl.emitEvent eventChan event).1.config = sl.config ∧
      (sl.emitEvent eventChan event).1.closed = false) ∧
    ((eventChan.length : Int) ≤ sl.config.BufferSize →
      (((sl.emitEvent eventChan event).2.length : Nat) : Int) ≤ sl.config.BufferSize) ∧
    sl.Close.emitEvent eventChan event = (sl.Close, eventChan) ∧
    ∀ (config : StreamConfig) (ops : List StreamOp), (ops.length : Int) < 2 ^ 63 - 1 →
      0 ≤ (streamSession config ops).listener.droppedEvents ∧
      (streamSession config ops).listener.droppedEvents ≤ ops.length := by
  refine ⟨?_, ?_, ?_, ?_, ?_, ?_, ?_⟩
  · intro h
    simp [StreamingListener.emitEvent, h]
  · intro h
    simp [StreamingListener.emitEvent, h]
  · intro hc he hlen
    simp [StreamingListener.emitEvent, hc, he, hlen]
  · intro hc he hfull
    have hnot : ¬ (eventChan.length : Int) < sl.config.BufferSize := by omega
    by_cases hb : sl.config.EnableBackpressure = true
    · simp [StreamingListener.emitEvent, hc, he, hnot, hb, StreamingListener.handleBackpressure,
        StreamingListener.GetDroppedEventsCount,
        wrapInt64_of_range (sl.droppedEvents + 1) ⟨by omega, hcount.2⟩]
    · have hb' : sl.config.EnableBackpressure = false := by simpa using hb
      simp [StreamingListener.emitEvent, hc, he, hnot, hb',
        StreamingListener.GetDroppedEventsCount]
  · intro hle
    unfold StreamingListener.emitEvent
    split
    · exact hle
    · split
      · exact hle
      · split
        · rename_i hlt
          simp only [List.length_append, List.length_singleton]
          omega
        · split
          · exact hle
          · exact hle
  · simp [StreamingListener.emitEvent, StreamingListener.Close]
  · intro config ops hlen
    have := streamFold_dropped ops
      { listener := NewStreamingListener config, eventChan := [], delivered := [] } 0
      (by simp [NewStreamingListener]) (by simp [NewStreamingListener])
      (by simpa using hlen)
    simpa [streamSession] using this

/-- Witness of C33: a queue of capacity 1 already holding a graph step, in
`values` mode with back-pressure: the next graph step is discarded and the
counter goes from 0 to 1. -/
theorem emitEvent_spec_witness :
    ((NewStreamingListener
        { BufferSize := 1, EnableBackpressure := true, MaxDroppedEvents := 100,
          Mode := "values" }).emitEvent
      [{ NodeName := "step:[A]", Event := "graph_step", State := .str "A", Error := none,
         Metadata := [] }]
      { NodeName := "step:[B]", Event := "graph_step", State := .str "B", Error := none,
        Metadata := [] }).2 =
      [{ NodeName := "step:[A]", Event := "graph_step", State := .str "A", Error := none,
         Metadata := [] }] ∧
    ((NewStreamingListener
        { BufferSize := 1, EnableBackpressure := true, MaxDroppedEvents := 100,
          Mode := "values" }).emitEvent
      [{ NodeName := "step:[A]", Event := "graph_step", State := .str "A", Error := none,
         Metadata := [] }]
      { NodeName := "step:[B]", Event := "graph_step", State := .str "B", Error := none,
        Metadata := [] }).1.GetDroppedEventsCount = 1 :=
  ⟨((emitEvent_spec
      (NewStreamingListener
        { BufferSize := 1, EnableBackpressure := true, MaxDroppedEvents := 100,
          Mode := "values" })
      [{ NodeName := "step:[A]", Event := "graph_step", State := .str "A", Error := none,
         Metadata := [] }]
      { NodeName := "step:[B]", Event := "graph_step", State := .str "B", Error := none,
        Metadata := [] }
      (by decide)).2.2.2.1 rfl (by decide) (by decide)).1,
    by decide⟩

/-! ## The next frontier from the edges -/

theorem staticNext_mem (g : MessageGraph) (ctx : Context) (state : Value)
    (cur : List String) : ∀ (set next : List String),
    staticNext g ctx state cur set = .ok next →
      ∀ n, n ∈ next ↔ n ∈ set ∨ ∃ c ∈ cur,
        (∃ fn, mapGet g.conditionalEdges c = some fn ∧ n = fn ctx state) ∨
        (mapGet g.conditionalEdges c = none ∧ ∃ e ∈ g.edges, e.From = c ∧ e.To = n) := by
  induction cur with
  | nil =>
    intro set next h n
    simp only [staticNext, Res.ok.injEq] at h
    subst h
    simp
  | cons c rest ih =>
    intro set next h n
    unfold staticNext at h
    split at h
    · rename_i fn hfn
      split at h
      · cases h
      · rw [ih _ next h n, mem_setInsert]
        constructor
        · rintro ((h1 | h1) | ⟨c', hc', hrest⟩)
          · exact Or.inl h1
          · exact Or.inr ⟨c, List.mem_cons_self _ _, Or.inl ⟨fn, hfn, h1⟩⟩
          · exact Or.inr ⟨c', List.mem_cons_of_mem _ hc', hrest⟩
        · rintro (h1 | ⟨c', hc', hrest⟩)
          · exact Or.inl (Or.inl h1)
          · rcases List.mem_cons.1 hc' with h2 | h2
            · subst h2
              rcases hrest with ⟨fn', hfn', hn⟩ | ⟨hnone, _⟩
              · rw [hfn] at hfn'
                cases hfn'
                exact Or.inl (Or.inr hn)
              · rw [hfn] at hnone
                cases hnone
            · exact Or.inr ⟨c', h2, hrest⟩
    · rename_i hnone
      split at h
      · cases h
      · rw [ih _ next h n, mem_foldl_setInsert]
        have hedge : n ∈ (g.edges.filter (fun e => decide (e.From = c))).map Edge.To ↔
            ∃ e ∈ g.edges, e.From = c ∧ e.To = n := by
          simp only [List.mem_map, List.mem_filter, decide_eq_true_eq]
          constructor
          · rintro ⟨e, ⟨he, hf⟩, ht⟩
            exact ⟨e, he, hf, ht⟩
          · rintro ⟨e, he, hf, ht⟩
            exact ⟨e, ⟨he, hf⟩, ht⟩
        constructor
        · rintro ((h1 | h1) | ⟨c', hc', hrest⟩)
          · exact Or.inl h1
          · exact Or.inr ⟨c, List.mem_cons_self _ _, Or.inr ⟨hnone, hedge.1 h1⟩⟩
          · exact Or.inr ⟨c', List.mem_cons_of_mem _ hc', hrest⟩
        · rintro (h1 | ⟨c', hc', hrest⟩)
          · exact Or.inl (Or.inl h1)
          · rcases List.mem_cons.1 hc' with h2 | h2
            · subst h2
              rcases hrest with ⟨fn', hfn', _⟩ | ⟨_, hex⟩
              · rw [hnone] at hfn'
                cases hfn'
              · exact Or.inl (Or.inr (hedge.2 hex))
            · exact Or.inr ⟨c', h2, hrest⟩

theorem mergeAndRoute_inv (g : MessageGraph) (ctx : Context) (state st : Value)
    (cur next : List String) (results : List Value)
    (h : mergeAndRoute g ctx state cur results = .ok (st, next)) :
    mergeResults g ctx state (processResults results).1 = .ok st ∧
    determineNext g ctx st cur (processResults results).2 = .ok next := by
  unfold mergeAndRoute at h
  split at h
  · rename_i state' hm
    split at h
    · rename_i nextNodesList hnext
      simp only [Res.ok.injEq, Prod.mk.injEq] at h
      obtain ⟨h1, h2⟩ := h
      subst h1 h2
      exact ⟨hm, hnext⟩
    · cases h
    · cases h
  · cases h
  · cases h

theorem runnable_next_inv (r : Runnable) (config : Option Config) (ctx : Context)
    (state st : Value) (cur next ran : List String)
    (h : r.superStep config ctx state cur = .next st next ran) :
    ∃ nodes state', lookupNodes r.graph.nodes cur = .ok nodes ∧
      mergeAndRoute r.graph ctx state cur
        (resultsOf (nodes.map (fun n => (n.1, n.2.Function ctx state)))) = .ok (state', next) ∧
      st = cleanupState r.graph state' ∧ ran = cur := by
  unfold Runnable.superStep at h
  split at h
  · cases h
  · cases hl : lookupNodes r.graph.nodes cur with
    | error e => rw [hl] at h; cases h
    | ok nodes =>
      rw [hl] at h
      simp only at h
      split at h
      · cases h
      · split at h
        · split at h <;> cases h
        · split at h
          · cases h
          · cases h
          · rename_i state' nextNodesList hmr
            split at h
            · cases h
            · simp only [StepOut.next.injEq] at h
              obtain ⟨h1, h2, h3⟩ := h
              subst h2
              exact ⟨nodes, state', rfl, hmr, h1.symm, h3.symm⟩

theorem stateRunnable_next_inv (r : StateRunnable) (rd : Rendering) (ctx : Context)
    (state st : Value) (cur next ran : List String)
    (h : r.superStep rd ctx state cur = .next st next ran) :
    ∃ nodes state', lookupNodes r.graph.nodes cur = .ok nodes ∧
      mergeAndRoute r.graph.toMessageGraph ctx state cur
        (resultsOf (nodes.map (fun n => (n.1, r.executeNodeWithRetry rd ctx n.2 state)))) =
          .ok (state', next) ∧
      st = cleanupState r.graph.toMessageGraph state' ∧ ran = cur := by
  unfold StateRunnable.superStep at h
  cases hl : lookupNodes r.graph.nodes cur with
  | error e => rw [hl] at h; cases h
  | ok nodes =>
    rw [hl] at h
    simp only at h
    split at h
    · cases h
    · split at h
      · cases h
      · split at h
        · cases h
        · cases h
        · rename_i state' nextNodesList hmr
          simp only [StepOut.next.injEq] at h
          obtain ⟨h1, h2, h3⟩ := h
          subst h2
          exact ⟨nodes, state', rfl, hmr, h1.symm, h3.symm⟩

/-- C34: in a super-step in which the results supply no goto target, the next
frontier has no duplicate and its members are exactly, over the nodes that
ran, the name the conditional edge of the node returns on the post-merge state
when the node has one (its static edges are then not looked at), else the `To`
of every static edge whose `From` is the node. Both `Runnable` and
`StateRunnable` take their next frontier from this phase. -/
theorem next_frontier_union (g : MessageGraph) (ctx : Context) (state state' : Value)
    (cur next : List String) (results : List Value)
    (hgoto : (processResults results).2 = [])
    (h : mergeAndRoute g ctx state cur results = .ok (state', next)) :
    mergeResults g ctx state (processResults results).1 = .ok state' ∧
    next.Nodup ∧
    (∀ n, n ∈ next ↔ ∃ c ∈ cur,
      (∃ fn, mapGet g.conditionalEdges c = some fn ∧ n = fn ctx state') ∨
      (mapGet g.conditionalEdges c = none ∧ ∃ e ∈ g.edges, e.From = c ∧ e.To = n)) ∧
    (∀ (r : Runnable) (config : Option Config) (st0 st : Value) (ran nxt : List String),
      r.superStep config ctx st0 cur = .next st nxt ran →
      ∃ nodes merged, lookupNodes r.graph.nodes cur = .ok nodes ∧
        mergeAndRoute r.graph ctx st0 cur
          (resultsOf (nodes.map (fun n => (n.1, n.2.Function ctx st0)))) = .ok (merged, nxt)) ∧
    ∀ (r : StateRunnable) (rd : Rendering) (st0 st : Value) (ran nxt : List String),
      r.superStep rd ctx st0 cur = .next st nxt ran →
      ∃ nodes merged, lookupNodes r.graph.nodes cur = .ok nodes ∧
        mergeAndRoute r.graph.toMessageGraph ctx st0 cur
          (resultsOf (nodes.map (fun n => (n.1, r.executeNodeWithRetry rd ctx n.2 st0)))) =
            .ok (merged, nxt) := by
  obtain ⟨hm, hd⟩ := mergeAndRoute_inv g ctx state state' cur next results h
  have hs : staticNext g ctx state' cur [] = .ok next := by
    simpa [determineNext, hgoto] using hd
  refine ⟨hm, staticNext_nodup g ctx state' cur [] next List.nodup_nil hs, ?_, ?_, ?_⟩
  · intro n
    rw [staticNext_mem g ctx state' cur [] next hs n]
    simp
  · intro r config st0 st ran nxt hstep
    obtain ⟨nodes, merged, h1, h2, _, _⟩ := runnable_next_inv r config ctx st0 st cur nxt ran hstep
    exact ⟨nodes, merged, h1, h2⟩
  · intro r rd st0 st ran nxt hstep
    obtain ⟨nodes, merged, h1, h2, _, _⟩ := stateRunnable_next_inv r rd ctx st0 st cur nxt ran hstep
    exact ⟨nodes, merged, h1, h2⟩

/-- Witness of C34: in the routing graph, after A (conditional edge to B, the
static edge to D ignored) the frontier is B, and after B (edges to C, D and D
again) it is C and D. -/
theorem next_frontier_union_witness :
    (mergeAndRoute routingGraph background (.str "Start") ["A"] [.str "A"] =
        .ok (.str "A", ["B"]) ∧
      mergeAndRoute routingGraph background (.str "A") ["B"] [.str "B"] =
        .ok (.str "B", ["C", "D"])) ∧
    ∀ n, n ∈ ["C", "D"] ↔ ∃ c ∈ ["B"],
      (∃ fn, mapGet routingGraph.conditionalEdges c = some fn ∧
        n = fn background (.str "B")) ∨
      (mapGet routingGraph.conditionalEdges c = none ∧
        ∃ e ∈ routingGraph.edges, e.From = c ∧ e.To = n) :=
  ⟨⟨by decide, by decide⟩,
    (next_frontier_union routingGraph background (.str "A") (.str "B") ["B"] ["C", "D"]
      [.str "B"] (by decide) (by decide)).2.2.1⟩
/-! ## Failure of the frontier derivation -/

theorem staticNext_ok_of_no_failure (g : MessageGraph) (ctx : Context) (state : Value)
    (cur : List String) : ∀ set : List String,
    (∀ c ∈ cur, edgeFailure g ctx state c = none) →
      ∃ next, staticNext g ctx state cur set = .ok next := by
  induction cur with
  | nil => intro set _; exact ⟨set, rfl⟩
  | cons c rest ih =>
    intro set h
    have hc := h c (List.mem_cons_self _ _)
    have hrest := fun x hx => h x (List.mem_cons_of_mem _ hx)
    unfold edgeFailure at hc
    unfold staticNext
    split
    · rename_i fn hfn
      rw [hfn] at hc
      simp only at hc
      split at hc
      · cases hc
      · rename_i hne
        rw [if_neg hne]
        exact ih _ hrest
    · rename_i hnone
      rw [hnone] at hc
      simp only at hc
      split at hc
      · cases hc
      · rename_i hne
        rw [if_neg hne]
        exact ih _ hrest

theorem staticNext_first_failure (g : MessageGraph) (ctx : Context) (state : Value)
    (pre : List String) (c : String) (post : List String) (e : GoError) :
    ∀ set : List String, (∀ x ∈ pre, edgeFailure g ctx state x = none) →
      edgeFailure g ctx state c = some e →
      staticNext g ctx state (pre ++ c :: post) set = .err e := by
  induction pre with
  | nil =>
    intro set _ hc
    unfold edgeFailure at hc
    simp only [List.nil_append]
    unfold staticNext
    split
    · rename_i fn hfn
      rw [hfn] at hc
      simp only at hc
      split at hc
      · rename_i hemp
        rw [if_pos hemp]
        simp only [Option.some.injEq] at hc
        rw [hc]
      · cases hc
    · rename_i hnone
      rw [hnone] at hc
      simp only at hc
      split at hc
      · rename_i hemp
        rw [if_pos hemp]
        simp only [Option.some.injEq] at hc
        rw [hc]
      · cases hc
  | cons x rest ih =>
    intro set hpre hc
    have hx := hpre x (List.mem_cons_self _ _)
    have hrest := fun y hy => hpre y (List.mem_cons_of_mem _ hy)
    unfold edgeFailure at hx
    simp only [List.cons_append]
    unfold staticNext
    split
    · rename_i fn hfn
      rw [hfn] at hx
      simp only at hx
      split at hx
      · cases hx
      · rename_i hne
        rw [if_neg hne]
        exact ih _ hrest hc
    · rename_i hnone
      rw [hnone] at hx
      simp only at hx
      split at hx
      · cases hx
      · rename_i hne
        rw [if_neg hne]
        exact ih _ hrest hc

theorem edgeFailure_iff (g : MessageGraph) (ctx : Context) (state : Value) (c : String)
    (e : GoError) :
    edgeFailure g ctx state c = some e ↔
      (∃ fn, mapGet g.conditionalEdges c = some fn ∧ fn ctx state = "" ∧
        e = .errorString ("conditional edge returned empty next node from " ++ c)) ∨
      (mapGet g.conditionalEdges c = none ∧ (∀ edge ∈ g.edges, edge.From ≠ c) ∧
        e = .wrapError "" ErrNoOutgoingEdge (": " ++ c)) := by
  have hempty : (g.edges.filter (fun e => decide (e.From = c))).isEmpty = true ↔
      ∀ edge ∈ g.edges, edge.From ≠ c := by
    rw [List.isEmpty_iff, List.filter_eq_nil_iff]
    simp
  unfold edgeFailure
  split
  · rename_i fn hfn
    constructor
    · intro h
      split at h
      · rename_i hemp
        exact Or.inl ⟨fn, hfn, hemp, (Option.some.inj h).symm⟩
      · cases h
    · rintro (⟨fn', hfn', hemp, he⟩ | ⟨hnone, _⟩)
      · rw [hfn] at hfn'
        cases hfn'
        rw [if_pos hemp, he]
      · rw [hfn] at hnone
        cases hnone
  · rename_i hnone
    constructor
    · intro h
      split at h
      · rename_i hemp
        exact Or.inr ⟨hnone, hempty.1 hemp, (Option.some.inj h).symm⟩
      · cases h
    · rintro (⟨fn', hfn', _⟩ | ⟨_, hno, he⟩)
      · rw [hnone] at hfn'
        cases hfn'
      · rw [if_pos (hempty.2 hno), he]

theorem first_failure_split (f : String → Option GoError) (cur : List String)
    (h : ∃ c ∈ cur, f c ≠ none) :
    ∃ pre c post e, cur = pre ++ c :: post ∧ (∀ x ∈ pre, f x = none) ∧ f c = some e := by
  induction cur with
  | nil => obtain ⟨c, hc, _⟩ := h; cases hc
  | cons x rest ih =>
    cases hx : f x with
    | some e => exact ⟨[], x, rest, e, rfl, fun _ h => (by cases h), hx⟩
    | none =>
      obtain ⟨c, hc, hne⟩ := h
      have hrest : ∃ c ∈ rest, f c ≠ none := by
        rcases List.mem_cons.1 hc with h1 | h1
        · subst h1; exact absurd hx hne
        · exact ⟨c, h1, hne⟩
      obtain ⟨pre, c', post, e, h1, h2, h3⟩ := ih hrest
      refine ⟨x :: pre, c', post, e, by rw [h1]; rfl, ?_, h3⟩
      intro y hy
      rcases List.mem_cons.1 hy with h4 | h4
      · subst h4; exact hx
      · exact h2 y h4

theorem runnable_route_error (r : Runnable) (config : Option Config) (ctx : Context)
    (state : Value) (cur : List String) (nodes : List (String × Node)) (results : List Value)
    (e : GoError)
    (hgate : config.bind (fun c => interruptGate c.InterruptBefore cur) = none)
    (hlook : lookupNodes r.graph.nodes cur = .ok nodes)
    (hres : nodes.map (fun n => n.2.Function ctx state) = results.map Res.ok)
    (hroute : mergeAndRoute r.graph ctx state cur results = .err e) :
    r.superStep config ctx state cur = .ret .nil (some e) cur := by
  obtain ⟨h1, h2, h3⟩ := outs_all_ok nodeError (fun n : Node => n.Function ctx state)
    nodes results hres
  simp only [Runnable.superStep, hgate, hlook, h1, h2, h3, hroute]
  simp

theorem stateRunnable_route_error (r : StateRunnable) (rd : Rendering) (ctx : Context)
    (state : Value) (cur : List String) (nodes : List (String × Node)) (results : List Value)
    (e : GoError)
    (hlook : lookupNodes r.graph.nodes cur = .ok nodes)
    (hres : nodes.map (fun n => r.executeNodeWithRetry rd ctx n.2 state) = results.map Res.ok)
    (hroute : mergeAndRoute r.graph.toMessageGraph ctx state cur results = .err e) :
    r.superStep rd ctx state cur = .ret .nil (some e) cur := by
  obtain ⟨h1, h2, h3⟩ := outs_all_ok stateNodeError
    (fun n : Node => r.executeNodeWithRetry rd ctx n state) nodes results hres
  simp only [StateRunnable.superStep, hlook, h1, h2, h3, hroute]
  simp

/-- C35: in a super-step whose results supply no goto target and whose merge
gives the state `merged`, the derivation of the next frontier fails exactly
when some node that ran has a conditional edge returning the empty string on
`merged`, or has neither a conditional edge nor a static edge; the error is
that of the first such node in frontier order (the empty-successor error
naming the node, or `ErrNoOutgoingEdge` wrapped with the name of the node), and
`Runnable` and `StateRunnable` return it with a nil state. With goto targets
the derivation does not fail. -/
theorem frontier_derivation_fails (g : MessageGraph) (ctx : Context) (state merged : Value)
    (cur : List String) (results : List Value)
    (hgoto : (processResults results).2 = [])
    (hmerge : mergeResults g ctx state (processResults results).1 = .ok merged) :
    ((∃ e, mergeAndRoute g ctx state cur results = .err e) ↔
      ∃ c ∈ cur,
        (∃ fn, mapGet g.conditionalEdges c = some fn ∧ fn ctx merged = "") ∨
        (mapGet g.conditionalEdges c = none ∧ ∀ edge ∈ g.edges, edge.From ≠ c)) ∧
    (∀ pre c post e, cur = pre ++ c :: post →
      (∀ x ∈ pre, edgeFailure g ctx merged x = none) →
      ((∃ fn, mapGet g.conditionalEdges c = some fn ∧ fn ctx merged = "" ∧
          e = .errorString ("conditional edge returned empty next node from " ++ c)) ∨
        (mapGet g.conditionalEdges c = none ∧ (∀ edge ∈ g.edges, edge.From ≠ c) ∧
          e = .wrapError "" ErrNoOutgoingEdge (": " ++ c))) →
      mergeAndRoute g ctx state cur results = .err e ∧
      (∀ (r : Runnable) (config : Option Config) (nodes : List (String × Node)),
        r.graph = g →
        config.bind (fun c => interruptGate c.InterruptBefore cur) = none →
        lookupNodes r.graph.nodes cur = .ok nodes →
        nodes.map (fun n => n.2.Function ctx state) = results.map Res.ok →
        r.superStep config ctx state cur = .ret .nil (some e) cur) ∧
      ∀ (r : StateRunnable) (rd : Rendering) (nodes : List (String × Node)),
        r.graph.toMessageGraph = g →
        lookupNodes r.graph.nodes cur = .ok nodes →
        nodes.map (fun n => r.executeNodeWithRetry rd ctx n.2 state) = results.map Res.ok →
        r.superStep rd ctx state cur = .ret .nil (some e) cur) ∧
    ∀ (goto : List String) (st : Value), goto ≠ [] →
      determineNext g ctx st cur goto = .ok (dedupGoto goto []) := by
  have hroute : mergeAndRoute g ctx state cur results =
      match staticNext g ctx merged cur [] with
      | .ok next => .ok (merged, next)
      | .err e => .err e
      | .panic => .panic := by
    simp only [mergeAndRoute, hmerge, determineNext, hgoto, List.length_nil, gt_iff_lt,
      lt_self_iff_false, if_false]
  refine ⟨?_, ?_, ?_⟩
  · constructor
    · rintro ⟨e, he⟩
      by_contra hno
      have hall : ∀ c ∈ cur, edgeFailure g ctx merged c = none := by
        intro c hc
        cases hf : edgeFailure g ctx merged c with
        | none => rfl
        | some e' =>
          exfalso
          apply hno
          rcases (edgeFailure_iff g ctx merged c e').1 hf with ⟨fn, h1, h2, _⟩ | ⟨h1, h2, _⟩
          · exact ⟨c, hc, Or.inl ⟨fn, h1, h2⟩⟩
          · exact ⟨c, hc, Or.inr ⟨h1, h2⟩⟩
      obtain ⟨next, hnext⟩ := staticNext_ok_of_no_failure g ctx merged cur [] hall
      rw [hroute, hnext] at he
      cases he
    · rintro ⟨c, hc, hbad⟩
      have hex : ∃ c ∈ cur, edgeFailure g ctx merged c ≠ none := by
        refine ⟨c, hc, ?_⟩
        rcases hbad with ⟨fn, h1, h2⟩ | ⟨h1, h2⟩
        · rw [(edgeFailure_iff g ctx merged c _).2 (Or.inl ⟨fn, h1, h2, rfl⟩)]
          simp
        · rw [(edgeFailure_iff g ctx merged c _).2 (Or.inr ⟨h1, h2, rfl⟩)]
          simp
      obtain ⟨pre, c', post, e, h1, h2, h3⟩ := first_failure_split _ cur hex
      refine ⟨e, ?_⟩
      rw [hroute, h1, staticNext_first_failure g ctx merged pre c' post e [] h2 h3]
  · intro pre c post e hcur hpre hbad
    have hf : edgeFailure g ctx merged c = some e := (edgeFailure_iff g ctx merged c e).2 hbad
    have herr : mergeAndRoute g ctx state cur results = .err e := by
      rw [hroute, hcur, staticNext_first_failure g ctx merged pre c post e [] hpre hf]
    refine ⟨herr, ?_, ?_⟩
    · intro r config nodes hg hgate hlook hres
      subst hg
      exact runnable_route_error r config ctx state cur nodes results e hgate hlook hres herr
    · intro r rd nodes hg hlook hres
      subst hg
      exact stateRunnable_route_error r rd ctx state cur nodes results e hlook hres herr
  · intro goto st hne
    have hlen : goto.length > 0 := List.length_pos.2 hne
    simp [determineNext, hlen]

/-- Witness of C35: in the routing graph the step of C and D fails at C, which
has no outgoing edge, with `ErrNoOutgoingEdge` naming C and a nil state. -/
theorem frontier_derivation_fails_witness :
    mergeAndRoute routingGraph background (.str "B") ["C", "D"] [.str "C", .str "D"] =
      .err (.wrapError "" ErrNoOutgoingEdge ": C") ∧
    (Runnable.mk routingGraph).superStep none background (.str "B") ["C", "D"] =
      .ret .nil (some (.wrapError "" ErrNoOutgoingEdge ": C")) ["C", "D"] :=
  ⟨((frontier_derivation_fails routingGraph background (.str "B") (.str "D") ["C", "D"]
      [.str "C", .str "D"] (by decide) (by decide)).2.1 [] "C" ["D"]
      (.wrapError "" ErrNoOutgoingEdge ": C") rfl (fun x hx => by cases hx)
      (Or.inr ⟨rfl, by decide, rfl⟩)).1,
    by decide⟩

/-! ## contains -/

theorem string_eq_of_data (s t : String) (h : s.data = t.data) : s = t := by
  cases s
  cases t
  simp only at h
  rw [h]

theorem findSubstring_iff (s substr : String) :
    findSubstring s substr = true ↔
      ∃ i, i + substr.length ≤ s.length ∧
        (s.data.drop i).take substr.length = substr.data := by
  unfold findSubstring
  simp only [List.any_eq_true, List.mem_range, decide_eq_true_eq]
  constructor
  · rintro ⟨i, hi, h⟩
    exact ⟨i, by omega, h⟩
  · rintro ⟨i, hi, h⟩
    exact ⟨i, by omega, h⟩

theorem window_iff_infix (l m : List Char) :
    (∃ i, i + m.length ≤ l.length ∧ (l.drop i).take m.length = m) ↔ m <:+: l := by
  constructor
  · rintro ⟨i, _, h⟩
    refine ⟨l.take i, (l.drop i).drop m.length, ?_⟩
    have h1 : (l.drop i).take m.length ++ (l.drop i).drop m.length = l.drop i :=
      List.take_append_drop _ _
    rw [h] at h1
    rw [List.append_assoc, h1, List.take_append_drop]
  · rintro ⟨a, b, h⟩
    refine ⟨a.length, ?_, ?_⟩
    · rw [← h]
      simp only [List.length_append]
      omega
    · rw [← h, List.append_assoc, List.drop_left, List.take_left]

/-- Counterexample to C36 as stated: the empty pattern occurs in every string,
and yet `contains("boom", "")` is false, so a policy whose only retryable
pattern is empty does not retry the error `boom`. -/
theorem contains_empty_pattern_false :
    "".data <:+: "boom".data ∧
    contains "boom" "" = false ∧
    (∀ rd : Rendering,
      StateRunnable.isRetryableError
        { graph := NewStateGraph.SetRetryPolicy
            { MaxRetries := 3, BackoffStrategy := .FixedBackoff, RetryableErrors := [""] } }
        rd (.errorString "boom") = false) := by
  refine ⟨⟨[], "boom".data, rfl⟩, by decide, ?_⟩
  intro rd
  have h : contains "boom" "" = false := by decide
  simp [StateRunnable.isRetryableError, StateGraph.SetRetryPolicy, NewStateGraph,
    GoError.Error, h]

/-- C36, amended: `contains(s, substr)` is true exactly when `s` and `substr`
are equal or `substr` is not empty and occurs as a contiguous substring of
`s`; hence `isRetryableError(err)` is true exactly when a policy is set and
some pattern of `RetryableErrors` is the text of `err` or is a non-empty
substring of it. An empty pattern matches the empty text only. -/
theorem contains_spec (s substr : String) :
    (contains s substr = true ↔
      s = substr ∨ (substr ≠ "" ∧ substr.data <:+: s.data)) ∧
    ∀ (r : StateRunnable) (rd : Rendering) (err : GoError),
      r.isRetryableError rd err = true ↔
        ∃ policy, r.graph.retryPolicy = some policy ∧
          ∃ pat ∈ policy.RetryableErrors,
            err.Error rd = pat ∨ (pat ≠ "" ∧ pat.data <:+: (err.Error rd).data) := by
  have key : ∀ s substr : String, contains s substr = true ↔
      s = substr ∨ (substr ≠ "" ∧ substr.data <:+: s.data) := by
    intro s substr
    have hlen : ∀ t : String, t.length = t.data.length := fun _ => rfl
    have hne : substr ≠ "" ↔ substr.length > 0 := by
      constructor
      · intro h
        by_contra h0
        apply h
        apply string_eq_of_data
        have : substr.data.length = 0 := by rw [← hlen]; omega
        exact List.length_eq_zero.1 this
      · intro h heq
        rw [heq] at h
        exact absurd h (by decide)
    have hfind := findSubstring_iff s substr
    have hwin := window_iff_infix s.data substr.data
    simp only [← hlen] at hwin
    constructor
    · intro h
      unfold contains at h
      simp only [Bool.and_eq_true, Bool.or_eq_true, decide_eq_true_eq] at h
      obtain ⟨_, h1 | ⟨⟨hpos, _⟩, h2⟩⟩ := h
      · exact Or.inl h1
      · refine Or.inr ⟨hne.2 hpos, ?_⟩
        rcases h2 with (h3 | h3) | h3
        · exact ⟨[], s.data.drop substr.length, by
            rw [List.nil_append, ← h3, List.take_append_drop]⟩
        · exact ⟨s.data.take (s.length - substr.length), [], by
            rw [List.append_nil, ← h3, List.take_append_drop]⟩
        · exact hwin.1 (hfind.1 h3)
    · rintro (h | ⟨hnonempty, hinfix⟩)
      · subst h
        simp [contains]
      · obtain ⟨i, hi, hw⟩ := hwin.2 hinfix
        have hpos := hne.1 hnonempty
        unfold contains
        simp only [Bool.and_eq_true, Bool.or_eq_true, decide_eq_true_eq]
        refine ⟨by omega, ?_⟩
        by_cases heq : s.length = substr.length
        · left
          apply string_eq_of_data
          have hi0 : i = 0 := by omega
          subst hi0
          rw [← hw, List.drop_zero]
          exact (List.take_of_length_le (by show s.length ≤ substr.length; omega)).symm
        · right
          exact ⟨⟨hpos, by omega⟩, Or.inr (hfind.2 ⟨i, hi, hw⟩)⟩
  refine ⟨key s substr, ?_⟩
  intro r rd err
  unfold StateRunnable.isRetryableError
  cases hp : r.graph.retryPolicy with
  | none => simp
  | some policy =>
    simp only [List.any_eq_true, Option.some.injEq, exists_eq_left']
    constructor
    · rintro ⟨pat, hpat, hc⟩
      exact ⟨pat, hpat, (key _ _).1 hc⟩
    · rintro ⟨pat, hpat, hc⟩
      exact ⟨pat, hpat, (key _ _).2 hc⟩

/-- Witness of C36 as amended: `timeout` occurs in `request timeout reached`. -/
theorem contains_spec_witness :
    contains "request timeout reached" "timeout" = true ∧
    ("request timeout reached" = "timeout" ∨
      ("timeout" ≠ "" ∧ "timeout".data <:+: "request timeout reached".data)) :=
  ⟨by decide,
    (contains_spec "request timeout reached" "timeout").1.1 (by decide)⟩

/-! ## A nil update under a MapSchema -/

theorem update_nil_partial (s : MapSchema) (current : Value) :
    ∃ e, s.Update current .nil = .err (.errorString e) := by
  cases current <;> exact ⟨_, rfl⟩

theorem mergeWithSchema_nil_mem (s : MapSchema) (updates : List Value) :
    ∀ state, .nil ∈ updates → ∀ st, mergeWithSchema s.toSchema state updates ≠ .ok st := by
  induction updates with
  | nil => intro state h; cases h
  | cons u rest ih =>
    intro state h st
    unfold mergeWithSchema
    split
    · rename_i state' hu
      rcases List.mem_cons.1 h with h1 | h1
      · subst h1
        obtain ⟨e, he⟩ := update_nil_partial s state
        simp only [MapSchema.toSchema] at hu
        rw [he] at hu
        cases hu
      · exact ih state' h1 st
    · simp
    · simp

/-- C37: `MapSchema.Update` takes a nil `current` for the empty map and rejects
a nil update for every `current`; so, under a `MapSchema`, a merge whose
updates hold a nil never succeeds, and a super-step of `Runnable` or
`StateRunnable` whose single node returns nil, or a Command whose `Update` is
nil, returns a nil state with the error `schema update failed: …`. -/
theorem nil_update_fails (s : MapSchema) (ctx : Context) (state : Value) :
    (∀ new, s.Update .nil new = s.Update (.map []) new) ∧
    (∀ current, ∃ e, s.Update current .nil = .err (.errorString e)) ∧
    (∀ updates, .nil ∈ updates → ∀ st, mergeWithSchema s.toSchema state updates ≠ .ok st) ∧
    (∀ (r : Runnable) (config : Option Config) (n : String) (node : Node) (v : Value),
      r.graph.Schema = some s.toSchema →
      config.bind (fun c => interruptGate c.InterruptBefore [n]) = none →
      mapGet r.graph.nodes n = some node → node.Function ctx state = .ok v →
      processedResult v = .nil →
      ∃ e, s.Update state .nil = .err e ∧
        r.superStep config ctx state [n] =
          .ret .nil (some (.wrapError "schema update failed: " e "")) [n]) ∧
    ∀ (r : StateRunnable) (rd : Rendering) (n : String) (node : Node) (v : Value),
      r.graph.Schema = some s.toSchema →
      mapGet r.graph.nodes n = some node → r.executeNodeWithRetry rd ctx node state = .ok v →
      processedResult v = .nil →
      ∃ e, s.Update state .nil = .err e ∧
        r.superStep rd ctx state [n] =
          .ret .nil (some (.wrapError "schema update failed: " e "")) [n] := by
  have hroute : ∀ (g : MessageGraph) (cur : List String) (v : Value),
      g.Schema = some s.toSchema → processedResult v = .nil →
      ∃ e, s.Update state .nil = .err e ∧
        mergeAndRoute g ctx state cur [v] =
          .err (.wrapError "schema update failed: " e "") := by
    intro g cur v hs hv
    obtain ⟨e, he⟩ := update_nil_partial s state
    refine ⟨_, he, ?_⟩
    simp [mergeAndRoute, processResults, hv, mergeResults, hs, mergeWithSchema,
      MapSchema.toSchema, he]
  refine ⟨fun new => rfl, update_nil_partial s,
    fun updates => mergeWithSchema_nil_mem s updates state, ?_, ?_⟩
  · intro r config n node v hs hgate hnode hf hv
    obtain ⟨e, he, hr⟩ := hroute r.graph [n] v hs hv
    refine ⟨e, he, ?_⟩
    exact runnable_route_error r config ctx state [n] [(n, node)] [v] _ hgate
      (by simp [lookupNodes, hnode]) (by simp [hf]) hr
  · intro r rd n node v hs hnode hf hv
    obtain ⟨e, he, hr⟩ := hroute r.graph.toMessageGraph [n] v hs hv
    refine ⟨e, he, ?_⟩
    exact stateRunnable_route_error r rd ctx state [n] [(n, node)] [v] _
      (by simp [lookupNodes, hnode]) (by simp [hf]) hr

/-- Witness of C37: a goto-only Command under the count schema ends both
invocations with a nil state and a schema-update error; B never runs. -/
theorem nil_update_fails_witness :
    (∃ e, countSchema.Update (countState 0) .nil = .err e ∧
      (Runnable.mk gotoOnlyGraph.toMessageGraph).superStep none background (countState 0) ["A"] =
        .ret .nil (some (.wrapError "schema update failed: " e "")) ["A"]) ∧
    (Runnable.mk gotoOnlyGraph.toMessageGraph).InvokeWithConfig 3 background (countState 0)
        none =
      .returned .nil (some (.wrapError "schema update failed: "
        (.errorString "new state is not a map[string]interface{}") "")) ∧
    (StateRunnable.mk gotoOnlyGraph).InvokeWithConfig plainRendering 3 background
        (countState 0) none =
      .returned .nil (some (.wrapError "schema update failed: "
        (.errorString "new state is not a map[string]interface{}") "")) :=
  ⟨(nil_update_fails countSchema background (countState 0)).2.2.2.1
      (Runnable.mk gotoOnlyGraph.toMessageGraph) none "A"
      { Name := "A", Function := fun _ _ => .ok (.command .nil (.str "B")) }
      (.command .nil (.str "B")) rfl rfl rfl rfl rfl,
    by decide, by decide⟩

/-! ## AddMessages on a nil current -/

/-- C38: `AddMessages(nil, new)` returns `new` as it is: a single message is not
wrapped into a sequence, and for a `new` holding two messages of the same
non-empty identity the result holds both, whereas on the empty sequence the
second replaces the first and the result holds one. -/
theorem AddMessages_nil_current (T t : GoType) (m1 m2 : Value)
    (hid : getMessageID m1 ≠ "") (hsame : getMessageID m1 = getMessageID m2)
    (ht : typeOf m2 = some t) (ha : assignableTo t T = true) :
    (∀ new, AddMessages .nil new = .ok new) ∧
    AddMessages .nil m1 = .ok m1 ∧
    AddMessages .nil (.slice T [m1, m2]) = .ok (.slice T [m1, m2]) ∧
    AddMessages (.slice T []) (.slice T [m1, m2]) = .ok (.slice T [m2]) := by
  refine ⟨fun new => rfl, rfl, rfl, ?_⟩
  have hid2 : getMessageID m2 ≠ "" := by rw [← hsame]; exact hid
  simp [AddMessages, newMessagesOf, indexMessages, addMessage, hid, hid2, hsame, mapGet, mapSet,
    rebuildSlice, ht, ha]

/-- Witness of C38: two test messages with the identity `1`. -/
theorem AddMessages_nil_current_witness :
    AddMessages .nil (.slice (.named "TestMessage")
        [TestMessage "1" "First", TestMessage "1" "Second"]) =
      .ok (.slice (.named "TestMessage")
        [TestMessage "1" "First", TestMessage "1" "Second"]) ∧
    AddMessages (.slice (.named "TestMessage") []) (.slice (.named "TestMessage")
        [TestMessage "1" "First", TestMessage "1" "Second"]) =
      .ok (.slice (.named "TestMessage") [TestMessage "1" "Second"]) :=
  (AddMessages_nil_current (.named "TestMessage") (.named "TestMessage")
    (TestMessage "1" "First") (TestMessage "1" "Second") (by decide) (by decide) rfl
    (by decide)).2.2

/-! ## A negative MaxRetries -/

/-- C39: with a retry policy whose `MaxRetries` is negative (a 64-bit integer),
the loop of `executeNodeWithRetry` has no iteration: the node function is never
called and `(nil, nil)` is returned, so in the super-step the node leaves no
error and the result nil. -/
theorem negative_MaxRetries_skips_node (r : StateRunnable) (policy : RetryPolicy)
    (rd : Rendering) (ctx : Context) (state : Value)
    (hp : r.graph.retryPolicy = some policy)
    (hneg : policy.MaxRetries < 0) (hint : -2 ^ 63 ≤ policy.MaxRetries) :
    r.maxRetries.toNat = 0 ∧
    (∀ node, r.executeNodeWithRetry rd ctx node state = .ok .nil) ∧
    (∀ call, r.retryCalls rd ctx call r.maxRetries.toNat 0 = 0) ∧
    ∀ nodes : List (String × Node),
      anyPanic (nodes.map (fun n => (n.1, r.executeNodeWithRetry rd ctx n.2 state))) = false ∧
      errorsOf stateNodeError
        (nodes.map (fun n => (n.1, r.executeNodeWithRetry rd ctx n.2 state))) = [] ∧
      resultsOf (nodes.map (fun n => (n.1, r.executeNodeWithRetry rd ctx n.2 state))) =
        nodes.map (fun _ => Value.nil) := by
  have hmax : r.maxRetries.toNat = 0 := by
    simp only [StateRunnable.maxRetries, hp]
    rw [wrapInt64_of_range _ ⟨by omega, by omega⟩]
    omega
  have hexec : ∀ node, r.executeNodeWithRetry rd ctx node state = .ok .nil := by
    intro node
    simp [StateRunnable.executeNodeWithRetry, hmax, StateRunnable.retryLoop]
  refine ⟨hmax, hexec, ?_, ?_⟩
  · intro call
    simp [hmax, StateRunnable.retryCalls]
  · intro nodes
    have := outs_all_ok stateNodeError (fun n : Node => r.executeNodeWithRetry rd ctx n state)
      nodes (nodes.map (fun _ => Value.nil)) (by simp [hexec])
    exact this

/-- Witness of C39: `MaxRetries = -1` on a node that would return
`{count: 1}`. -/
theorem negative_MaxRetries_skips_node_witness :
    (retryRunnable (-1)).executeNodeWithRetry plainRendering background
      (countNode "A" 1) (countState 0) = .ok .nil :=
  (negative_MaxRetries_skips_node (retryRunnable (-1)) _ plainRendering background
    (countState 0) rfl (by decide) (by decide)).2.1 (countNode "A" 1)
/-! ## GetState without a checkpoint -/

/-- C40: when the config names no checkpoint and the thread has none,
`GetState` with a non-nil config returns, without error, a snapshot with nil
`Values` and the given config; with a nil config it dereferences the nil
config, a runtime panic. With a nil config and a checkpoint listed for the
execution id it returns the snapshot of the last listed checkpoint. -/
theorem GetState_no_checkpoint (cr : CheckpointableRunnable) (range : RangeOrder)
    (store : MemoryCheckpointStore) :
    (∀ c : Config, configString (some c) "checkpoint_id" = "" →
      store.List range (cr.threadOf (some c)) = [] →
      ∃ snapshot, cr.GetState range store (some c) = .ok snapshot ∧
        snapshot.Values = .nil ∧ snapshot.Config = c) ∧
    (store.List range cr.executionID = [] → cr.GetState range store none = .panic) ∧
    ∀ checkpoint, (store.List range cr.executionID).getLast? = some checkpoint →
      ∃ snapshot, cr.GetState range store none = .ok snapshot ∧
        snapshot.Values = checkpoint.State ∧
        snapshot.Config = checkpointConfig cr.executionID checkpoint.ID := by
  have hthread : cr.threadOf none = cr.executionID := by
    simp [CheckpointableRunnable.threadOf, configString]
  refine ⟨?_, ?_, ?_⟩
  · intro c hid hlist
    refine ⟨{ Values := .nil, Next := [], Config := c, Metadata := [], ParentID := "" },
      ?_, rfl, rfl⟩
    simp [CheckpointableRunnable.GetState, hid, hlist]
  · intro hlist
    simp [CheckpointableRunnable.GetState, configString, hthread, hlist]
  · intro checkpoint hlast
    refine ⟨
      { Values := checkpoint.State, Next := [],
        Config := checkpointConfig cr.executionID checkpoint.ID,
        Metadata := checkpoint.Metadata, ParentID := "" }, ?_, rfl, rfl⟩
    simp [CheckpointableRunnable.GetState, configString, hthread, hlast]

/-- Witness of C40: on an empty store a config naming the thread `t` gives the
empty snapshot and a nil config panics; on a store holding a checkpoint of the
execution a nil config gives its state. -/
theorem GetState_no_checkpoint_witness :
    (∃ snapshot,
      (updateStateRunnable countSchema.toSchema).GetState id NewMemoryCheckpointStore
          (some (threadConfig "t")) = .ok snapshot ∧
        snapshot.Values = .nil ∧ snapshot.Config = threadConfig "t") ∧
    (updateStateRunnable countSchema.toSchema).GetState id NewMemoryCheckpointStore none =
      .panic ∧
    ∃ snapshot,
      (updateStateRunnable countSchema.toSchema).GetState id (oneCheckpointStore (countState 11))
          none = .ok snapshot ∧
        snapshot.Values = countState 11 :=
  ⟨(GetState_no_checkpoint (updateStateRunnable countSchema.toSchema) id
      NewMemoryCheckpointStore).1 (threadConfig "t") rfl rfl,
    rfl, ⟨_, rfl, rfl⟩⟩

end Graph
